import Mathlib

/-!
# Cluster map (`smapX`) and its owner (`smapowner`)

A shallow embedding of `dfc/clustermap.go`: the versioned cluster map, its
structural edits, and the `synchronize` / `persist` arbitration of the map
owner, followed by the properties proved about them. The scatter-gather
list of `memsys/iosgl.go` is embedded in the namespace `Memsys`.

Conventions of the embedding

* A Go `map[string]V` is an association list read through `GoMap.get` (first
  binding of the key), written through `GoMap.set` and `GoMap.del`, which
  drop every older binding of the key, so the lookup behaviour is that of a
  finite map for every list.
* A Go pointer that may be nil is an `Option`.
* The role maps `Tmap` and `Pmap` of a struct may be nil: a nil map has no
  entries, is read like an empty map, and a write to it is a run-time panic.
  The flags `TmapNil` and `PmapNil` of `smapX` say that the map is nil.
* A method with a pointer receiver is a function from the receiver's state to
  an `Exec`: either the method returned, leaving the receiver in a state, or a
  run-time panic was raised with the receiver in a state.
* `int64` is an `Int` kept in `[-2^63, 2^63)`; `++` wraps (`wrap64`).
* The mutex of `smapowner` and the `glog` calls have no effect on a
  single-threaded run and are recorded as comments only.
-/

namespace Dfc

/-! ## Go values -/

/-- Go `map[string]V`: association list, most recent binding first. -/
abbrev GoMap (V : Type) := List (String × V)

namespace GoMap

/-- The two-valued read `v, ok := m[k]`. -/
def get {V : Type} (m : GoMap V) (k : String) : Option V :=
  match m with
  | [] => none
  | (k', v) :: rest => if k' = k then some v else get rest k

/-- Go `delete(m, k)`. -/
def del {V : Type} (m : GoMap V) (k : String) : GoMap V :=
  m.filter (fun e => decide (e.1 ≠ k))

/-- Go `m[k] = v`. -/
def set {V : Type} (m : GoMap V) (k : String) (v : V) : GoMap V :=
  (k, v) :: del m k

/-- Go `_, ok := m[k]`. -/
def has {V : Type} (m : GoMap V) (k : String) : Bool :=
  (get m k).isSome

end GoMap

/-- Smallest `int64`. -/
def minInt64 : Int := -9223372036854775808

/-- Largest `int64`. -/
def maxInt64 : Int := 9223372036854775807

/-- The value an `int64` register holds after an arithmetic result `i`. -/
def wrap64 (i : Int) : Int :=
  (i + 9223372036854775808) % 18446744073709551616 - 9223372036854775808

/-- The value is one an `int64` can hold. -/
def isInt64 (i : Int) : Prop := minInt64 ≤ i ∧ i ≤ maxInt64

instance (i : Int) : Decidable (isInt64 i) := by
  unfold isInt64; infer_instance

/-- Outcome of running a method on a receiver of type `σ`. -/
inductive Exec (σ ρ : Type) where
  /-- The method returned `r`, leaving the receiver in state `s`. -/
  | ret (s : σ) (r : ρ)
  /-- A run-time panic was raised while the receiver was in state `s`. -/
  | panic (s : σ) (msg : String)
  deriving DecidableEq, Repr

/-- State in which an execution leaves the receiver, by return or by
panic. -/
def Exec.state {σ ρ : Type} : Exec σ ρ → σ
  | .ret s _ => s
  | .panic s _ => s

/-- Text of the Go run-time panic on a nil pointer dereference. -/
def nilDeref : String := "runtime error: invalid memory address or nil pointer dereference"

/-- Text of the Go run-time panic on a write to a nil map. -/
def nilMapWrite : String := "assignment to entry in nil map"

/-! ## `cluster.Snode` and `cluster.Smap` -/

/-- Modelled from the spec: `cluster.NetInfo`, declared in package `cluster`,
is one network endpoint, an (IP, port, URL) triple; the field names are
those used by `newSnode`. -/
structure NetInfo where
  NodeIPAddr : String
  DaemonPort : String
  DirectURL : String
  deriving DecidableEq, Repr

/-- Modelled from the spec: `cluster.Snode`, declared in package `cluster`,
is the node descriptor: an id and the public, intra-cluster control and
intra-cluster data endpoints. Its digest is a fingerprint derived
deterministically from the id, so it is a function of `DaemonID` and not a
field of the descriptor. -/
structure Snode where
  DaemonID : String
  PublicNet : NetInfo
  InternalNet : NetInfo
  ReplNet : NetInfo
  deriving DecidableEq, Repr

/-- Go `common.SimpleKVs`, a `map[string]string`. -/
abbrev SimpleKVs := GoMap String

/-- The map `smapX`: `type smapX struct { cluster.Smap }`. Modelled from the
spec: the embedded `cluster.Smap`, declared in package `cluster`, holds the
targets and the proxies by node id, the non-electable set, the primary and
the version. `NonElects` is `none` for a nil Go map; `ProxySI` is `none` for
a nil pointer. `TmapNil` (resp. `PmapNil`) says that `Tmap` (resp. `Pmap`) is
the nil map, which has no entries; a map made by `make` is not nil. -/
structure smapX where
  Tmap : GoMap Snode
  Pmap : GoMap Snode
  NonElects : Option SimpleKVs
  ProxySI : Option Snode
  Version : Int
  TmapNil : Bool := false
  PmapNil : Bool := false
  deriving DecidableEq, Repr

namespace smapX

/-- Modelled from the spec: `cluster.Smap.GetTarget`, declared in package
`cluster`, returns the descriptor stored in `targets` under the id, nil when
the id is absent. -/
def GetTarget (m : smapX) (sid : String) : Option Snode :=
  m.Tmap.get sid

/-- Modelled from the spec: `cluster.Smap.GetProxy`, declared in package
`cluster`, returns the descriptor stored in `proxies` under the id, nil when
the id is absent. -/
def GetProxy (m : smapX) (pid : String) : Option Snode :=
  m.Pmap.get pid

/-- Source `smapX.init`: target and proxy maps made anew, hence not nil; a
non-electable map made anew only when `elsize > 0`. -/
def init (m : smapX) (_tsize _psize elsize : Nat) : smapX :=
  { m with
    Tmap := []
    Pmap := []
    TmapNil := false
    PmapNil := false
    NonElects := if elsize > 0 then some [] else m.NonElects }

/-- The zero value `&smapX{}`: the three maps and the primary are nil, the
version is 0. -/
def zero : smapX :=
  { Tmap := [], Pmap := [], NonElects := none, ProxySI := none, Version := 0,
    TmapNil := true, PmapNil := true }

/-- Source `newSmap`. -/
def newSmap : smapX :=
  zero.init 8 8 0

/-- Source `smapX.version`. -/
def version (m : smapX) : Int := m.Version

/-- Source `smapX.isPresent`. -/
def isPresent (m : smapX) (si : Snode) (isproxy : Bool) : Bool :=
  if isproxy then
    (m.GetProxy si.DaemonID).isSome
  else
    (m.GetTarget si.DaemonID).isSome

/-- Source `smapX.isValid`. -/
def isValid (m : smapX) : Bool :=
  match m.ProxySI with
  | none => false
  | some psi => m.isPresent psi true

/-- Source `smapX.isPrimary`. -/
def isPrimary (m : smapX) (self : Snode) : Bool :=
  if !m.isValid then
    false
  else
    match m.ProxySI with
    | none => false
    | some psi => decide (psi.DaemonID = self.DaemonID)

/-- Source `smapX.containsID`. -/
def containsID (m : smapX) (id : String) : Bool :=
  if (m.GetTarget id).isSome then
    true
  else if (m.GetProxy id).isSome then
    true
  else
    false

/-- Source `smapX.addTarget`. Modelled from the spec: `common.Assert`,
declared in package `common`, fails fatally when its condition is false; the
fault is raised before the receiver is touched. The write
`m.Tmap[tsi.DaemonID] = tsi` that follows is a run-time panic when `m.Tmap`
is nil. -/
def addTarget (m : smapX) (tsi : Snode) : Exec smapX Unit :=
  if m.containsID tsi.DaemonID then
    .panic m ("FATAL: duplicate daemon ID: '" ++ tsi.DaemonID ++ "'")
  else if m.TmapNil then
    .panic m nilMapWrite
  else
    .ret { m with
           Tmap := m.Tmap.set tsi.DaemonID tsi
           Version := wrap64 (m.Version + 1) } ()

/-- Source `smapX.addProxy`, with `common.Assert` as in `addTarget`; the write
`m.Pmap[psi.DaemonID] = psi` is a run-time panic when `m.Pmap` is nil. -/
def addProxy (m : smapX) (psi : Snode) : Exec smapX Unit :=
  if m.containsID psi.DaemonID then
    .panic m ("FATAL: duplicate daemon ID: '" ++ psi.DaemonID ++ "'")
  else if m.PmapNil then
    .panic m nilMapWrite
  else
    .ret { m with
           Pmap := m.Pmap.set psi.DaemonID psi
           Version := wrap64 (m.Version + 1) } ()

end smapX

/-! ## `smapowner` -/

/-- The part of `ctx.config` that `persist` reads and writes:
`ctx.config.Proxy.PrimaryURL` and `ctx.config.Confdir`. -/
structure Config where
  PrimaryURL : String
  Confdir : String
  deriving DecidableEq, Repr

/-- What a `common.LocalSave` call is asked to write. -/
inductive Payload where
  | config (c : Config)
  | smap (m : smapX)
  deriving DecidableEq, Repr

/-- One call of `common.LocalSave(path, payload)` and whether it returned a
nil error. -/
structure SaveCall where
  path : String
  payload : Payload
  ok : Bool
  deriving DecidableEq, Repr

/-- Names and library functions that `clustermap.go` uses and that are
declared elsewhere: `jsoniter.MarshalIndent(m, "", " ")`, `clivars.conffile`,
the constant `smapname` and `filepath.Join`. -/
structure Env where
  marshalIndent : smapX → String
  conffile : String
  smapname : String
  pathJoin : String → String → String

/-- The error, if any, that each of the two `common.LocalSave` calls of one
`persist` returns: `none` is a nil error, `some e` an error that prints
as `e`. -/
structure SaveOutcomes where
  conf : Option String
  smap : Option String
  deriving DecidableEq, Repr

/-- The state `synchronize` runs on: the pointer `smapowner.smap` (nil until
the first `put`), the global `ctx.config`, and the `common.LocalSave` calls
made so far, oldest first. -/
structure World where
  smap : Option smapX
  config : Config
  saves : List SaveCall
  deriving DecidableEq, Repr

namespace smapX

/-- Source `smapX.pp`. -/
def pp (env : Env) (m : smapX) : String :=
  "smapX v" ++ toString m.Version ++ ":\n" ++ env.marshalIndent m

end smapX

namespace smapowner

/-- Source `smapowner.put`: the `Digest()` calls refresh a value that is a
function of the node id and leave the descriptors of the model as they are;
the store replaces the pointer. -/
def put (w : World) (smap : smapX) : World :=
  { w with smap := some smap }

/-- Source `smapowner.get`: the atomic load of the pointer. -/
def get (w : World) : Option smapX :=
  w.smap

/-- Source `smapowner.Get`: loads the pointer and returns `&smapx.Smap`. The
field address of a nil pointer is a run-time panic in Go, so the call
returns only when the pointer is set, and then returns a non-nil pointer. -/
def Get (w : World) : Exec World (Option smapX) :=
  match w.smap with
  | none => .panic w nilDeref
  | some smapx => .ret w (some smapx)

/-- Source `smapowner.persist`. `origURL` is read first, then
`newsmap.ProxySI` is dereferenced (a panic when nil), the configuration is
saved, and the snapshot is saved when `saveSmap` is set; a failure of the
second save is only logged. -/
def persist (env : Env) (io : SaveOutcomes) (w : World) (newsmap : smapX)
    (saveSmap : Bool) : Exec World String :=
  let origURL := w.config.PrimaryURL
  match newsmap.ProxySI with
  | none => .panic w nilDeref
  | some psi =>
    let config1 : Config := { w.config with PrimaryURL := psi.PublicNet.DirectURL }
    match io.conf with
    | some err =>
      .ret { w with
             config := { config1 with PrimaryURL := origURL }
             saves := w.saves ++ [⟨env.conffile, .config config1, false⟩] }
        ("Error writing config file " ++ env.conffile ++ ", err: " ++ err)
    | none =>
      let w1 : World :=
        { w with
          config := config1
          saves := w.saves ++ [⟨env.conffile, .config config1, true⟩] }
      if saveSmap then
        let smappathname := env.pathJoin w1.config.Confdir env.smapname
        .ret { w1 with
               saves := w1.saves ++ [⟨smappathname, .smap newsmap, io.smap.isNone⟩] } ""
      else
        .ret w1 ""

/-- Source `smapowner.synchronize`; `r.Lock()` follows the validity check and
`r.Unlock()` precedes each return after it. -/
def synchronize (env : Env) (io : SaveOutcomes) (w : World) (newsmap : smapX)
    (saveSmap lesserVersionIsErr : Bool) : Exec World String :=
  if !newsmap.isValid then
    .ret w ("Invalid smapX: " ++ newsmap.pp env)
  else
    match Get w with
    | .panic w0 msg => .panic w0 msg
    | .ret w0 smap =>
      let proceed : Exec World String :=
        match persist env io w0 newsmap saveSmap with
        | .panic w1 msg => .panic w1 msg
        | .ret w1 errstr => if errstr = "" then .ret (put w1 newsmap) errstr else .ret w1 errstr
      match smap with
      | none => proceed
      | some cur =>
        let myver := cur.Version
        if newsmap.version ≤ myver then
          if lesserVersionIsErr && decide (newsmap.version < myver) then
            .ret w0 ("Attempt to downgrade local smapX v" ++ toString myver ++ " to v"
              ++ toString newsmap.version)
          else
            .ret w0 ""
        else
          proceed

/-- One `synchronize` call: the candidate, the two flags, and what the
durable writes of that call will answer. -/
structure Call where
  newsmap : smapX
  saveSmap : Bool
  lesserVersionIsErr : Bool
  io : SaveOutcomes

/-- State in which an execution leaves the world. -/
def after {ρ : Type} : Exec World ρ → World
  | .ret w _ => w
  | .panic w _ => w

/-- The states a node goes through under a sequence of `synchronize` calls,
the initial state first; a panic ends the run. -/
def trace (env : Env) (w : World) : List Call → List World
  | [] => [w]
  | c :: cs =>
    match synchronize env c.io w c.newsmap c.saveSmap c.lesserVersionIsErr with
    | .ret w1 _ => w :: trace env w1 cs
    | .panic w1 _ => [w, w1]

/-- From state `a` to state `b` the current snapshot, when `a` has one, is
either kept or replaced by a snapshot of a strictly greater version. -/
def keptOrNewer (a b : World) : Prop :=
  ∀ s, a.smap = some s → b.smap = some s ∨ ∃ s', b.smap = some s' ∧ s.Version < s'.Version

/-- State `b` has a current snapshot whenever `a` has one, and its version is
not less than that of `a`. -/
def notOlder (a b : World) : Prop :=
  ∀ s, a.smap = some s → ∃ s', b.smap = some s' ∧ s.Version ≤ s'.Version

end smapowner

/-! ## Removal, copy and merge -/

namespace smapX

/-- Source `smapX.delTarget`; `common.Assert(false, ...)` is the fatal fault,
raised before the receiver is touched. The `delete` is reached only when the
id is a key of `m.Tmap`, which is then not nil. -/
def delTarget (env : Env) (m : smapX) (sid : String) : Exec smapX Unit :=
  if (m.GetTarget sid).isNone then
    .panic m ("FATAL: target: " ++ sid ++ " is not in the smap: " ++ m.pp env)
  else
    .ret { m with
           Tmap := m.Tmap.del sid
           Version := wrap64 (m.Version + 1) } ()

/-- Source `smapX.delProxy`, with `common.Assert` as in `delTarget`. -/
def delProxy (env : Env) (m : smapX) (pid : String) : Exec smapX Unit :=
  if (m.GetProxy pid).isNone then
    .panic m ("FATAL: proxy: " ++ pid ++ " is not in the smap: " ++ m.pp env)
  else
    .ret { m with
           Pmap := m.Pmap.del pid
           Version := wrap64 (m.Version + 1) } ()

/-- Go `len(m.NonElects)`; a nil map has length 0. -/
def lenNonElects (m : smapX) : Nat :=
  match m.NonElects with
  | none => 0
  | some kvs => kvs.length

/-- The loop `for id, v := range m.Tmap { dst.Tmap[id] = v }` of `deepcopy`
over the entries still to visit; it runs on the `dst.Tmap` that `init` has
just made. -/
def copyTargets (dst : smapX) : GoMap Snode → smapX
  | [] => dst
  | (id, v) :: rest => copyTargets { dst with Tmap := dst.Tmap.set id v } rest

/-- The loop `for id, v := range m.Pmap { dst.Pmap[id] = v }` of `deepcopy`
over the entries still to visit; it runs on the `dst.Pmap` that `init` has
just made. -/
def copyProxies (dst : smapX) : GoMap Snode → smapX
  | [] => dst
  | (id, v) :: rest => copyProxies { dst with Pmap := dst.Pmap.set id v } rest

/-- The loop `for id, v := range m.NonElects { dst.NonElects[id] = v }` of
`deepcopy` over the entries still to visit; a write to a nil map is a
run-time panic. -/
def copyNonElects (dst : smapX) : SimpleKVs → Exec smapX Unit
  | [] => .ret dst ()
  | (id, v) :: rest =>
    match dst.NonElects with
    | none => .panic dst "assignment to entry in nil map"
    | some kvs => copyNonElects { dst with NonElects := some (kvs.set id v) } rest

/-- Source `smapX.deepcopy`, the state being that of `dst`.
`common.CopyStruct(dst, m)` assigns the struct `*m` to `*dst`; `init` then
gives `dst` its own target and proxy maps, and its own non-electable map only
when `m` has entries there. -/
def deepcopy (m _dst : smapX) : Exec smapX Unit :=
  let dst := m
  let dst := dst.init m.Tmap.length m.Pmap.length m.lenNonElects
  let dst := copyTargets dst m.Tmap
  let dst := copyProxies dst m.Pmap
  match m.NonElects with
  | none => .ret dst ()
  | some kvs => copyNonElects dst kvs

/-- Source `smapX.clone`: the receiver is only read, the copy is returned. -/
def clone (m : smapX) : Exec smapX smapX :=
  match m.deepcopy zero with
  | .ret dst _ => .ret m dst
  | .panic _ msg => .panic m msg

/-- Body of the first loop of `merge`: a target of the receiver goes into
`dst.Tmap` when its id is a key of neither `dst.Tmap` nor `dst.Pmap`; the
write `dst.Tmap[id] = v` is a run-time panic when `dst.Tmap` is nil. -/
def mergeTarget (dst : smapX) (id : String) (v : Snode) : Exec smapX Unit :=
  if !dst.Tmap.has id then
    if !dst.Pmap.has id then
      if dst.TmapNil then
        .panic dst nilMapWrite
      else
        .ret { dst with Tmap := dst.Tmap.set id v } ()
    else
      .ret dst ()
  else
    .ret dst ()

/-- Body of the second loop of `merge`: a proxy of the receiver goes into
`dst.Pmap` when its id is a key of neither `dst.Pmap` nor `dst.Tmap`; the
write `dst.Pmap[id] = v` is a run-time panic when `dst.Pmap` is nil. -/
def mergeProxy (dst : smapX) (id : String) (v : Snode) : Exec smapX Unit :=
  if !dst.Pmap.has id then
    if !dst.Tmap.has id then
      if dst.PmapNil then
        .panic dst nilMapWrite
      else
        .ret { dst with Pmap := dst.Pmap.set id v } ()
    else
      .ret dst ()
  else
    .ret dst ()

/-- The loop `for id, v := range m.Tmap { ... }` of `merge` over the entries
still to visit; a panic ends it. -/
def mergeTargets (dst : smapX) : GoMap Snode → Exec smapX Unit
  | [] => .ret dst ()
  | (id, v) :: rest =>
    match mergeTarget dst id v with
    | .ret dst1 _ => mergeTargets dst1 rest
    | .panic dst1 msg => .panic dst1 msg

/-- The loop `for id, v := range m.Pmap { ... }` of `merge` over the entries
still to visit; a panic ends it. -/
def mergeProxies (dst : smapX) : GoMap Snode → Exec smapX Unit
  | [] => .ret dst ()
  | (id, v) :: rest =>
    match mergeProxy dst id v with
    | .ret dst1 _ => mergeProxies dst1 rest
    | .panic dst1 msg => .panic dst1 msg

/-- Source `smapX.merge`: the receiver `m` is only read; the state of the
execution is that of `dst`. -/
def merge (m dst : smapX) : Exec smapX Unit :=
  match mergeTargets dst m.Tmap with
  | .panic dst1 msg => .panic dst1 msg
  | .ret dst1 _ => mergeProxies dst1 m.Pmap

/-- No id is a key of both the targets and the proxies. -/
def disjoint (m : smapX) : Prop :=
  ∀ id, ¬ (m.Tmap.has id = true ∧ m.Pmap.has id = true)

/-- Maps built from `newSmap` by calls of `addTarget`, `addProxy`,
`delTarget`, `delProxy` that return, by `clone`, and by merging any map into
them (the state in which `merge` leaves them). -/
inductive Reachable (env : Env) : smapX → Prop where
  | newSmap : Reachable env newSmap
  | addTarget (m m1 : smapX) (tsi : Snode) :
      Reachable env m → m.addTarget tsi = .ret m1 () → Reachable env m1
  | addProxy (m m1 : smapX) (psi : Snode) :
      Reachable env m → m.addProxy psi = .ret m1 () → Reachable env m1
  | delTarget (m m1 : smapX) (sid : String) :
      Reachable env m → m.delTarget env sid = .ret m1 () → Reachable env m1
  | delProxy (m m1 : smapX) (pid : String) :
      Reachable env m → m.delProxy env pid = .ret m1 () → Reachable env m1
  | clone (m m0 m1 : smapX) :
      Reachable env m → m.clone = .ret m0 m1 → Reachable env m1
  | merge (src dst : smapX) :
      Reachable env dst → Reachable env (src.merge dst).state

end smapX

/-! ## Map objects in memory

A Go map value is a reference to a map object: a struct assignment copies the
reference, and two structs that hold the same reference share the object.
The definitions below run `init`, `deepcopy` and `clone` on a memory of map
objects, so that what a copy shares with its original can be read off. -/

/-- Go memory of map objects, addressed by position: the
`map[string]*cluster.Snode` objects and the `common.SimpleKVs` objects. -/
structure Heap where
  nodeMaps : List (GoMap Snode)
  kvMaps : List SimpleKVs
  deriving DecidableEq, Repr

/-- The struct `smapX` as it lies in memory: each of the three map fields
holds a reference to a map object, `none` for a nil map. -/
structure smapXRef where
  Tmap : Option Nat
  Pmap : Option Nat
  NonElects : Option Nat
  ProxySI : Option Snode
  Version : Int
  deriving DecidableEq, Repr

namespace Heap

/-- The entries of the node map behind a reference; a nil map reads as
empty. -/
def nodesAt (h : Heap) (r : Option Nat) : GoMap Snode :=
  match r with
  | none => []
  | some a => h.nodeMaps.getD a []

/-- The entries of the `SimpleKVs` map behind a reference; a nil map reads as
empty. -/
def kvsAt (h : Heap) (r : Option Nat) : SimpleKVs :=
  match r with
  | none => []
  | some a => h.kvMaps.getD a []

/-- Go `make(map[string]*cluster.Snode, n)`: a new empty map object and the
reference to it. -/
def makeNodes (h : Heap) : Heap × Option Nat :=
  ({ h with nodeMaps := h.nodeMaps ++ [[]] }, some h.nodeMaps.length)

/-- Go `make(common.SimpleKVs, n)`: a new empty map object and the reference
to it. -/
def makeKvs (h : Heap) : Heap × Option Nat :=
  ({ h with kvMaps := h.kvMaps ++ [[]] }, some h.kvMaps.length)

/-- Go `r[k] = v` on a node map; a write to a nil map is a run-time panic. -/
def setNode (h : Heap) (r : Option Nat) (k : String) (v : Snode) : Exec Heap Unit :=
  match r with
  | none => .panic h "assignment to entry in nil map"
  | some a =>
    .ret { h with nodeMaps := h.nodeMaps.set a ((h.nodeMaps.getD a []).set k v) } ()

/-- Go `r[k] = v` on a `SimpleKVs` map; a write to a nil map is a run-time
panic. -/
def setKv (h : Heap) (r : Option Nat) (k v : String) : Exec Heap Unit :=
  match r with
  | none => .panic h "assignment to entry in nil map"
  | some a =>
    .ret { h with kvMaps := h.kvMaps.set a ((h.kvMaps.getD a []).set k v) } ()

end Heap

namespace smapXRef

/-- The map value that a struct denotes in a memory. -/
def view (h : Heap) (m : smapXRef) : smapX :=
  { Tmap := h.nodesAt m.Tmap
    Pmap := h.nodesAt m.Pmap
    NonElects := m.NonElects.map (fun a => h.kvMaps.getD a [])
    ProxySI := m.ProxySI
    Version := m.Version
    TmapNil := m.Tmap.isNone
    PmapNil := m.Pmap.isNone }

/-- Source `smapX.init` on memory: `Tmap` and `Pmap` always receive new map
objects, `NonElects` only when `elsize > 0`. -/
def init (h : Heap) (m : smapXRef) (_tsize _psize elsize : Nat) : Heap × smapXRef :=
  let t := h.makeNodes
  let p := t.1.makeNodes
  if elsize > 0 then
    let e := p.1.makeKvs
    (e.1, { m with Tmap := t.2, Pmap := p.2, NonElects := e.2 })
  else
    (p.1, { m with Tmap := t.2, Pmap := p.2 })

/-- The loop `for id, v := range m.Tmap { dst.Tmap[id] = v }` of `deepcopy`
on memory, over the entries still to visit. -/
def copyTargets (dst : smapXRef) (h : Heap) : GoMap Snode → Exec Heap Unit
  | [] => .ret h ()
  | (id, v) :: rest =>
    match h.setNode dst.Tmap id v with
    | .ret h1 _ => copyTargets dst h1 rest
    | .panic h1 msg => .panic h1 msg

/-- The loop `for id, v := range m.Pmap { dst.Pmap[id] = v }` of `deepcopy`
on memory, over the entries still to visit. -/
def copyProxies (dst : smapXRef) (h : Heap) : GoMap Snode → Exec Heap Unit
  | [] => .ret h ()
  | (id, v) :: rest =>
    match h.setNode dst.Pmap id v with
    | .ret h1 _ => copyProxies dst h1 rest
    | .panic h1 msg => .panic h1 msg

/-- The loop `for id, v := range m.NonElects { dst.NonElects[id] = v }` of
`deepcopy` on memory, over the entries still to visit. -/
def copyNonElects (dst : smapXRef) (h : Heap) : SimpleKVs → Exec Heap Unit
  | [] => .ret h ()
  | (id, v) :: rest =>
    match h.setKv dst.NonElects id v with
    | .ret h1 _ => copyNonElects dst h1 rest
    | .panic h1 msg => .panic h1 msg

/-- Source `smapX.deepcopy` on memory. `common.CopyStruct(dst, m)` assigns
the struct `*m` to `*dst`, references included; the result is the memory
and the struct `*dst` after the call. -/
def deepcopy (h : Heap) (m _dst : smapXRef) : Exec Heap smapXRef :=
  let dst := m
  let hd := init h dst (h.nodesAt m.Tmap).length (h.nodesAt m.Pmap).length
    (h.kvsAt m.NonElects).length
  match copyTargets hd.2 hd.1 (hd.1.nodesAt m.Tmap) with
  | .panic h1 msg => .panic h1 msg
  | .ret h1 _ =>
    match copyProxies hd.2 h1 (h1.nodesAt m.Pmap) with
    | .panic h2 msg => .panic h2 msg
    | .ret h2 _ =>
      match copyNonElects hd.2 h2 (h2.kvsAt m.NonElects) with
      | .panic h3 msg => .panic h3 msg
      | .ret h3 _ => .ret h3 hd.2

/-- Source `smapX.clone` on memory: `dst := &smapX{}` followed by
`m.deepcopy(dst)`. -/
def clone (h : Heap) (m : smapXRef) : Exec Heap smapXRef :=
  deepcopy h m ⟨none, none, none, none, 0⟩

end smapXRef

/-! ## `newSnode` -/

/-- Go `net.TCPAddr`: the IP as its bytes, the port and the zone. -/
structure TCPAddr where
  IP : List UInt8
  Port : Int
  Zone : String
  deriving DecidableEq, Repr

/-- The methods of package `net` that `newSnode` calls: `IP.String()` and
`(*TCPAddr).String()`. -/
structure NetLib where
  ipString : List UInt8 → String
  addrString : TCPAddr → String

/-- Source `newSnode`. The three addresses are pointers; a nil one is
dereferenced before the descriptor is built. `strconv.Itoa` prints the port
in decimal; `snode.Digest()` refreshes a value that is a function of the
id. -/
def newSnode (lib : NetLib) (id proto : String)
    (publicAddr internalAddr replAddr : Option TCPAddr) : Exec Unit Snode :=
  match publicAddr with
  | none => .panic () nilDeref
  | some pa =>
    let publicNet : NetInfo :=
      { NodeIPAddr := lib.ipString pa.IP
        DaemonPort := toString pa.Port
        DirectURL := proto ++ "://" ++ lib.addrString pa }
    match internalAddr with
    | none => .panic () nilDeref
    | some ia =>
      let internalNet : NetInfo :=
        if ia.IP.length > 0 then
          { NodeIPAddr := lib.ipString ia.IP
            DaemonPort := toString ia.Port
            DirectURL := proto ++ "://" ++ lib.addrString ia }
        else
          publicNet
      match replAddr with
      | none => .panic () nilDeref
      | some ra =>
        let replNet : NetInfo :=
          if ra.IP.length > 0 then
            { NodeIPAddr := lib.ipString ra.IP
              DaemonPort := toString ra.Port
              DirectURL := proto ++ "://" ++ lib.addrString ra }
          else
            publicNet
        .ret () { DaemonID := id, PublicNet := publicNet, InternalNet := internalNet,
                  ReplNet := replNet }

/-! ## Equality of maps as Go maps -/

/-- The keys of the list are distinct, as those of a Go map are. -/
def GoMap.distinct {V : Type} (m : GoMap V) : Prop :=
  (m.map Prod.fst).Nodup

/-- The three maps of the struct have distinct keys. -/
def smapX.distinctKeys (m : smapX) : Prop :=
  m.Tmap.distinct ∧ m.Pmap.distinct ∧ ∀ kvs, m.NonElects = some kvs → GoMap.distinct kvs

/-- Two non-electable maps are both nil, or both non-nil with the same
entries. -/
def sameKVs : Option SimpleKVs → Option SimpleKVs → Prop
  | none, none => True
  | some a, some b => ∀ k, GoMap.get a k = GoMap.get b k
  | _, _ => False

/-- Two structs hold the same map value: same version, same primary, and the
same entries in the targets, the proxies and the non-electable map. -/
def smapX.same (a b : smapX) : Prop :=
  a.Version = b.Version ∧ a.ProxySI = b.ProxySI ∧
  (∀ k, a.Tmap.get k = b.Tmap.get k) ∧ (∀ k, a.Pmap.get k = b.Pmap.get k) ∧
  sameKVs a.NonElects b.NonElects

end Dfc

/-! ## `memsys.SGL`

A shallow embedding of `memsys/iosgl.go`: a scatter-gather list of buffers of
one slab, written through `Write` and read through `Read`, `readAtOffset` and
`ReadAll`. A byte slice is the list of its bytes; the buffers of `z.sgl` are
written in place, so a write through `z.sgl[idx]` replaces that buffer in the
list. Offsets and lengths are sizes of data held in memory and are kept as
natural numbers. The loops run on fuel; `Outcome.timeout` stands for a loop
that is still running when the fuel is spent. The slab mutexes have no
effect on a single-threaded run. -/

namespace Memsys

/-- Result of running a function of the package. -/
inductive Outcome (α : Type) where
  /-- The function returned `a`. -/
  | ok (a : α)
  /-- A run-time panic was raised. -/
  | panic (msg : String)
  /-- A loop did not end within its fuel. -/
  | timeout
  deriving DecidableEq, Repr

/-- The error values the functions return: only `io.EOF`. -/
inductive IOError where
  | EOF
  deriving DecidableEq, Repr

/-- The type `Slab` is declared in `memsys/slab.go`; here it is what the SGL
uses of it: `Size()`, the fixed buffer size, and `_alloc()`, which hands out
a buffer, taken as a function of the number of buffers the list already
holds so that the contents of a handed-out buffer are arbitrary. -/
structure Slab where
  bufSize : Nat
  alloc : Nat → List UInt8

/-- Source `SGL`. -/
structure SGL where
  sgl : List (List UInt8)
  slab : Slab
  woff : Nat
  roff : Nat

/-- Go `copy(dst[lo:hi], src)`: the first `min (hi - lo) (len src)` bytes of
`src` replace the bytes of `dst` from position `lo`; the result is `dst`
afterwards and the number of bytes copied. -/
def copyInto (dst : List UInt8) (lo hi : Nat) (src : List UInt8) : List UInt8 × Nat :=
  let n := min (hi - lo) src.length
  (dst.take lo ++ src.take n ++ dst.drop (lo + n), n)

namespace SGL

/-- Source `SGL.Cap`. -/
def Cap (z : SGL) : Nat := z.sgl.length * z.slab.bufSize

/-- Source `SGL.Size`. -/
def Size (z : SGL) : Nat := z.woff

/-- The loop `for z.Cap() < toSize { z.sgl = append(z.sgl, z.slab._alloc()) }`
of `grow`. -/
def growLoop (toSize : Nat) : Nat → SGL → Outcome SGL
  | 0, z => if z.Cap < toSize then .timeout else .ok z
  | fuel + 1, z =>
    if z.Cap < toSize then
      growLoop toSize fuel { z with sgl := z.sgl ++ [z.slab.alloc z.sgl.length] }
    else
      .ok z

/-- Source `SGL.grow`; `toSize` iterations suffice when the buffer size is
positive. -/
def grow (z : SGL) (toSize : Nat) : Outcome SGL :=
  growLoop toSize toSize z

/-- The loop `for wlen > 0 { ... }` of `Write`, with the loop variables `idx`,
`off`, `wlen`, `poff`. -/
def writeLoop (p : List UInt8) : Nat → SGL → Nat → Nat → Nat → Nat → Outcome SGL
  | 0, z, _, _, wlen, _ => if wlen > 0 then .timeout else .ok z
  | fuel + 1, z, idx, off, wlen, poff =>
    if wlen > 0 then
      if z.slab.bufSize < off then
        .panic "slice bounds out of range"
      else
        let size := min (z.slab.bufSize - off) wlen
        match z.sgl[idx]? with
        | none => .panic "index out of range"
        | some buf =>
          if poff + size > p.length then
            .panic "slice bounds out of range"
          else if off > buf.length then
            .panic "slice bounds out of range"
          else
            let src := (p.drop poff).take size
            let buf1 := (copyInto buf off buf.length src).1
            writeLoop p fuel
              { z with sgl := z.sgl.set idx buf1, woff := z.woff + size }
              (idx + 1) 0 (wlen - size) (poff + size)
    else
      .ok z

/-- Source `SGL.Write`; the result is the SGL afterwards and the returned
`(n, err)`. -/
def Write (z : SGL) (p : List UInt8) : Outcome (SGL × Nat × Option IOError) :=
  let wlen := p.length
  let needtot := z.woff + wlen
  match (if needtot > z.Cap then z.grow needtot else .ok z) with
  | .panic msg => .panic msg
  | .timeout => .timeout
  | .ok z1 =>
    if z1.slab.bufSize = 0 then
      .panic "integer divide by zero"
    else
      match writeLoop p wlen z1 (z1.woff / z1.slab.bufSize) (z1.woff % z1.slab.bufSize)
          wlen 0 with
      | .panic msg => .panic msg
      | .timeout => .timeout
      | .ok z2 => .ok (z2, p.length, none)

/-- The loop `for n < len(b) && idx < len(z.sgl)-1 { ... }` of
`readAtOffset`, with the loop variables `b`, `n`, `roff`, `idx`. -/
def readLoop (z : SGL) : Nat → List UInt8 → Nat → Nat → Nat → Outcome (List UInt8 × Nat × Nat)
  | 0, b, n, roff, idx =>
    if n < b.length ∧ idx + 1 < z.sgl.length then .timeout else .ok (b, n, roff)
  | fuel + 1, b, n, roff, idx =>
    if n < b.length ∧ idx + 1 < z.sgl.length then
      match z.sgl[idx + 1]? with
      | none => .panic "index out of range"
      | some buf =>
        let size := min (b.length - n) (z.woff - roff)
        let r := copyInto b n (n + size) buf
        readLoop z fuel r.1 (n + r.2) (roff + r.2) (idx + 1)
    else
      .ok (b, n, roff)

/-- Source `SGL.readAtOffset`; the result is the buffer `b` afterwards and the
returned `(n, roff, err)`. -/
def readAtOffset (z : SGL) (b : List UInt8) (roffin : Nat) :
    Outcome (List UInt8 × Nat × Nat × Option IOError) :=
  let roff := roffin
  if roff ≥ z.woff then
    .ok (b, 0, roff, some .EOF)
  else if z.slab.bufSize = 0 then
    .panic "integer divide by zero"
  else
    let idx := roff / z.slab.bufSize
    let off := roff % z.slab.bufSize
    match z.sgl[idx]? with
    | none => .panic "index out of range"
    | some buf =>
      let size := min b.length (z.woff - roff)
      if off > buf.length then
        .panic "slice bounds out of range"
      else
        let r := copyInto b 0 size (buf.drop off)
        match readLoop z z.sgl.length r.1 r.2 (roff + r.2) idx with
        | .panic msg => .panic msg
        | .timeout => .timeout
        | .ok (b1, n, roff1) =>
          .ok (b1, n, roff1, if n < b.length then some .EOF else none)

/-- Source `SGL.Read`; the result is the SGL afterwards, the buffer `b`
afterwards and the returned `(n, err)`. -/
def Read (z : SGL) (b : List UInt8) : Outcome (SGL × List UInt8 × Nat × Option IOError) :=
  match z.readAtOffset b z.roff with
  | .panic msg => .panic msg
  | .timeout => .timeout
  | .ok (b1, n, roff1, err) => .ok ({ z with roff := roff1 }, b1, n, err)

/-- The loop of `ReadAll` over the buffers still to visit, with the loop
variables `b` and `off`. -/
def readAllLoop : List (List UInt8) → List UInt8 → Nat → Outcome (List UInt8)
  | [], b, _ => .ok b
  | buf :: rest, b, off =>
    if off > b.length then
      .panic "slice bounds out of range"
    else
      let r := copyInto b off b.length buf
      readAllLoop rest r.1 (off + r.2)

/-- Source `SGL.ReadAll`; the result is the returned `(b, err)`. -/
def ReadAll (z : SGL) : Outcome (List UInt8 × Option IOError) :=
  match readAllLoop z.sgl (List.replicate z.Size 0) 0 with
  | .panic msg => .panic msg
  | .timeout => .timeout
  | .ok b => .ok (b, none)

/-- A sequence of `Write` calls, the first slice first; the result is the SGL
after the last call. -/
def writeAll : SGL → List (List UInt8) → Outcome SGL
  | z, [] => .ok z
  | z, p :: ps =>
    match z.Write p with
    | .panic msg => .panic msg
    | .timeout => .timeout
    | .ok (z1, _, _) => writeAll z1 ps

/-- The slab has a positive buffer size and hands out buffers of that
size. -/
def slabOk (z : SGL) : Prop :=
  0 < z.slab.bufSize ∧ ∀ i, (z.slab.alloc i).length = z.slab.bufSize

/-- State of an SGL over a slab with positive buffer size: every buffer of
the list has the size of the slab, and the write offset is within the
capacity. -/
def wf (z : SGL) : Prop :=
  z.slabOk ∧ (∀ buf ∈ z.sgl, buf.length = z.slab.bufSize) ∧ z.woff ≤ z.Cap

/-- The bytes written so far: the first `woff` bytes of the buffers taken
one after the other. -/
def written (z : SGL) : List UInt8 :=
  z.sgl.flatten.take z.woff

end SGL

/-- A sample slab of buffer size 4 whose buffers arrive filled with 170. -/
def sampleSlab : Slab :=
  { bufSize := 4, alloc := fun _ => [170, 170, 170, 170] }

/-- An empty sample SGL over the sample slab, without buffers. -/
def sampleSGL : SGL :=
  { sgl := [], slab := sampleSlab, woff := 0, roff := 0 }

end Memsys

namespace Dfc

/-! ## Sample values -/

/-- A sample endpoint. -/
def sampleNet (url : String) : NetInfo :=
  { NodeIPAddr := "10.0.0.1", DaemonPort := "8080", DirectURL := url }

/-- A sample descriptor with the given id and public URL. -/
def sampleNode (id url : String) : Snode :=
  { DaemonID := id, PublicNet := sampleNet url, InternalNet := sampleNet url,
    ReplNet := sampleNet url }

/-- A valid sample map: one proxy `P1`, which is the primary, one target
`T1`. -/
def sampleMap (v : Int) : smapX :=
  { Tmap := [("T1", sampleNode "T1" "http://t1")]
    Pmap := [("P1", sampleNode "P1" "http://p1")]
    NonElects := none
    ProxySI := some (sampleNode "P1" "http://p1")
    Version := v }

/-- A sample environment. -/
def sampleEnv : Env :=
  { marshalIndent := fun _ => "(json)", conffile := "/etc/dfc.json", smapname := "smap.json",
    pathJoin := fun a b => a ++ "/" ++ b }

/-- A sample node state holding `sampleMap v`. -/
def sampleWorld (v : Int) : World :=
  { smap := some (sampleMap v)
    config := { PrimaryURL := "http://p0", Confdir := "/etc" }
    saves := [] }

/-- A sample source of a merge: targets `T1` and `T2`, no proxies. -/
def mergeSrc : smapX :=
  { Tmap := [("T1", sampleNode "T1" "http://t1"), ("T2", sampleNode "T2" "http://t2-src")]
    Pmap := []
    NonElects := none
    ProxySI := none
    Version := 2 }

/-- A sample destination of a merge: target `T2`, proxy `P1`, which is the
primary. -/
def mergeDst : smapX :=
  { Tmap := [("T2", sampleNode "T2" "http://t2-dst")]
    Pmap := [("P1", sampleNode "P1" "http://p1")]
    NonElects := none
    ProxySI := some (sampleNode "P1" "http://p1")
    Version := 5 }

/-- A sample memory: a target map with `T1`, a proxy map with `P1`, and one
`SimpleKVs` map that has no entries. -/
def sampleHeap : Heap :=
  { nodeMaps := [[("T1", sampleNode "T1" "http://t1")], [("P1", sampleNode "P1" "http://p1")]]
    kvMaps := [[]] }

/-- A sample struct in `sampleHeap`: its non-electable map is the empty,
non-nil map of that memory. -/
def sampleRef : smapXRef :=
  { Tmap := some 0, Pmap := some 1, NonElects := some 0,
    ProxySI := some (sampleNode "P1" "http://p1"), Version := 3 }

/-- A sample `net` library: addresses print as `ip:port` with the IP bytes
joined by dots. -/
def sampleNetLib : NetLib :=
  { ipString := fun ip => ".".intercalate (ip.map (fun b => toString b.toNat))
    addrString := fun a =>
      ".".intercalate (a.IP.map (fun b => toString b.toNat)) ++ ":" ++ toString a.Port }

/-- A sample node state whose owner has not published any snapshot. -/
def freshWorld : World :=
  { smap := none
    config := { PrimaryURL := "http://p0", Confdir := "/etc" }
    saves := [] }

/-- A map that `isValid` accepts although the primary has other endpoints
than the descriptor stored under its id in the proxies. -/
def staleProxyMap : smapX :=
  { Tmap := []
    Pmap := [("P1", sampleNode "P1" "http://old")]
    NonElects := none
    ProxySI := some (sampleNode "P1" "http://new")
    Version := 1 }

/-! ## Auxiliary facts -/

/-- A string that starts with a non-empty string is not empty. -/
theorem append_ne_empty (s t : String) (h : s.length ≠ 0) : s ++ t ≠ "" := by
  intro e
  have hl := congrArg String.length e
  rw [String.length_append] at hl
  have h0 : ("" : String).length = 0 := rfl
  omega

/-- Reading a map after `delete(m, k)`. -/
theorem GoMap.get_del {V : Type} (m : GoMap V) (k k' : String) :
    (GoMap.del m k).get k' = if k' = k then none else m.get k' := by
  induction m with
  | nil => simp [GoMap.del, GoMap.get]
  | cons e rest ih =>
    obtain ⟨a, v⟩ := e
    unfold GoMap.del at ih ⊢
    by_cases hak : a = k
    · subst hak
      simp only [List.filter_cons, ne_eq, not_true_eq_false, decide_False, Bool.false_eq_true,
        if_false, ih]
      by_cases hk : k' = a
      · simp [hk]
      · have hk2 : ¬ a = k' := fun h => hk h.symm
        simp [hk, GoMap.get, hk2]
    · simp only [List.filter_cons, ne_eq, hak, not_false_eq_true, decide_True, if_true]
      by_cases hka : a = k'
      · subst hka
        simp [GoMap.get, hak]
      · simp only [GoMap.get, hka, if_false]
        exact ih

/-- Reading a map after `m[k] = v`. -/
theorem GoMap.get_set {V : Type} (m : GoMap V) (k k' : String) (v : V) :
    (GoMap.set m k v).get k' = if k' = k then some v else m.get k' := by
  unfold GoMap.set
  by_cases hk : k' = k
  · subst hk
    simp [GoMap.get]
  · have hk2 : ¬ k = k' := fun h => hk h.symm
    simp [GoMap.get, hk, hk2, GoMap.get_del]

/-- An `int64` below the largest one is incremented without wrapping. -/
theorem wrap64_succ (v : Int) (hv : isInt64 v) (hmax : v < maxInt64) :
    wrap64 (v + 1) = v + 1 := by
  unfold isInt64 minInt64 at hv
  unfold maxInt64 at hmax
  unfold wrap64
  omega

/-- The method `containsID` answers true exactly for the keys of the targets
and of the proxies. -/
theorem containsID_eq (m : smapX) (id : String) :
    m.containsID id = ((m.Tmap.get id).isSome || (m.Pmap.get id).isSome) := by
  unfold smapX.containsID smapX.GetTarget smapX.GetProxy
  cases (m.Tmap.get id).isSome <;> cases (m.Pmap.get id).isSome <;> rfl

/-- A valid map has a primary, and the primary's id is a key of the proxies. -/
theorem isValid_iff (m : smapX) :
    m.isValid = true ↔ ∃ psi, m.ProxySI = some psi ∧ (m.Pmap.get psi.DaemonID).isSome = true := by
  unfold smapX.isValid smapX.isPresent smapX.GetProxy
  cases h : m.ProxySI with
  | none => simp
  | some psi => simp

/-- With the configuration write succeeding, `persist` returns the empty
error string. -/
theorem persist_conf_ok (env : Env) (io : SaveOutcomes) (w : World) (newsmap : smapX)
    (saveSmap : Bool) (psi : Snode) (hp : newsmap.ProxySI = some psi) (hc : io.conf = none) :
    ∃ w1, smapowner.persist env io w newsmap saveSmap = .ret w1 "" ∧
      w1.smap = w.smap ∧ w1.config.PrimaryURL = psi.PublicNet.DirectURL := by
  unfold smapowner.persist
  cases saveSmap <;> simp [hp, hc]

/-- With the configuration write failing, `persist` restores the
configuration, reports the failure and attempts no other write. -/
theorem persist_conf_fail (env : Env) (io : SaveOutcomes) (w : World) (newsmap : smapX)
    (saveSmap : Bool) (psi : Snode) (err : String) (hp : newsmap.ProxySI = some psi)
    (hc : io.conf = some err) :
    smapowner.persist env io w newsmap saveSmap =
      .ret { w with
             saves := w.saves ++
               [⟨env.conffile,
                 .config { w.config with PrimaryURL := psi.PublicNet.DirectURL }, false⟩] }
        ("Error writing config file " ++ env.conffile ++ ", err: " ++ err) := by
  unfold smapowner.persist
  simp [hp, hc]

/-- For a valid candidate and an owner holding a snapshot, the validity
check passes and `Get` returns the held snapshot, so `synchronize` is its
version comparison followed, for a newer candidate, by `persist` and `put`. -/
theorem synchronize_held (env : Env) (io : SaveOutcomes) (w : World) (cur newsmap : smapX)
    (saveSmap lesserVersionIsErr : Bool) (hcur : w.smap = some cur)
    (hvalid : newsmap.isValid = true) :
    smapowner.synchronize env io w newsmap saveSmap lesserVersionIsErr =
      if newsmap.Version ≤ cur.Version then
        if lesserVersionIsErr && decide (newsmap.Version < cur.Version) then
          .ret w ("Attempt to downgrade local smapX v" ++ toString cur.Version ++ " to v"
            ++ toString newsmap.Version)
        else
          .ret w ""
      else
        match smapowner.persist env io w newsmap saveSmap with
        | .panic w1 msg => .panic w1 msg
        | .ret w1 errstr =>
          if errstr = "" then .ret (smapowner.put w1 newsmap) errstr else .ret w1 errstr := by
  unfold smapowner.synchronize smapowner.Get smapX.version
  simp [hcur, hvalid]

/-- A valid candidate newer than the held snapshot is published when the
configuration write succeeds. -/
theorem synchronize_publishes (env : Env) (io : SaveOutcomes) (w : World)
    (cur newsmap : smapX) (saveSmap lesserVersionIsErr : Bool) (hcur : w.smap = some cur)
    (hvalid : newsmap.isValid = true) (hgt : cur.Version < newsmap.Version)
    (hconf : io.conf = none) :
    ∃ w1 psi, smapowner.synchronize env io w newsmap saveSmap lesserVersionIsErr
        = .ret w1 "" ∧
      w1.smap = some newsmap ∧
      newsmap.ProxySI = some psi ∧
      w1.config.PrimaryURL = psi.PublicNet.DirectURL := by
  obtain ⟨psi, hp, _⟩ := (isValid_iff newsmap).mp hvalid
  obtain ⟨w1, hper, _, hurl⟩ := persist_conf_ok env io w newsmap saveSmap psi hp hconf
  have h := synchronize_held env io w cur newsmap saveSmap lesserVersionIsErr hcur hvalid
  rw [if_neg (not_le.mpr hgt), hper] at h
  simp only [if_true] at h
  exact ⟨smapowner.put w1 newsmap, psi, h, rfl, hp, hurl⟩

/-! ## Properties of `synchronize` -/

/-- C1: when the owner holds a snapshot of version `cur` and a valid candidate
of version `new < cur` arrives with `lesserVersionIsErr = true`, `synchronize`
returns the non-empty downgrade error and leaves the whole state (current
snapshot, configuration, durable writes) as it was. -/
theorem synchronize_stale_strict (env : Env) (io : SaveOutcomes) (w : World)
    (cur newsmap : smapX) (saveSmap : Bool) (hcur : w.smap = some cur)
    (hvalid : newsmap.isValid = true) (hlt : newsmap.Version < cur.Version) :
    ∃ errstr, smapowner.synchronize env io w newsmap saveSmap true = .ret w errstr ∧
      errstr = "Attempt to downgrade local smapX v" ++ toString cur.Version ++ " to v"
        ++ toString newsmap.Version ∧
      errstr ≠ "" ∧
      smapowner.get (smapowner.after
        (smapowner.synchronize env io w newsmap saveSmap true)) = some cur ∧
      (smapowner.after
        (smapowner.synchronize env io w newsmap saveSmap true)).config.PrimaryURL
          = w.config.PrimaryURL := by
  have h := synchronize_held env io w cur newsmap saveSmap true hcur hvalid
  have hle : newsmap.Version ≤ cur.Version := le_of_lt hlt
  simp only [hle, hlt, if_true, Bool.true_and, decide_True] at h
  refine ⟨_, h, rfl, ?_, ?_, ?_⟩
  · rw [String.append_assoc, String.append_assoc]
    exact append_ne_empty _ _ (by decide)
  · rw [h]; exact hcur
  · rw [h]; rfl

/-- Instance of `synchronize_stale_strict` at version 5 against version 7. -/
theorem synchronize_stale_strict_witness :
    ∃ errstr, smapowner.synchronize sampleEnv ⟨none, none⟩ (sampleWorld 7) (sampleMap 5)
        true true = .ret (sampleWorld 7) errstr ∧
      errstr = "Attempt to downgrade local smapX v" ++ toString (sampleMap 7).Version
        ++ " to v" ++ toString (sampleMap 5).Version ∧
      errstr ≠ "" ∧
      smapowner.get (smapowner.after
        (smapowner.synchronize sampleEnv ⟨none, none⟩ (sampleWorld 7) (sampleMap 5)
          true true)) = some (sampleMap 7) ∧
      (smapowner.after
        (smapowner.synchronize sampleEnv ⟨none, none⟩ (sampleWorld 7) (sampleMap 5)
          true true)).config.PrimaryURL = (sampleWorld 7).config.PrimaryURL :=
  synchronize_stale_strict sampleEnv ⟨none, none⟩ (sampleWorld 7) (sampleMap 7) (sampleMap 5)
    true rfl (by decide) (by decide)

/-- C2: for every owner state, both flags, all versions and all outcomes of
the durable writes, a candidate for which `isValid` is false makes
`synchronize` return the non-empty validation error with the state (current
snapshot, configuration, durable writes) exactly as before, so no invalid
snapshot is ever published. -/
theorem synchronize_invalid (env : Env) (io : SaveOutcomes) (w : World) (newsmap : smapX)
    (saveSmap lesserVersionIsErr : Bool) (hinvalid : newsmap.isValid = false) :
    smapowner.synchronize env io w newsmap saveSmap lesserVersionIsErr
        = .ret w ("Invalid smapX: " ++ newsmap.pp env) ∧
      "Invalid smapX: " ++ newsmap.pp env ≠ "" ∧
      (smapowner.after
        (smapowner.synchronize env io w newsmap saveSmap lesserVersionIsErr)).smap = w.smap ∧
      (smapowner.after
        (smapowner.synchronize env io w newsmap saveSmap lesserVersionIsErr)).config
          = w.config ∧
      (smapowner.after
        (smapowner.synchronize env io w newsmap saveSmap lesserVersionIsErr)).saves
          = w.saves := by
  have h : smapowner.synchronize env io w newsmap saveSmap lesserVersionIsErr
      = .ret w ("Invalid smapX: " ++ newsmap.pp env) := by
    unfold smapowner.synchronize
    simp [hinvalid]
  refine ⟨h, append_ne_empty _ _ (by decide), ?_, ?_, ?_⟩ <;> rw [h] <;> rfl

/-- Instance of `synchronize_invalid` at a candidate without primary, newer than the
current snapshot. -/
theorem synchronize_invalid_witness :
    smapowner.synchronize sampleEnv ⟨none, none⟩ (sampleWorld 7)
        { sampleMap 9 with ProxySI := none } true true
        = .ret (sampleWorld 7)
            ("Invalid smapX: " ++ smapX.pp sampleEnv { sampleMap 9 with ProxySI := none }) ∧
      "Invalid smapX: " ++ smapX.pp sampleEnv { sampleMap 9 with ProxySI := none } ≠ "" ∧
      (smapowner.after
        (smapowner.synchronize sampleEnv ⟨none, none⟩ (sampleWorld 7)
          { sampleMap 9 with ProxySI := none } true true)).smap = (sampleWorld 7).smap ∧
      (smapowner.after
        (smapowner.synchronize sampleEnv ⟨none, none⟩ (sampleWorld 7)
          { sampleMap 9 with ProxySI := none } true true)).config = (sampleWorld 7).config ∧
      (smapowner.after
        (smapowner.synchronize sampleEnv ⟨none, none⟩ (sampleWorld 7)
          { sampleMap 9 with ProxySI := none } true true)).saves = (sampleWorld 7).saves :=
  synchronize_invalid sampleEnv ⟨none, none⟩ (sampleWorld 7)
    { sampleMap 9 with ProxySI := none } true true (by decide)

/-- C3: when the owner holds a snapshot of version `cur`, a valid candidate
of version `new > cur` arrives and the durable writes succeed, `synchronize`
returns the empty error string, the current snapshot afterwards is the
candidate (whose version is `new`), and the configuration's primary URL is the
public URL of the candidate's primary. -/
theorem synchronize_newer_ok (env : Env) (io : SaveOutcomes) (w : World)
    (cur newsmap : smapX) (saveSmap lesserVersionIsErr : Bool) (hcur : w.smap = some cur)
    (hvalid : newsmap.isValid = true) (hgt : cur.Version < newsmap.Version)
    (hconf : io.conf = none) (_hsmap : io.smap = none) :
    ∃ w1 psi, smapowner.synchronize env io w newsmap saveSmap lesserVersionIsErr
        = .ret w1 "" ∧
      smapowner.get w1 = some newsmap ∧
      (smapowner.get w1).map smapX.version = some newsmap.Version ∧
      newsmap.ProxySI = some psi ∧
      w1.config.PrimaryURL = psi.PublicNet.DirectURL := by
  obtain ⟨w1, psi, h, hget, hp, hurl⟩ :=
    synchronize_publishes env io w cur newsmap saveSmap lesserVersionIsErr hcur hvalid hgt
      hconf
  refine ⟨w1, psi, h, hget, ?_, hp, hurl⟩
  simp [smapowner.get, hget, smapX.version]

/-- Instance of `synchronize_newer_ok` at version 9 against version 7. -/
theorem synchronize_newer_ok_witness :
    ∃ w1 psi, smapowner.synchronize sampleEnv ⟨none, none⟩ (sampleWorld 7) (sampleMap 9)
        true true = .ret w1 "" ∧
      smapowner.get w1 = some (sampleMap 9) ∧
      (smapowner.get w1).map smapX.version = some (sampleMap 9).Version ∧
      (sampleMap 9).ProxySI = some psi ∧
      w1.config.PrimaryURL = psi.PublicNet.DirectURL :=
  synchronize_newer_ok sampleEnv ⟨none, none⟩ (sampleWorld 7) (sampleMap 7) (sampleMap 9)
    true true rfl (by decide) (by decide) rfl rfl

/-- C4: when the owner holds a snapshot, a valid strictly newer candidate
arrives and the configuration write fails, `synchronize` returns the non-empty
configuration-write error, the current snapshot is still the old one (same
version), and the in-memory configuration, its primary URL included, is what
it was before the call. -/
theorem synchronize_conf_write_fails (env : Env) (io : SaveOutcomes) (w : World)
    (cur newsmap : smapX) (saveSmap lesserVersionIsErr : Bool) (err : String)
    (hcur : w.smap = some cur) (hvalid : newsmap.isValid = true)
    (hgt : cur.Version < newsmap.Version) (hconf : io.conf = some err) :
    ∃ w1 errstr, smapowner.synchronize env io w newsmap saveSmap lesserVersionIsErr
        = .ret w1 errstr ∧
      errstr = "Error writing config file " ++ env.conffile ++ ", err: " ++ err ∧
      errstr ≠ "" ∧
      smapowner.get w1 = some cur ∧
      (smapowner.get w1).map smapX.version = some cur.Version ∧
      w1.config.PrimaryURL = w.config.PrimaryURL ∧
      w1.config = w.config := by
  obtain ⟨psi, hp, _⟩ := (isValid_iff newsmap).mp hvalid
  have hper := persist_conf_fail env io w newsmap saveSmap psi err hp hconf
  have hne : "Error writing config file " ++ env.conffile ++ ", err: " ++ err ≠ "" := by
    rw [String.append_assoc, String.append_assoc]
    exact append_ne_empty _ _ (by decide)
  have h := synchronize_held env io w cur newsmap saveSmap lesserVersionIsErr hcur hvalid
  rw [if_neg (not_le.mpr hgt), hper] at h
  simp only [if_neg hne] at h
  refine ⟨_, _, h, rfl, hne, hcur, ?_, rfl, rfl⟩
  simp [smapowner.get, hcur, smapX.version]

/-- Instance of `synchronize_conf_write_fails` at version 9 against version 7 with a
failing configuration write. -/
theorem synchronize_conf_write_fails_witness :
    ∃ w1 errstr, smapowner.synchronize sampleEnv ⟨some "disk full", none⟩ (sampleWorld 7)
        (sampleMap 9) true true = .ret w1 errstr ∧
      errstr = "Error writing config file " ++ sampleEnv.conffile ++ ", err: "
        ++ "disk full" ∧
      errstr ≠ "" ∧
      smapowner.get w1 = some (sampleMap 7) ∧
      (smapowner.get w1).map smapX.version = some (sampleMap 7).Version ∧
      w1.config.PrimaryURL = (sampleWorld 7).config.PrimaryURL ∧
      w1.config = (sampleWorld 7).config :=
  synchronize_conf_write_fails sampleEnv ⟨some "disk full", none⟩ (sampleWorld 7)
    (sampleMap 7) (sampleMap 9) true true "disk full" rfl (by decide) (by decide) rfl

/-- C5: for a valid strictly newer candidate with `saveSmap = true`: when the
configuration write succeeds and the snapshot write fails, `synchronize`
returns the empty error string and publishes the candidate, the failed
snapshot write being the last durable write; when the configuration write
fails, whatever the snapshot write would answer, `synchronize` returns a
non-empty error, keeps the old snapshot, and the failed configuration write is
the only durable write of the call. -/
theorem synchronize_write_asymmetry (env : Env) (io : SaveOutcomes) (w : World)
    (cur newsmap : smapX) (lesserVersionIsErr : Bool) (hcur : w.smap = some cur)
    (hvalid : newsmap.isValid = true) (hgt : cur.Version < newsmap.Version) :
    (io.conf = none → io.smap ≠ none →
      ∃ w1 conf, smapowner.synchronize env io w newsmap true lesserVersionIsErr
          = .ret w1 "" ∧
        smapowner.get w1 = some newsmap ∧
        w1.saves = w.saves ++
          [⟨env.conffile, .config conf, true⟩,
           ⟨env.pathJoin w.config.Confdir env.smapname, .smap newsmap, false⟩]) ∧
    (∀ err, io.conf = some err →
      ∃ w1 errstr conf, smapowner.synchronize env io w newsmap true lesserVersionIsErr
          = .ret w1 errstr ∧
        errstr ≠ "" ∧
        smapowner.get w1 = some cur ∧
        w1.saves = w.saves ++ [⟨env.conffile, .config conf, false⟩]) := by
  obtain ⟨psi, hp, _⟩ := (isValid_iff newsmap).mp hvalid
  have h := synchronize_held env io w cur newsmap true lesserVersionIsErr hcur hvalid
  rw [if_neg (not_le.mpr hgt)] at h
  constructor
  · intro hc hs
    have hs2 : io.smap.isNone = false := by
      cases hio : io.smap with
      | none => exact absurd hio hs
      | some e => rfl
    have hper : smapowner.persist env io w newsmap true =
        .ret { w with
               config := { w.config with PrimaryURL := psi.PublicNet.DirectURL }
               saves := (w.saves ++
                 [⟨env.conffile,
                   .config { w.config with PrimaryURL := psi.PublicNet.DirectURL }, true⟩]) ++
                 [⟨env.pathJoin w.config.Confdir env.smapname, .smap newsmap, false⟩] }
          "" := by
      unfold smapowner.persist
      simp [hp, hc, hs2]
    rw [hper] at h
    simp only [if_true] at h
    refine ⟨_, { w.config with PrimaryURL := psi.PublicNet.DirectURL }, h, rfl, ?_⟩
    simp [smapowner.put]
  · intro err hc
    have hper := persist_conf_fail env io w newsmap true psi err hp hc
    have hne : "Error writing config file " ++ env.conffile ++ ", err: " ++ err ≠ "" := by
      rw [String.append_assoc, String.append_assoc]
      exact append_ne_empty _ _ (by decide)
    rw [hper] at h
    simp only [if_neg hne] at h
    exact ⟨_, _, _, h, hne, hcur, rfl⟩

/-- Instance of `synchronize_write_asymmetry` at version 9 against version 7, once with
a failing snapshot write and once with a failing configuration write. -/
theorem synchronize_write_asymmetry_witness :
    (∃ w1 conf, smapowner.synchronize sampleEnv ⟨none, some "disk full"⟩ (sampleWorld 7)
          (sampleMap 9) true false = .ret w1 "" ∧
        smapowner.get w1 = some (sampleMap 9) ∧
        w1.saves = (sampleWorld 7).saves ++
          [⟨sampleEnv.conffile, .config conf, true⟩,
           ⟨sampleEnv.pathJoin (sampleWorld 7).config.Confdir sampleEnv.smapname,
             .smap (sampleMap 9), false⟩]) ∧
    (∃ w1 errstr conf, smapowner.synchronize sampleEnv ⟨some "disk full", none⟩
          (sampleWorld 7) (sampleMap 9) true false = .ret w1 errstr ∧
        errstr ≠ "" ∧
        smapowner.get w1 = some (sampleMap 7) ∧
        w1.saves = (sampleWorld 7).saves ++ [⟨sampleEnv.conffile, .config conf, false⟩]) :=
  ⟨(synchronize_write_asymmetry sampleEnv ⟨none, some "disk full"⟩ (sampleWorld 7)
      (sampleMap 7) (sampleMap 9) false rfl (by decide) (by decide)).1 rfl (by decide),
   (synchronize_write_asymmetry sampleEnv ⟨some "disk full", none⟩ (sampleWorld 7)
      (sampleMap 7) (sampleMap 9) false rfl (by decide) (by decide)).2 "disk full" rfl⟩

/-- C6: when the owner holds a snapshot and a valid candidate of the same
version arrives (whatever its contents), `synchronize` returns the empty error
string for both values of `lesserVersionIsErr`, for both values of `saveSmap`
and for every outcome of the durable writes, and leaves the whole state
(snapshot, configuration, durable writes) as it was; and for a valid candidate
that is not older than the current snapshot, when the durable writes succeed,
two calls in a row with that candidate both return the empty error string and
the second leaves the state the first produced. -/
theorem synchronize_same_version (env : Env) (w : World) (cur newsmap : smapX)
    (hcur : w.smap = some cur) (hvalid : newsmap.isValid = true) :
    (newsmap.Version = cur.Version →
      ∀ (io : SaveOutcomes) (saveSmap lesserVersionIsErr : Bool),
        smapowner.synchronize env io w newsmap saveSmap lesserVersionIsErr = .ret w "") ∧
    (cur.Version ≤ newsmap.Version →
      ∀ (io : SaveOutcomes) (saveSmap lesserVersionIsErr : Bool),
        io.conf = none → io.smap = none →
        ∃ w1, smapowner.synchronize env io w newsmap saveSmap lesserVersionIsErr
            = .ret w1 "" ∧
          smapowner.synchronize env io w1 newsmap saveSmap lesserVersionIsErr
            = .ret w1 "") := by
  have hsame : ∀ (w0 : World) (c : smapX), w0.smap = some c → newsmap.Version = c.Version →
      ∀ (io : SaveOutcomes) (saveSmap lesserVersionIsErr : Bool),
        smapowner.synchronize env io w0 newsmap saveSmap lesserVersionIsErr
          = .ret w0 "" := by
    intro w0 c hc heq io saveSmap lesserVersionIsErr
    rw [synchronize_held env io w0 c newsmap saveSmap lesserVersionIsErr hc hvalid]
    simp [heq]
  refine ⟨hsame w cur hcur, ?_⟩
  intro hle io saveSmap lesserVersionIsErr hconf _
  rcases eq_or_lt_of_le hle with heq | hlt
  · exact ⟨w, hsame w cur hcur heq.symm io saveSmap lesserVersionIsErr,
      hsame w cur hcur heq.symm io saveSmap lesserVersionIsErr⟩
  · obtain ⟨w1, _, h1, hget, _, _⟩ :=
      synchronize_publishes env io w cur newsmap saveSmap lesserVersionIsErr hcur hvalid hlt
        hconf
    exact ⟨w1, h1, hsame w1 newsmap hget rfl io saveSmap lesserVersionIsErr⟩

/-- Instance of `synchronize_same_version` at version 7 against version 7 with a
candidate of other contents, and twice in a row at version 9. -/
theorem synchronize_same_version_witness :
    smapowner.synchronize sampleEnv ⟨some "disk full", none⟩ (sampleWorld 7)
        { sampleMap 7 with Tmap := [] } true true = .ret (sampleWorld 7) "" ∧
    (∃ w1, smapowner.synchronize sampleEnv ⟨none, none⟩ (sampleWorld 7) (sampleMap 9)
          true true = .ret w1 "" ∧
        smapowner.synchronize sampleEnv ⟨none, none⟩ w1 (sampleMap 9) true true
          = .ret w1 "") :=
  ⟨(synchronize_same_version sampleEnv (sampleWorld 7) (sampleMap 7)
      { sampleMap 7 with Tmap := [] } rfl (by decide)).1 rfl ⟨some "disk full", none⟩
      true true,
   (synchronize_same_version sampleEnv (sampleWorld 7) (sampleMap 7) (sampleMap 9) rfl
      (by decide)).2 (by decide) ⟨none, none⟩ true true rfl rfl⟩

/-- C7: when the owner holds a snapshot of version `cur` and a valid candidate
of version `new < cur` arrives with `lesserVersionIsErr = false`,
`synchronize` returns the empty error string and leaves the whole state
(current snapshot, configuration, durable writes) as it was. -/
theorem synchronize_stale_lenient (env : Env) (io : SaveOutcomes) (w : World)
    (cur newsmap : smapX) (saveSmap : Bool) (hcur : w.smap = some cur)
    (hvalid : newsmap.isValid = true) (hlt : newsmap.Version < cur.Version) :
    smapowner.synchronize env io w newsmap saveSmap false = .ret w "" ∧
      smapowner.get (smapowner.after
        (smapowner.synchronize env io w newsmap saveSmap false)) = some cur ∧
      (smapowner.after (smapowner.synchronize env io w newsmap saveSmap false)).config
        = w.config ∧
      (smapowner.after (smapowner.synchronize env io w newsmap saveSmap false)).saves
        = w.saves := by
  have h : smapowner.synchronize env io w newsmap saveSmap false = .ret w "" := by
    rw [synchronize_held env io w cur newsmap saveSmap false hcur hvalid]
    simp [le_of_lt hlt]
  refine ⟨h, ?_, ?_, ?_⟩
  · rw [h]; exact hcur
  · rw [h]; rfl
  · rw [h]; rfl

/-- Instance of `synchronize_stale_lenient` at version 5 against version 7. -/
theorem synchronize_stale_lenient_witness :
    smapowner.synchronize sampleEnv ⟨none, none⟩ (sampleWorld 7) (sampleMap 5) true false
        = .ret (sampleWorld 7) "" ∧
      smapowner.get (smapowner.after
        (smapowner.synchronize sampleEnv ⟨none, none⟩ (sampleWorld 7) (sampleMap 5)
          true false)) = some (sampleMap 7) ∧
      (smapowner.after (smapowner.synchronize sampleEnv ⟨none, none⟩ (sampleWorld 7)
        (sampleMap 5) true false)).config = (sampleWorld 7).config ∧
      (smapowner.after (smapowner.synchronize sampleEnv ⟨none, none⟩ (sampleWorld 7)
        (sampleMap 5) true false)).saves = (sampleWorld 7).saves :=
  synchronize_stale_lenient sampleEnv ⟨none, none⟩ (sampleWorld 7) (sampleMap 7)
    (sampleMap 5) true rfl (by decide) (by decide)

/-! ## Monotonic versions -/

/-- The function `persist` never touches the current snapshot. -/
theorem persist_smap (env : Env) (io : SaveOutcomes) (w : World) (newsmap : smapX)
    (saveSmap : Bool) :
    (smapowner.after (smapowner.persist env io w newsmap saveSmap)).smap = w.smap := by
  unfold smapowner.persist
  cases newsmap.ProxySI with
  | none => rfl
  | some psi =>
    cases io.conf with
    | some err => rfl
    | none => cases saveSmap <;> rfl

/-- One `synchronize` call keeps the current snapshot or replaces it by a
strictly newer one. -/
theorem synchronize_keptOrNewer (env : Env) (w : World) (c : smapowner.Call) :
    smapowner.keptOrNewer w (smapowner.after
      (smapowner.synchronize env c.io w c.newsmap c.saveSmap c.lesserVersionIsErr)) := by
  intro cur hcur
  cases hv : c.newsmap.isValid with
  | false =>
    have h : smapowner.synchronize env c.io w c.newsmap c.saveSmap c.lesserVersionIsErr
        = .ret w ("Invalid smapX: " ++ c.newsmap.pp env) := by
      unfold smapowner.synchronize
      simp [hv]
    rw [h]; exact Or.inl hcur
  | true =>
    rw [synchronize_held env c.io w cur c.newsmap c.saveSmap c.lesserVersionIsErr hcur hv]
    by_cases hle : c.newsmap.Version ≤ cur.Version
    · rw [if_pos hle]
      split <;> exact Or.inl hcur
    · rw [if_neg hle]
      have hs := persist_smap env c.io w c.newsmap c.saveSmap
      cases hper : smapowner.persist env c.io w c.newsmap c.saveSmap with
      | panic w1 msg =>
        rw [hper] at hs
        exact Or.inl (by simpa [smapowner.after, hcur] using hs)
      | ret w1 errstr =>
        rw [hper] at hs
        by_cases he : errstr = ""
        · simp only [he, if_true]
          exact Or.inr ⟨c.newsmap, rfl, not_le.mp hle⟩
        · simp only [if_neg he]
          exact Or.inl (by simpa [smapowner.after, hcur] using hs)

/-- A step that keeps or renews the snapshot does not lower its version. -/
theorem notOlder_of_keptOrNewer (a b : World) (h : smapowner.keptOrNewer a b) :
    smapowner.notOlder a b := by
  intro s hs
  rcases h s hs with hb | ⟨s', hb, hlt⟩
  · exact ⟨s, hb, le_refl _⟩
  · exact ⟨s', hb, le_of_lt hlt⟩

/-- The relation `notOlder` is transitive. -/
theorem notOlder_trans (a b c : World) (hab : smapowner.notOlder a b)
    (hbc : smapowner.notOlder b c) : smapowner.notOlder a c := by
  intro s hs
  obtain ⟨s1, h1, hle1⟩ := hab s hs
  obtain ⟨s2, h2, hle2⟩ := hbc s1 h1
  exact ⟨s2, h2, le_trans hle1 hle2⟩

/-- A trace starts with its initial state. -/
theorem trace_head (env : Env) (w : World) (cs : List smapowner.Call) :
    (smapowner.trace env w cs).head? = some w := by
  cases cs with
  | nil => rfl
  | cons c cs =>
    unfold smapowner.trace
    split <;> rfl

/-- No state of a trace is older than the initial state. -/
theorem trace_notOlder (env : Env) (cs : List smapowner.Call) :
    ∀ (w x : World), x ∈ smapowner.trace env w cs → smapowner.notOlder w x := by
  induction cs with
  | nil =>
    intro w x hx
    simp only [smapowner.trace, List.mem_singleton] at hx
    subst hx
    exact fun s hs => ⟨s, hs, le_refl _⟩
  | cons c cs ih =>
    intro w x hx
    have hstep := notOlder_of_keptOrNewer _ _ (synchronize_keptOrNewer env w c)
    unfold smapowner.trace at hx
    split at hx
    next w1 e heq =>
      rw [heq] at hstep
      rcases List.mem_cons.mp hx with hxw | hxt
      · subst hxw
        exact fun s hs => ⟨s, hs, le_refl _⟩
      · exact notOlder_trans _ _ _ hstep (ih w1 x hxt)
    next w1 msg heq =>
      rw [heq] at hstep
      simp only [List.mem_cons, List.mem_singleton, List.not_mem_nil, or_false] at hx
      rcases hx with hxw | hxw
      · subst hxw
        exact fun s hs => ⟨s, hs, le_refl _⟩
      · subst hxw
        exact hstep

/-- C8: along every sequence of `synchronize` calls on one owner, with
arbitrary candidates, flags and outcomes of the durable writes, each call
either keeps the current snapshot or replaces it by one of a strictly greater
version, and no state reached later holds a snapshot of a lower version than
a state reached earlier. -/
theorem synchronize_version_monotone (env : Env) (cs : List smapowner.Call) (w : World) :
    List.Chain' smapowner.keptOrNewer (smapowner.trace env w cs) ∧
      List.Pairwise smapowner.notOlder (smapowner.trace env w cs) := by
  induction cs generalizing w with
  | nil => simp [smapowner.trace]
  | cons c cs ih =>
    have hstep := synchronize_keptOrNewer env w c
    unfold smapowner.trace
    split
    next w1 e heq =>
      rw [heq] at hstep
      obtain ⟨ihc, ihp⟩ := ih w1
      refine ⟨List.chain'_cons'.mpr ⟨?_, ihc⟩, List.pairwise_cons.mpr ⟨?_, ihp⟩⟩
      · intro y hy
        rw [trace_head] at hy
        cases Option.mem_some_iff.mp hy
        exact hstep
      · intro x hx
        exact notOlder_trans _ _ _ (notOlder_of_keptOrNewer _ _ hstep)
          (trace_notOlder env cs w1 x hx)
    next w1 msg heq =>
      rw [heq] at hstep
      refine ⟨?_, ?_⟩
      · simpa [List.chain'_cons] using hstep
      · simpa using notOlder_of_keptOrNewer _ _ hstep

/-! ## Properties of `addTarget` and `addProxy` -/

/-- C9: when the id of the node is already a key of the targets or of the
proxies of the map, under either role, `addTarget` and `addProxy` both end in
the duplicate-id fault with the receiver exactly as it was: nothing is
inserted or overwritten, the version is not incremented, and neither call
returns. -/
theorem add_duplicate_faults (m : smapX) (n : Snode)
    (hdup : (m.Tmap.get n.DaemonID).isSome = true ∨ (m.Pmap.get n.DaemonID).isSome = true) :
    m.addTarget n = .panic m ("FATAL: duplicate daemon ID: '" ++ n.DaemonID ++ "'") ∧
      m.addProxy n = .panic m ("FATAL: duplicate daemon ID: '" ++ n.DaemonID ++ "'") ∧
      (∀ m1, m.addTarget n ≠ .ret m1 ()) ∧
      (∀ m1, m.addProxy n ≠ .ret m1 ()) := by
  have hc : m.containsID n.DaemonID = true := by
    rw [containsID_eq]
    rcases hdup with h | h <;> simp [h]
  have ht : m.addTarget n = .panic m ("FATAL: duplicate daemon ID: '" ++ n.DaemonID ++ "'") := by
    unfold smapX.addTarget
    simp [hc]
  have hp : m.addProxy n = .panic m ("FATAL: duplicate daemon ID: '" ++ n.DaemonID ++ "'") := by
    unfold smapX.addProxy
    simp [hc]
  refine ⟨ht, hp, ?_, ?_⟩
  · intro m1 h
    rw [ht] at h
    cases h
  · intro m1 h
    rw [hp] at h
    cases h

/-- Instance of `add_duplicate_faults` at a node whose id is held by a proxy of the
map. -/
theorem add_duplicate_faults_witness :
    (sampleMap 3).addTarget (sampleNode "P1" "http://other")
        = .panic (sampleMap 3)
            ("FATAL: duplicate daemon ID: '" ++ (sampleNode "P1" "http://other").DaemonID
              ++ "'") ∧
      (sampleMap 3).addProxy (sampleNode "P1" "http://other")
        = .panic (sampleMap 3)
            ("FATAL: duplicate daemon ID: '" ++ (sampleNode "P1" "http://other").DaemonID
              ++ "'") ∧
      (∀ m1, (sampleMap 3).addTarget (sampleNode "P1" "http://other") ≠ .ret m1 ()) ∧
      (∀ m1, (sampleMap 3).addProxy (sampleNode "P1" "http://other") ≠ .ret m1 ()) :=
  add_duplicate_faults (sampleMap 3) (sampleNode "P1" "http://other") (Or.inr (by decide))

/-- C10, as stated, fails in two ways. At the largest version: adding a node
with a fresh id to a map of version `2^63 - 1` succeeds and leaves the
version at `-2^63`, which is not the old version plus one. On nil role maps:
adding a node with a fresh id to the zero value `&smapX{}` does not succeed,
the write to the nil map being a run-time panic. -/
theorem addTarget_wraps_or_faults :
    ((sampleMap maxInt64).Tmap.get "T2" = none ∧
      (sampleMap maxInt64).Pmap.get "T2" = none ∧
      ∃ m1, (sampleMap maxInt64).addTarget (sampleNode "T2" "http://t2") = .ret m1 () ∧
        m1.Version = minInt64 ∧
        m1.Version ≠ (sampleMap maxInt64).Version + 1) ∧
    (smapX.zero.Tmap.get "T2" = none ∧
      smapX.zero.Pmap.get "T2" = none ∧
      smapX.zero.addTarget (sampleNode "T2" "http://t2") = .panic smapX.zero nilMapWrite ∧
      smapX.zero.addProxy (sampleNode "T2" "http://t2") = .panic smapX.zero nilMapWrite ∧
      ∀ m1, smapX.zero.addTarget (sampleNode "T2" "http://t2") ≠ .ret m1 ()) := by
  refine ⟨⟨by decide, by decide, _, rfl, by decide, by decide⟩,
    by decide, by decide, by decide, by decide, ?_⟩
  intro m1 h
  have h2 : smapX.zero.addTarget (sampleNode "T2" "http://t2")
      = .panic smapX.zero nilMapWrite := by decide
  rw [h2] at h
  cases h

/-- C10 (amended): for a map whose version is an `int64` below the largest
one and a node whose id is a key of neither the targets nor the proxies,
when the targets map (resp. the proxies map) is made, not nil, `addTarget`
(resp. `addProxy`) returns, the targets (resp. proxies) afterwards map that
id to that node and every other id to what they mapped it to before, the
other role set, the primary and the non-electable set are unchanged, and the
version is the old version plus one; after `addProxy`, designating the added
node primary gives a valid map. When the targets map (resp. the proxies map)
is nil, `addTarget` (resp. `addProxy`) ends in the run-time panic of a write
to a nil map, with the receiver as it was. -/
theorem add_fresh (m : smapX) (n : Snode) (hT : m.Tmap.get n.DaemonID = none)
    (hP : m.Pmap.get n.DaemonID = none) (hv : isInt64 m.Version)
    (hmax : m.Version < maxInt64) :
    (m.TmapNil = false → ∃ m1, m.addTarget n = .ret m1 () ∧
      (∀ k, m1.Tmap.get k = if k = n.DaemonID then some n else m.Tmap.get k) ∧
      m1.Pmap = m.Pmap ∧ m1.ProxySI = m.ProxySI ∧ m1.NonElects = m.NonElects ∧
      m1.Version = m.Version + 1) ∧
    (m.PmapNil = false → ∃ m1, m.addProxy n = .ret m1 () ∧
      (∀ k, m1.Pmap.get k = if k = n.DaemonID then some n else m.Pmap.get k) ∧
      m1.Tmap = m.Tmap ∧ m1.ProxySI = m.ProxySI ∧ m1.NonElects = m.NonElects ∧
      m1.Version = m.Version + 1 ∧
      smapX.isValid { m1 with ProxySI := some n } = true) ∧
    (m.TmapNil = true → m.addTarget n = .panic m nilMapWrite) ∧
    (m.PmapNil = true → m.addProxy n = .panic m nilMapWrite) := by
  have hc : m.containsID n.DaemonID = false := by
    rw [containsID_eq, hT, hP]; rfl
  have hw := wrap64_succ m.Version hv hmax
  refine ⟨?_, ?_, ?_, ?_⟩
  · intro hmade
    refine ⟨{ m with Tmap := m.Tmap.set n.DaemonID n, Version := wrap64 (m.Version + 1) },
      ?_, ?_, rfl, rfl, rfl, hw⟩
    · unfold smapX.addTarget
      simp [hc, hmade]
    · intro k
      exact GoMap.get_set m.Tmap n.DaemonID k n
  · intro hmade
    refine ⟨{ m with Pmap := m.Pmap.set n.DaemonID n, Version := wrap64 (m.Version + 1) },
      ?_, ?_, rfl, rfl, rfl, hw, ?_⟩
    · unfold smapX.addProxy
      simp [hc, hmade]
    · intro k
      exact GoMap.get_set m.Pmap n.DaemonID k n
    · simp [smapX.isValid, smapX.isPresent, smapX.GetProxy, GoMap.get_set]
  · intro hnil
    unfold smapX.addTarget
    simp [hc, hnil]
  · intro hnil
    unfold smapX.addProxy
    simp [hc, hnil]

/-- Instance of `add_fresh` at the empty map of version 0, whose maps
`newSmap` has made, and a proxy `P1`: the version becomes 1, the proxies are
`P1` alone, and with `P1` designated primary the map is valid. -/
theorem add_fresh_witness :
    smapX.newSmap.Version = 0 ∧ smapX.newSmap.Tmap = [] ∧ smapX.newSmap.Pmap = [] ∧
    smapX.newSmap.TmapNil = false ∧ smapX.newSmap.PmapNil = false ∧
    ∃ m1, smapX.newSmap.addProxy (sampleNode "P1" "http://p1") = .ret m1 () ∧
      (∀ k, m1.Pmap.get k
        = if k = (sampleNode "P1" "http://p1").DaemonID then some (sampleNode "P1" "http://p1")
          else smapX.newSmap.Pmap.get k) ∧
      m1.Tmap = smapX.newSmap.Tmap ∧ m1.ProxySI = smapX.newSmap.ProxySI ∧
      m1.NonElects = smapX.newSmap.NonElects ∧
      m1.Version = smapX.newSmap.Version + 1 ∧
      smapX.isValid { m1 with ProxySI := some (sampleNode "P1" "http://p1") } = true :=
  ⟨rfl, rfl, rfl, rfl, rfl,
    (add_fresh smapX.newSmap (sampleNode "P1" "http://p1") rfl rfl (by decide)
      (by decide)).2.1 rfl⟩

/-! ## Properties of `delTarget` and `delProxy` -/

/-- C11: `delTarget` ends in the fatal fault exactly when the id is not a key
of the targets, and `delProxy` exactly when the id is not a key of the
proxies; being a key of the other role set does not count (so `delTarget` of
an id held only by a proxy faults, and `delProxy` of an id held only by a
target faults); at the fault the receiver is exactly as it was. -/
theorem del_faults_iff (env : Env) (m : smapX) (id : String) :
    ((∃ m1 msg, m.delTarget env id = .panic m1 msg) ↔ m.Tmap.get id = none) ∧
    ((∃ m1 msg, m.delProxy env id = .panic m1 msg) ↔ m.Pmap.get id = none) ∧
    (m.Tmap.get id = none → (m.Pmap.get id).isSome = true →
      ∃ msg, m.delTarget env id = .panic m msg) ∧
    (m.Pmap.get id = none → (m.Tmap.get id).isSome = true →
      ∃ msg, m.delProxy env id = .panic m msg) ∧
    (∀ m1 msg, m.delTarget env id = .panic m1 msg → m1 = m) ∧
    (∀ m1 msg, m.delProxy env id = .panic m1 msg → m1 = m) := by
  have ht : ∀ m1 msg, m.delTarget env id = .panic m1 msg →
      m.Tmap.get id = none ∧ m1 = m := by
    intro m1 msg h
    unfold smapX.delTarget smapX.GetTarget at h
    split at h
    next hn =>
      injection h with h1 _
      exact ⟨Option.isNone_iff_eq_none.mp hn, h1.symm⟩
    next => cases h
  have hp : ∀ m1 msg, m.delProxy env id = .panic m1 msg →
      m.Pmap.get id = none ∧ m1 = m := by
    intro m1 msg h
    unfold smapX.delProxy smapX.GetProxy at h
    split at h
    next hn =>
      injection h with h1 _
      exact ⟨Option.isNone_iff_eq_none.mp hn, h1.symm⟩
    next => cases h
  have ht2 : m.Tmap.get id = none → ∃ msg, m.delTarget env id = .panic m msg := by
    intro hn
    unfold smapX.delTarget smapX.GetTarget
    simp [hn]
  have hp2 : m.Pmap.get id = none → ∃ msg, m.delProxy env id = .panic m msg := by
    intro hn
    unfold smapX.delProxy smapX.GetProxy
    simp [hn]
  refine ⟨⟨?_, ?_⟩, ⟨?_, ?_⟩, ?_, ?_, ?_, ?_⟩
  · rintro ⟨m1, msg, h⟩
    exact (ht m1 msg h).1
  · intro hn
    obtain ⟨msg, h⟩ := ht2 hn
    exact ⟨m, msg, h⟩
  · rintro ⟨m1, msg, h⟩
    exact (hp m1 msg h).1
  · intro hn
    obtain ⟨msg, h⟩ := hp2 hn
    exact ⟨m, msg, h⟩
  · intro hn _
    exact ht2 hn
  · intro hn _
    exact hp2 hn
  · intro m1 msg h
    exact (ht m1 msg h).2
  · intro m1 msg h
    exact (hp m1 msg h).2

/-- An `int64` at the largest value is incremented to the smallest one. -/
theorem wrap64_max : wrap64 (maxInt64 + 1) = minInt64 := by decide

/-- C12, as stated, fails at the largest version: removing a target that is
present from a map of version `2^63 - 1` succeeds and leaves the version at
`-2^63`, which is not the old version plus one. -/
theorem delTarget_version_wraps :
    ((sampleMap maxInt64).Tmap.get "T1").isSome = true ∧
      ∃ m1, (sampleMap maxInt64).delTarget sampleEnv "T1" = .ret m1 () ∧
        m1.Version = minInt64 ∧
        m1.Version ≠ (sampleMap maxInt64).Version + 1 := by
  refine ⟨by decide, _, rfl, by decide, by decide⟩

/-- C12 (amended): for a map whose version is an `int64` below the largest
one, `delTarget` of an id that is a key of the targets (resp. `delProxy` of an
id that is a key of the proxies) returns; afterwards the id is not a key of
that set, every other id is mapped there as before, the other role set, the
primary and the non-electable set are unchanged, the version is the old
version plus one, and `containsID` of the id is false when no id was a key of
both role sets before. -/
theorem del_present (env : Env) (m : smapX) (id : String) (hv : isInt64 m.Version)
    (hmax : m.Version < maxInt64) :
    ((m.Tmap.get id).isSome = true →
      ∃ m1, m.delTarget env id = .ret m1 () ∧
        m1.Tmap.get id = none ∧
        (∀ k, k ≠ id → m1.Tmap.get k = m.Tmap.get k) ∧
        m1.Pmap = m.Pmap ∧ m1.ProxySI = m.ProxySI ∧ m1.NonElects = m.NonElects ∧
        m1.Version = m.Version + 1 ∧
        (m.disjoint → m1.containsID id = false)) ∧
    ((m.Pmap.get id).isSome = true →
      ∃ m1, m.delProxy env id = .ret m1 () ∧
        m1.Pmap.get id = none ∧
        (∀ k, k ≠ id → m1.Pmap.get k = m.Pmap.get k) ∧
        m1.Tmap = m.Tmap ∧ m1.ProxySI = m.ProxySI ∧ m1.NonElects = m.NonElects ∧
        m1.Version = m.Version + 1 ∧
        (m.disjoint → m1.containsID id = false)) := by
  have hw := wrap64_succ m.Version hv hmax
  constructor
  · intro hin
    refine ⟨{ m with Tmap := m.Tmap.del id, Version := wrap64 (m.Version + 1) },
      ?_, ?_, ?_, rfl, rfl, rfl, hw, ?_⟩
    · unfold smapX.delTarget smapX.GetTarget
      cases hg : m.Tmap.get id with
      | none => rw [hg] at hin; cases hin
      | some v => simp
    · simp [GoMap.get_del]
    · intro k hk
      simp [GoMap.get_del, hk]
    · intro hd
      have hp : (m.Pmap.get id).isSome = false := by
        cases hb : (m.Pmap.get id).isSome with
        | false => rfl
        | true => exact absurd ⟨hin, hb⟩ (hd id)
      rw [containsID_eq]
      simp [GoMap.get_del, hp]
  · intro hin
    refine ⟨{ m with Pmap := m.Pmap.del id, Version := wrap64 (m.Version + 1) },
      ?_, ?_, ?_, rfl, rfl, rfl, hw, ?_⟩
    · unfold smapX.delProxy smapX.GetProxy
      cases hg : m.Pmap.get id with
      | none => rw [hg] at hin; cases hin
      | some v => simp
    · simp [GoMap.get_del]
    · intro k hk
      simp [GoMap.get_del, hk]
    · intro hd
      have hp : (m.Tmap.get id).isSome = false := by
        cases hb : (m.Tmap.get id).isSome with
        | false => rfl
        | true => exact absurd ⟨hb, hin⟩ (hd id)
      rw [containsID_eq]
      simp [GoMap.get_del, hp]

/-- Instance of `del_present` at the sample map of version 3: removal of the
target `T1` and removal of the proxy `P1`. -/
theorem del_present_witness :
    (∃ m1, (sampleMap 3).delTarget sampleEnv "T1" = .ret m1 () ∧
        m1.Tmap.get "T1" = none ∧
        (∀ k, k ≠ "T1" → m1.Tmap.get k = (sampleMap 3).Tmap.get k) ∧
        m1.Pmap = (sampleMap 3).Pmap ∧ m1.ProxySI = (sampleMap 3).ProxySI ∧
        m1.NonElects = (sampleMap 3).NonElects ∧
        m1.Version = (sampleMap 3).Version + 1 ∧
        ((sampleMap 3).disjoint → m1.containsID "T1" = false)) ∧
    (∃ m1, (sampleMap 3).delProxy sampleEnv "P1" = .ret m1 () ∧
        m1.Pmap.get "P1" = none ∧
        (∀ k, k ≠ "P1" → m1.Pmap.get k = (sampleMap 3).Pmap.get k) ∧
        m1.Tmap = (sampleMap 3).Tmap ∧ m1.ProxySI = (sampleMap 3).ProxySI ∧
        m1.NonElects = (sampleMap 3).NonElects ∧
        m1.Version = (sampleMap 3).Version + 1 ∧
        ((sampleMap 3).disjoint → m1.containsID "P1" = false)) :=
  ⟨(del_present sampleEnv (sampleMap 3) "T1" (by decide) (by decide)).1 (by decide),
   (del_present sampleEnv (sampleMap 3) "P1" (by decide) (by decide)).2 (by decide)⟩

/-! ## Properties of `merge` -/

/-- One step of the first loop of `merge` on a destination whose targets map
is made: it returns, read through the lookups. -/
theorem mergeTarget_made (d : smapX) (id : String) (v : Snode) (hd : d.TmapNil = false) :
    ∃ d1, smapX.mergeTarget d id v = .ret d1 () ∧
    d1.Pmap = d.Pmap ∧ d1.Version = d.Version ∧ d1.ProxySI = d.ProxySI ∧
    d1.NonElects = d.NonElects ∧ d1.TmapNil = false ∧ d1.PmapNil = d.PmapNil ∧
    ∀ k, d1.Tmap.get k =
      if (d.Tmap.get id).isSome || (d.Pmap.get id).isSome then d.Tmap.get k
      else if k = id then some v else d.Tmap.get k := by
  unfold smapX.mergeTarget GoMap.has
  cases h1 : (d.Tmap.get id).isSome <;> cases h2 : (d.Pmap.get id).isSome <;>
    simp [GoMap.get_set, hd]

/-- One step of the second loop of `merge` on a destination whose proxies map
is made: it returns, read through the lookups. -/
theorem mergeProxy_made (d : smapX) (id : String) (v : Snode) (hd : d.PmapNil = false) :
    ∃ d1, smapX.mergeProxy d id v = .ret d1 () ∧
    d1.Tmap = d.Tmap ∧ d1.Version = d.Version ∧ d1.ProxySI = d.ProxySI ∧
    d1.NonElects = d.NonElects ∧ d1.TmapNil = d.TmapNil ∧ d1.PmapNil = false ∧
    ∀ k, d1.Pmap.get k =
      if (d.Pmap.get id).isSome || (d.Tmap.get id).isSome then d.Pmap.get k
      else if k = id then some v else d.Pmap.get k := by
  unfold smapX.mergeProxy GoMap.has
  cases h1 : (d.Pmap.get id).isSome <;> cases h2 : (d.Tmap.get id).isSome <;>
    simp [GoMap.get_set, hd]

/-- The first loop of `merge` on a destination whose targets map is made: it
returns, read through the lookups. -/
theorem mergeTargets_made (l : GoMap Snode) :
    ∀ d : smapX, d.TmapNil = false →
    ∃ d1, smapX.mergeTargets d l = .ret d1 () ∧
    d1.Pmap = d.Pmap ∧ d1.Version = d.Version ∧ d1.ProxySI = d.ProxySI ∧
    d1.NonElects = d.NonElects ∧ d1.TmapNil = false ∧ d1.PmapNil = d.PmapNil ∧
    ∀ k, d1.Tmap.get k =
      if (d.Tmap.get k).isSome then d.Tmap.get k
      else if (d.Pmap.get k).isSome then none else GoMap.get l k := by
  induction l with
  | nil =>
    intro d hd
    refine ⟨d, rfl, rfl, rfl, rfl, rfl, hd, rfl, ?_⟩
    intro k
    cases h : d.Tmap.get k <;> simp [GoMap.get, h]
  | cons e rest ih =>
    intro d hd
    obtain ⟨id, v⟩ := e
    obtain ⟨d0, h0, hP, hV, hS, hN, hTn, hPn, hT⟩ := mergeTarget_made d id v hd
    obtain ⟨d1, h1, iP, iV, iS, iN, iTn, iPn, iT⟩ := ih d0 hTn
    refine ⟨d1, ?_, iP.trans hP, iV.trans hV, iS.trans hS, iN.trans hN, iTn,
      iPn.trans hPn, ?_⟩
    · unfold smapX.mergeTargets
      rw [h0]
      exact h1
    · intro k
      rw [iT k, hT k, hP]
      by_cases hk : k = id
      · subst hk
        cases h1 : d.Tmap.get k <;> cases h2 : d.Pmap.get k <;> simp [GoMap.get]
      · have hk2 : ¬ id = k := fun h => hk h.symm
        cases h1 : (d.Tmap.get id).isSome <;> cases h2 : (d.Pmap.get id).isSome <;>
          simp [GoMap.get, hk, hk2]

/-- The second loop of `merge` on a destination whose proxies map is made: it
returns, read through the lookups. -/
theorem mergeProxies_made (l : GoMap Snode) :
    ∀ d : smapX, d.PmapNil = false →
    ∃ d1, smapX.mergeProxies d l = .ret d1 () ∧
    d1.Tmap = d.Tmap ∧ d1.Version = d.Version ∧ d1.ProxySI = d.ProxySI ∧
    d1.NonElects = d.NonElects ∧ d1.TmapNil = d.TmapNil ∧ d1.PmapNil = false ∧
    ∀ k, d1.Pmap.get k =
      if (d.Pmap.get k).isSome then d.Pmap.get k
      else if (d.Tmap.get k).isSome then none else GoMap.get l k := by
  induction l with
  | nil =>
    intro d hd
    refine ⟨d, rfl, rfl, rfl, rfl, rfl, rfl, hd, ?_⟩
    intro k
    cases h : d.Pmap.get k <;> simp [GoMap.get, h]
  | cons e rest ih =>
    intro d hd
    obtain ⟨id, v⟩ := e
    obtain ⟨d0, h0, hT, hV, hS, hN, hTn, hPn, hP⟩ := mergeProxy_made d id v hd
    obtain ⟨d1, h1, iT, iV, iS, iN, iTn, iPn, iP⟩ := ih d0 hPn
    refine ⟨d1, ?_, iT.trans hT, iV.trans hV, iS.trans hS, iN.trans hN, iTn.trans hTn,
      iPn, ?_⟩
    · unfold smapX.mergeProxies
      rw [h0]
      exact h1
    · intro k
      rw [iP k, hP k, hT]
      by_cases hk : k = id
      · subst hk
        cases h1 : d.Pmap.get k <;> cases h2 : d.Tmap.get k <;> simp [GoMap.get]
      · have hk2 : ¬ id = k := fun h => hk h.symm
        cases h1 : (d.Pmap.get id).isSome <;> cases h2 : (d.Tmap.get id).isSome <;>
          simp [GoMap.get, hk, hk2]

/-- The first loop of `merge` on a destination whose targets map is nil: it
returns without a write when every id it visits is a key of the destination,
and its first write is the run-time panic otherwise; either way the
destination is as it was. -/
theorem mergeTargets_nil (l : GoMap Snode) (d : smapX) (hd : d.TmapNil = true) :
    (smapX.mergeTargets d l = .ret d () ∧
      ∀ k, (GoMap.get l k).isSome = true →
        (d.Tmap.get k).isSome = true ∨ (d.Pmap.get k).isSome = true) ∨
    smapX.mergeTargets d l = .panic d nilMapWrite := by
  induction l with
  | nil =>
    left
    refine ⟨rfl, ?_⟩
    intro k h
    simp [GoMap.get] at h
  | cons e rest ih =>
    obtain ⟨id, v⟩ := e
    by_cases hp : (d.Tmap.get id).isSome = true ∨ (d.Pmap.get id).isSome = true
    · have he : smapX.mergeTarget d id v = .ret d () := by
        unfold smapX.mergeTarget GoMap.has
        rcases hp with h1 | h1 <;> simp [h1]
      rcases ih with ⟨hr, hall⟩ | hr
      · left
        refine ⟨?_, ?_⟩
        · unfold smapX.mergeTargets
          rw [he]
          exact hr
        · intro k hk
          by_cases hik : id = k
          · subst hik
            exact hp
          · apply hall k
            simpa [GoMap.get, hik] using hk
      · right
        unfold smapX.mergeTargets
        rw [he]
        exact hr
    · right
      have he : smapX.mergeTarget d id v = .panic d nilMapWrite := by
        unfold smapX.mergeTarget GoMap.has
        simp only [not_or, Bool.not_eq_true] at hp
        simp [hp.1, hp.2, hd]
      unfold smapX.mergeTargets
      rw [he]

/-- The second loop of `merge` on a destination whose proxies map is nil: it
returns without a write when every id it visits is a key of the destination,
and its first write is the run-time panic otherwise; either way the
destination is as it was. -/
theorem mergeProxies_nil (l : GoMap Snode) (d : smapX) (hd : d.PmapNil = true) :
    (smapX.mergeProxies d l = .ret d () ∧
      ∀ k, (GoMap.get l k).isSome = true →
        (d.Pmap.get k).isSome = true ∨ (d.Tmap.get k).isSome = true) ∨
    smapX.mergeProxies d l = .panic d nilMapWrite := by
  induction l with
  | nil =>
    left
    refine ⟨rfl, ?_⟩
    intro k h
    simp [GoMap.get] at h
  | cons e rest ih =>
    obtain ⟨id, v⟩ := e
    by_cases hp : (d.Pmap.get id).isSome = true ∨ (d.Tmap.get id).isSome = true
    · have he : smapX.mergeProxy d id v = .ret d () := by
        unfold smapX.mergeProxy GoMap.has
        rcases hp with h1 | h1 <;> simp [h1]
      rcases ih with ⟨hr, hall⟩ | hr
      · left
        refine ⟨?_, ?_⟩
        · unfold smapX.mergeProxies
          rw [he]
          exact hr
        · intro k hk
          by_cases hik : id = k
          · subst hik
            exact hp
          · apply hall k
            simpa [GoMap.get, hik] using hk
      · right
        unfold smapX.mergeProxies
        rw [he]
        exact hr
    · right
      have he : smapX.mergeProxy d id v = .panic d nilMapWrite := by
        unfold smapX.mergeProxy GoMap.has
        simp only [not_or, Bool.not_eq_true] at hp
        simp [hp.1, hp.2, hd]
      unfold smapX.mergeProxies
      rw [he]

/-- The method `merge` on a destination whose two role maps are made: it
returns, read through the lookups of the resulting `dst`. -/
theorem merge_made (m dst : smapX) (hT : dst.TmapNil = false) (hP : dst.PmapNil = false) :
    ∃ d, m.merge dst = .ret d () ∧
    d.Version = dst.Version ∧ d.ProxySI = dst.ProxySI ∧ d.NonElects = dst.NonElects ∧
    d.TmapNil = false ∧ d.PmapNil = false ∧
    (∀ k, d.Tmap.get k =
      if (dst.Tmap.get k).isSome then dst.Tmap.get k
      else if (dst.Pmap.get k).isSome then none else m.Tmap.get k) ∧
    (∀ k, d.Pmap.get k =
      if (dst.Pmap.get k).isSome then dst.Pmap.get k
      else if (dst.Tmap.get k).isSome then none
      else if (m.Tmap.get k).isSome then none else m.Pmap.get k) := by
  obtain ⟨d1, h1, hP1, hV1, hS1, hN1, hTn1, hPn1, hT1⟩ := mergeTargets_made m.Tmap dst hT
  obtain ⟨d2, h2, iT, iV, iS, iN, iTn, iPn, iP⟩ := mergeProxies_made m.Pmap d1 (hPn1.trans hP)
  refine ⟨d2, ?_, iV.trans hV1, iS.trans hS1, iN.trans hN1, iTn.trans hTn1, iPn, ?_, ?_⟩
  · unfold smapX.merge
    rw [h1]
    exact h2
  · intro k
    rw [iT, hT1 k]
  · intro k
    rw [iP k, hP1, hT1 k]
    cases h1 : dst.Pmap.get k <;> cases h2 : dst.Tmap.get k <;>
      cases h3 : m.Tmap.get k <;> simp

/-- The state in which `merge` leaves `dst`, by return or by panic: the
version, the primary and the non-electable set are those of `dst`, and each
role map is either the one of `dst` or the one a returning `merge` into made
maps gives. -/
theorem merge_state (m dst : smapX) :
    (m.merge dst).state.Version = dst.Version ∧
    (m.merge dst).state.ProxySI = dst.ProxySI ∧
    (m.merge dst).state.NonElects = dst.NonElects ∧
    (m.merge dst).state.TmapNil = dst.TmapNil ∧
    (m.merge dst).state.PmapNil = dst.PmapNil ∧
    ((m.merge dst).state.Tmap = dst.Tmap ∨
      ∀ k, (m.merge dst).state.Tmap.get k =
        if (dst.Tmap.get k).isSome then dst.Tmap.get k
        else if (dst.Pmap.get k).isSome then none else m.Tmap.get k) ∧
    ((m.merge dst).state.Pmap = dst.Pmap ∨
      ∀ k, (m.merge dst).state.Pmap.get k =
        if (dst.Pmap.get k).isSome then dst.Pmap.get k
        else if (dst.Tmap.get k).isSome then none
        else if (m.Tmap.get k).isSome then none else m.Pmap.get k) := by
  cases hT : dst.TmapNil
  · obtain ⟨d1, h1, hP1, hV1, hS1, hN1, hTn1, hPn1, hT1⟩ := mergeTargets_made m.Tmap dst hT
    have hm : m.merge dst = smapX.mergeProxies d1 m.Pmap := by
      unfold smapX.merge
      rw [h1]
    cases hP : dst.PmapNil
    · obtain ⟨d, hd, hV, hS, hN, hTn, hPn, hTs, hPs⟩ := merge_made m dst hT hP
      rw [hd]
      exact ⟨hV, hS, hN, hTn, hPn, Or.inr hTs, Or.inr hPs⟩
    · have hs : (smapX.mergeProxies d1 m.Pmap).state = d1 := by
        rcases mergeProxies_nil m.Pmap d1 (hPn1.trans hP) with ⟨h2, _⟩ | h2 <;> rw [h2] <;> rfl
      rw [hm, hs]
      exact ⟨hV1, hS1, hN1, hTn1, hPn1.trans hP, Or.inr hT1, Or.inl hP1⟩
  · rcases mergeTargets_nil m.Tmap dst hT with ⟨h1, hall⟩ | h1
    · have hm : m.merge dst = smapX.mergeProxies dst m.Pmap := by
        unfold smapX.merge
        rw [h1]
      cases hP : dst.PmapNil
      · obtain ⟨d2, h2, iT, iV, iS, iN, iTn, iPn, iP⟩ := mergeProxies_made m.Pmap dst hP
        rw [hm, h2]
        refine ⟨iV, iS, iN, iTn.trans hT, iPn, Or.inl iT, Or.inr ?_⟩
        intro k
        show d2.Pmap.get k = _
        rw [iP k]
        cases h3 : m.Tmap.get k with
        | none => simp
        | some w =>
          rcases hall k (by simp [h3]) with h4 | h4
          · cases h5 : dst.Pmap.get k <;> simp [h4]
          · simp [h4]
      · have hs : (smapX.mergeProxies dst m.Pmap).state = dst := by
          rcases mergeProxies_nil m.Pmap dst hP with ⟨h2, _⟩ | h2 <;> rw [h2] <;> rfl
        rw [hm, hs]
        exact ⟨rfl, rfl, rfl, hT, hP, Or.inl rfl, Or.inl rfl⟩
    · have hm : m.merge dst = .panic dst nilMapWrite := by
        unfold smapX.merge
        rw [h1]
      rw [hm]
      cases hP : dst.PmapNil <;> exact ⟨rfl, rfl, rfl, hT, hP, Or.inl rfl, Or.inl rfl⟩

/-- An entry of a map makes its key present. -/
theorem GoMap.has_of_mem {V : Type} (m : GoMap V) (e : String × V) (h : e ∈ m) :
    GoMap.has m e.1 = true := by
  induction m with
  | nil => cases h
  | cons a rest ih =>
    obtain ⟨ka, va⟩ := a
    unfold GoMap.has GoMap.get
    by_cases hk : ka = e.1
    · simp [hk]
    · rcases List.mem_cons.mp h with he | he
      · subst he
        exact absurd rfl hk
      · simpa [hk, GoMap.has] using ih he

/-- The first loop of `merge` returns and changes nothing when every id it
visits is already a key of `dst`. -/
theorem mergeTargets_noop (l : GoMap Snode) (d : smapX)
    (h : ∀ e ∈ l, d.Tmap.has e.1 = true ∨ d.Pmap.has e.1 = true) :
    smapX.mergeTargets d l = .ret d () := by
  induction l with
  | nil => rfl
  | cons e rest ih =>
    have he : smapX.mergeTarget d e.1 e.2 = .ret d () := by
      unfold smapX.mergeTarget
      rcases h e (List.mem_cons_self _ _) with h1 | h1 <;> simp [h1]
    unfold smapX.mergeTargets
    rw [he]
    exact ih (fun x hx => h x (List.mem_cons_of_mem _ hx))

/-- The second loop of `merge` returns and changes nothing when every id it
visits is already a key of `dst`. -/
theorem mergeProxies_noop (l : GoMap Snode) (d : smapX)
    (h : ∀ e ∈ l, d.Pmap.has e.1 = true ∨ d.Tmap.has e.1 = true) :
    smapX.mergeProxies d l = .ret d () := by
  induction l with
  | nil => rfl
  | cons e rest ih =>
    have he : smapX.mergeProxy d e.1 e.2 = .ret d () := by
      unfold smapX.mergeProxy
      rcases h e (List.mem_cons_self _ _) with h1 | h1 <;> simp [h1]
    unfold smapX.mergeProxies
    rw [he]
    exact ih (fun x hx => h x (List.mem_cons_of_mem _ hx))

/-- C13: after `src.merge(dst)`, for all maps `src` and `dst`, every id that
was a key of the targets of `dst` is still mapped there to the same
descriptor, every id that was a key of the proxies of `dst` is still mapped
there to the same descriptor, and an id that was in `dst` under one role is
mapped under the other role to what it was mapped before (so it is not added
there), whatever `src` holds under that id; this is so in the state in which
the call leaves `dst`, whether it returns or ends in the panic of a write to
a nil map. -/
theorem merge_keeps_dst (src dst : smapX) :
    (∀ id v, dst.Tmap.get id = some v → (src.merge dst).state.Tmap.get id = some v) ∧
    (∀ id v, dst.Pmap.get id = some v → (src.merge dst).state.Pmap.get id = some v) ∧
    (∀ id, (dst.Tmap.get id).isSome = true →
      (src.merge dst).state.Pmap.get id = dst.Pmap.get id) ∧
    (∀ id, (dst.Pmap.get id).isSome = true →
      (src.merge dst).state.Tmap.get id = dst.Tmap.get id) := by
  obtain ⟨_, _, _, _, _, hT, hP⟩ := merge_state src dst
  refine ⟨?_, ?_, ?_, ?_⟩
  · intro id v h
    rcases hT with hT | hT
    · rw [hT, h]
    · rw [hT id, h]; rfl
  · intro id v h
    rcases hP with hP | hP
    · rw [hP, h]
    · rw [hP id, h]; rfl
  · intro id h
    rcases hP with hP | hP
    · rw [hP]
    · rw [hP id]
      cases h2 : dst.Pmap.get id <;> simp [h]
  · intro id h
    rcases hT with hT | hT
    · rw [hT]
    · rw [hT id]
      cases h2 : dst.Tmap.get id <;> simp [h]

/-- C14, as stated, fails on a destination whose role maps are nil, such as
`&smapX{}`: the target `T1` of the source is a key of neither set of the
destination, the call ends in the run-time panic of the write
`dst.Tmap[id] = v`, and `T1` is not in the targets of the destination
afterwards. -/
theorem merge_into_nil_maps_faults :
    mergeSrc.disjoint ∧
    mergeSrc.Tmap.get "T1" = some (sampleNode "T1" "http://t1") ∧
    smapX.zero.Tmap.get "T1" = none ∧ smapX.zero.Pmap.get "T1" = none ∧
    mergeSrc.merge smapX.zero = .panic smapX.zero nilMapWrite ∧
    (mergeSrc.merge smapX.zero).state.Tmap.get "T1" ≠ some (sampleNode "T1" "http://t1") ∧
    (mergeSrc.merge smapX.zero).state.containsID "T1"
      ≠ (mergeSrc.containsID "T1" || smapX.zero.containsID "T1") := by
  refine ⟨?_, by decide, by decide, by decide, by decide, by decide, by decide⟩
  intro id h
  simp [mergeSrc, GoMap.has, GoMap.get] at h

/-- C14 (amended): for a source in which no id is a key of both role sets
and a destination whose targets map and proxies map are made (not nil),
`src.merge(dst)` returns, and afterwards every target (resp. proxy) of `src`
whose id was a key of neither set of `dst` is in the targets (resp. proxies)
of `dst` with the descriptor of `src`; every entry of `dst` afterwards was an
entry of `dst` before or is such an entry of `src`; and the ids contained in
`dst` afterwards are those contained in `src` or in `dst` before. -/
theorem merge_adds_missing (src dst : smapX) (hsrc : src.disjoint)
    (hTmade : dst.TmapNil = false) (hPmade : dst.PmapNil = false) :
    ∃ d, src.merge dst = .ret d () ∧
    (∀ id v, src.Tmap.get id = some v → dst.Tmap.get id = none → dst.Pmap.get id = none →
      d.Tmap.get id = some v) ∧
    (∀ id v, src.Pmap.get id = some v → dst.Tmap.get id = none → dst.Pmap.get id = none →
      d.Pmap.get id = some v) ∧
    (∀ id v, d.Tmap.get id = some v →
      dst.Tmap.get id = some v ∨
        (dst.Tmap.get id = none ∧ dst.Pmap.get id = none ∧ src.Tmap.get id = some v)) ∧
    (∀ id v, d.Pmap.get id = some v →
      dst.Pmap.get id = some v ∨
        (dst.Tmap.get id = none ∧ dst.Pmap.get id = none ∧ src.Pmap.get id = some v)) ∧
    (∀ id, d.containsID id = (src.containsID id || dst.containsID id)) := by
  obtain ⟨d, hd, _, _, _, _, _, hT, hP⟩ := merge_made src dst hTmade hPmade
  refine ⟨d, hd, ?_, ?_, ?_, ?_, ?_⟩
  · intro id v hs h1 h2
    rw [hT id, h1, h2, hs]; rfl
  · intro id v hs h1 h2
    have h3 : src.Tmap.get id = none := by
      cases h : src.Tmap.get id with
      | none => rfl
      | some w =>
        exact absurd ⟨by simp [GoMap.has, h], by simp [GoMap.has, hs]⟩ (hsrc id)
    rw [hP id, h1, h2, h3, hs]; rfl
  · intro id v h
    rw [hT id] at h
    cases h1 : dst.Tmap.get id with
    | some w => left; simpa [h1] using h
    | none =>
      right
      cases h2 : dst.Pmap.get id with
      | some w => simp [h1, h2] at h
      | none => exact ⟨rfl, rfl, by simpa [h1, h2] using h⟩
  · intro id v h
    rw [hP id] at h
    cases h1 : dst.Pmap.get id with
    | some w => left; simpa [h1] using h
    | none =>
      right
      cases h2 : dst.Tmap.get id with
      | some w => simp [h1, h2] at h
      | none =>
        refine ⟨rfl, rfl, ?_⟩
        cases h3 : src.Tmap.get id with
        | some w => simp [h1, h2, h3] at h
        | none => simpa [h1, h2, h3] using h
  · intro id
    rw [containsID_eq, containsID_eq, containsID_eq, hT id, hP id]
    cases h1 : dst.Tmap.get id <;> cases h2 : dst.Pmap.get id <;>
      cases h3 : src.Tmap.get id <;> cases h4 : src.Pmap.get id <;> simp

/-- Instance of `merge_adds_missing` at the source with targets `T1`, `T2`
and the destination with target `T2` and proxy `P1`, whose maps are made:
the call returns, and afterwards the targets of the destination are `T1` and
its own `T2`, its proxies are `P1`. -/
theorem merge_adds_missing_witness :
    mergeDst.TmapNil = false ∧ mergeDst.PmapNil = false ∧
    ∃ d, mergeSrc.merge mergeDst = .ret d () ∧
    d.Tmap.get "T1" = some (sampleNode "T1" "http://t1") ∧
    d.Tmap.get "T2" = some (sampleNode "T2" "http://t2-dst") ∧
    d.Pmap = [("P1", sampleNode "P1" "http://p1")] ∧
    d.Tmap.length = 2 ∧
    (∀ id, d.containsID id = (mergeSrc.containsID id || mergeDst.containsID id)) := by
  obtain ⟨d, hd, h1, _, _, _, h5⟩ := merge_adds_missing mergeSrc mergeDst
    (by intro id h; simp [mergeSrc, GoMap.has, GoMap.get] at h) rfl rfl
  refine ⟨rfl, rfl, d, hd, h1 "T1" _ (by decide) (by decide) (by decide), ?_, ?_, ?_, h5⟩
  all_goals
    have he : Exec.ret d () = mergeSrc.merge mergeDst := hd.symm
    have hd2 : d = (mergeSrc.merge mergeDst).state := by rw [← he]; rfl
    subst hd2
    decide

/-- C15: `src.merge(dst)`, for all maps `src` and `dst`, leaves the version,
the primary and the non-electable set of `dst` as they were, whatever it
inserts and whether it returns or ends in the panic of a write to a nil map;
the receiver `src` is only read, and when `dst` is the receiver itself the
call returns and leaves it exactly as it was. -/
theorem merge_frame (src dst : smapX) :
    (src.merge dst).state.Version = dst.Version ∧
    (src.merge dst).state.ProxySI = dst.ProxySI ∧
    (src.merge dst).state.NonElects = dst.NonElects ∧
    src.merge src = .ret src () := by
  obtain ⟨hV, hS, hN, _, _, _, _⟩ := merge_state src dst
  refine ⟨hV, hS, hN, ?_⟩
  unfold smapX.merge
  rw [mergeTargets_noop src.Tmap src (fun e he => Or.inl (GoMap.has_of_mem _ e he))]
  exact mergeProxies_noop src.Pmap src (fun e he => Or.inl (GoMap.has_of_mem _ e he))

/-! ## Properties of `clone` -/

/-- The target loop of `deepcopy` on memory returns when `dst.Tmap` is not
nil, and leaves the `SimpleKVs` objects as they were. -/
theorem copyTargets_ret (dst : smapXRef) (a : Nat) (hd : dst.Tmap = some a)
    (l : GoMap Snode) :
    ∀ h : Heap, ∃ h1, smapXRef.copyTargets dst h l = .ret h1 () ∧ h1.kvMaps = h.kvMaps := by
  induction l with
  | nil => intro h; exact ⟨h, rfl, rfl⟩
  | cons e rest ih =>
    intro h
    obtain ⟨id, v⟩ := e
    obtain ⟨h1, hr, hk⟩ :=
      ih { h with nodeMaps := h.nodeMaps.set a ((h.nodeMaps.getD a []).set id v) }
    refine ⟨h1, ?_, hk⟩
    unfold smapXRef.copyTargets
    simp only [Heap.setNode, hd]
    exact hr

/-- The proxy loop of `deepcopy` on memory returns when `dst.Pmap` is not
nil, and leaves the `SimpleKVs` objects as they were. -/
theorem copyProxies_ret (dst : smapXRef) (a : Nat) (hd : dst.Pmap = some a)
    (l : GoMap Snode) :
    ∀ h : Heap, ∃ h1, smapXRef.copyProxies dst h l = .ret h1 () ∧ h1.kvMaps = h.kvMaps := by
  induction l with
  | nil => intro h; exact ⟨h, rfl, rfl⟩
  | cons e rest ih =>
    intro h
    obtain ⟨id, v⟩ := e
    obtain ⟨h1, hr, hk⟩ :=
      ih { h with nodeMaps := h.nodeMaps.set a ((h.nodeMaps.getD a []).set id v) }
    refine ⟨h1, ?_, hk⟩
    unfold smapXRef.copyProxies
    simp only [Heap.setNode, hd]
    exact hr

/-- On every memory, the clone of a struct whose non-electable map is not nil
and has no entries holds the very reference of the original, and the
`SimpleKVs` objects are as before. -/
theorem clone_shares_empty (h : Heap) (m : smapXRef) (a : Nat) (hm : m.NonElects = some a)
    (he : h.kvMaps.getD a [] = []) :
    ∃ h1 c, smapXRef.clone h m = .ret h1 c ∧ c.NonElects = some a ∧
      h1.kvMaps = h.kvMaps := by
  have hlen : (h.kvsAt m.NonElects).length = 0 := by
    rw [hm]
    show (h.kvMaps.getD a []).length = 0
    rw [he]
    rfl
  unfold smapXRef.clone smapXRef.deepcopy
  simp only [smapXRef.init, hlen, lt_irrefl, if_false, Heap.makeNodes]
  obtain ⟨h1, hr1, hk1⟩ := copyTargets_ret
    { m with Tmap := some h.nodeMaps.length,
             Pmap := some (h.nodeMaps ++ [[]]).length } h.nodeMaps.length rfl
    (Heap.nodesAt { nodeMaps := h.nodeMaps ++ [[]] ++ [[]], kvMaps := h.kvMaps } m.Tmap)
    { nodeMaps := h.nodeMaps ++ [[]] ++ [[]], kvMaps := h.kvMaps }
  obtain ⟨h2, hr2, hk2⟩ := copyProxies_ret
    { m with Tmap := some h.nodeMaps.length,
             Pmap := some (h.nodeMaps ++ [[]]).length } (h.nodeMaps ++ [[]]).length rfl
    (h1.nodesAt m.Pmap) h1
  have hkv : h2.kvsAt m.NonElects = [] := by
    rw [hm]
    show h2.kvMaps.getD a [] = []
    rw [hk2, hk1]
    exact he
  rw [hr1]
  simp only []
  rw [hr2]
  simp only []
  rw [hkv]
  exact ⟨h2, _, rfl, hm, hk2.trans hk1⟩

/-- C16 fails on the code when the non-electable set of `M` is an empty,
non-nil map: `clone` returns a struct that denotes the same map value as `M`
and leaves `M` as it was, but it holds the reference of `M` to the
non-electable map, so the edit `clone.NonElects["P2"] = ""` puts `P2` into the
non-electable set of `M`, which was empty. -/
theorem clone_edit_reaches_original :
    ∃ h1 c h2,
      smapXRef.clone sampleHeap sampleRef = .ret h1 c ∧
      smapXRef.view h1 c = smapXRef.view sampleHeap sampleRef ∧
      smapXRef.view h1 sampleRef = smapXRef.view sampleHeap sampleRef ∧
      c.Tmap ≠ sampleRef.Tmap ∧ c.Pmap ≠ sampleRef.Pmap ∧
      c.NonElects = sampleRef.NonElects ∧
      h1.setKv c.NonElects "P2" "" = .ret h2 () ∧
      (smapXRef.view sampleHeap sampleRef).NonElects = some [] ∧
      (smapXRef.view h2 sampleRef).NonElects = some [("P2", "")] := by
  refine ⟨{ nodeMaps := [[("T1", sampleNode "T1" "http://t1")],
                         [("P1", sampleNode "P1" "http://p1")],
                         [("T1", sampleNode "T1" "http://t1")],
                         [("P1", sampleNode "P1" "http://p1")]],
            kvMaps := [[]] },
    { sampleRef with Tmap := some 2, Pmap := some 3 },
    { nodeMaps := [[("T1", sampleNode "T1" "http://t1")],
                   [("P1", sampleNode "P1" "http://p1")],
                   [("T1", sampleNode "T1" "http://t1")],
                   [("P1", sampleNode "P1" "http://p1")]],
      kvMaps := [[("P2", "")]] },
    by decide, by decide, by decide, by decide, by decide, by decide, by decide, by decide,
    by decide⟩

/-! ## Properties of `isValid` and `isPrimary` -/

/-- C17: `isValid` is true exactly when the primary is not nil and its id is a
key of the proxies; no primary, or a primary whose id is not a key of the
proxies, gives false, also when that id is a key of the targets. -/
theorem isValid_characterization (m : smapX) :
    (m.isValid = true ↔
      ∃ psi, m.ProxySI = some psi ∧ (m.Pmap.get psi.DaemonID).isSome = true) ∧
    (m.ProxySI = none → m.isValid = false) ∧
    (∀ psi, m.ProxySI = some psi → m.Pmap.get psi.DaemonID = none →
      (m.Tmap.get psi.DaemonID).isSome = true → m.isValid = false) := by
  refine ⟨isValid_iff m, ?_, ?_⟩
  · intro h
    unfold smapX.isValid
    rw [h]
  · intro psi h hp _
    unfold smapX.isValid smapX.isPresent smapX.GetProxy
    rw [h]
    simp [hp]

/-- C18: `isPrimary(self)` is true exactly when the map is valid and the id of
`self` is the id of the primary; two nodes for which it is true on the same
map have the same id, and that id is a key of the proxies; on a map that is
not valid it is false for every node. -/
theorem isPrimary_characterization (m : smapX) :
    (∀ self : Snode, m.isPrimary self = true ↔
      (m.isValid = true ∧ ∃ psi, m.ProxySI = some psi ∧ psi.DaemonID = self.DaemonID)) ∧
    (∀ a b : Snode, m.isPrimary a = true → m.isPrimary b = true →
      a.DaemonID = b.DaemonID ∧ (m.Pmap.get a.DaemonID).isSome = true) ∧
    (m.isValid = false → ∀ self : Snode, m.isPrimary self = false) := by
  have hiff : ∀ self : Snode, m.isPrimary self = true ↔
      (m.isValid = true ∧ ∃ psi, m.ProxySI = some psi ∧ psi.DaemonID = self.DaemonID) := by
    intro self
    unfold smapX.isPrimary
    cases hv : m.isValid with
    | false => simp
    | true =>
      cases hp : m.ProxySI with
      | none => simp
      | some psi => simp
  refine ⟨hiff, ?_, ?_⟩
  · intro a b ha hb
    obtain ⟨hv, pa, hpa, hea⟩ := (hiff a).mp ha
    obtain ⟨_, pb, hpb, heb⟩ := (hiff b).mp hb
    obtain ⟨psi, hpsi, hin⟩ := (isValid_iff m).mp hv
    rw [hpa] at hpb hpsi
    cases hpb
    cases hpsi
    exact ⟨hea.symm.trans heb, by rw [← hea]; exact hin⟩
  · intro hv self
    cases h : m.isPrimary self with
    | false => rfl
    | true =>
      have := ((hiff self).mp h).1
      rw [hv] at this
      cases this

/-! ## Disjoint role sets and versions -/

/-- Presence of a key after `m[k] = v`. -/
theorem GoMap.has_set {V : Type} (m : GoMap V) (k k' : String) (v : V) :
    (GoMap.set m k v).has k' = (decide (k' = k) || m.has k') := by
  unfold GoMap.has
  rw [GoMap.get_set]
  by_cases h : k' = k <;> simp [h]

/-- Presence of a key after `delete(m, k)`. -/
theorem GoMap.has_del {V : Type} (m : GoMap V) (k k' : String) :
    (GoMap.del m k).has k' = (!decide (k' = k) && m.has k') := by
  unfold GoMap.has
  rw [GoMap.get_del]
  by_cases h : k' = k <;> simp [h]

/-- The target loop of `deepcopy` touches the targets only and makes the keys
it visits present. -/
theorem copyTargets_spec (l : GoMap Snode) :
    ∀ d : smapX,
    (smapX.copyTargets d l).Pmap = d.Pmap ∧
    (smapX.copyTargets d l).Version = d.Version ∧
    (smapX.copyTargets d l).ProxySI = d.ProxySI ∧
    (smapX.copyTargets d l).NonElects = d.NonElects ∧
    ∀ k, (smapX.copyTargets d l).Tmap.has k = (d.Tmap.has k || GoMap.has l k) := by
  induction l with
  | nil =>
    intro d
    exact ⟨rfl, rfl, rfl, rfl, fun k => by simp [smapX.copyTargets, GoMap.has, GoMap.get]⟩
  | cons e rest ih =>
    intro d
    obtain ⟨id, v⟩ := e
    obtain ⟨iP, iV, iS, iN, iT⟩ := ih { d with Tmap := d.Tmap.set id v }
    unfold smapX.copyTargets
    refine ⟨iP, iV, iS, iN, ?_⟩
    intro k
    rw [iT k]
    simp only [GoMap.has_set]
    by_cases hk : id = k
    · subst hk
      simp [GoMap.has, GoMap.get]
    · have hk2 : ¬ k = id := fun h => hk h.symm
      simp [GoMap.has, GoMap.get, hk, hk2]

/-- The proxy loop of `deepcopy` touches the proxies only and makes the keys
it visits present. -/
theorem copyProxies_spec (l : GoMap Snode) :
    ∀ d : smapX,
    (smapX.copyProxies d l).Tmap = d.Tmap ∧
    (smapX.copyProxies d l).Version = d.Version ∧
    (smapX.copyProxies d l).ProxySI = d.ProxySI ∧
    (smapX.copyProxies d l).NonElects = d.NonElects ∧
    ∀ k, (smapX.copyProxies d l).Pmap.has k = (d.Pmap.has k || GoMap.has l k) := by
  induction l with
  | nil =>
    intro d
    exact ⟨rfl, rfl, rfl, rfl, fun k => by simp [smapX.copyProxies, GoMap.has, GoMap.get]⟩
  | cons e rest ih =>
    intro d
    obtain ⟨id, v⟩ := e
    obtain ⟨iT, iV, iS, iN, iP⟩ := ih { d with Pmap := d.Pmap.set id v }
    unfold smapX.copyProxies
    refine ⟨iT, iV, iS, iN, ?_⟩
    intro k
    rw [iP k]
    simp only [GoMap.has_set]
    by_cases hk : id = k
    · subst hk
      simp [GoMap.has, GoMap.get]
    · have hk2 : ¬ k = id := fun h => hk h.symm
      simp [GoMap.has, GoMap.get, hk, hk2]

/-- The non-electable loop of `deepcopy` returns when the map of `dst` is not
nil, and touches nothing else. -/
theorem copyNonElects_ret (l : SimpleKVs) :
    ∀ (d : smapX) (kvs : SimpleKVs), d.NonElects = some kvs →
    ∃ d1, smapX.copyNonElects d l = .ret d1 () ∧ d1.Tmap = d.Tmap ∧ d1.Pmap = d.Pmap ∧
      d1.Version = d.Version ∧ d1.ProxySI = d.ProxySI := by
  induction l with
  | nil =>
    intro d kvs _
    exact ⟨d, rfl, rfl, rfl, rfl, rfl⟩
  | cons e rest ih =>
    intro d kvs hd
    obtain ⟨id, v⟩ := e
    obtain ⟨d1, hr, h1, h2, h3, h4⟩ :=
      ih { d with NonElects := some (kvs.set id v) } (kvs.set id v) rfl
    refine ⟨d1, ?_, h1, h2, h3, h4⟩
    unfold smapX.copyNonElects
    simp only [hd]
    exact hr

/-- The method `clone` returns for every map, leaves the receiver as it was,
and the copy has the version, the primary and the keys of the original. -/
theorem clone_spec (m : smapX) :
    ∃ c, m.clone = .ret m c ∧ c.Version = m.Version ∧ c.ProxySI = m.ProxySI ∧
      (∀ k, c.Tmap.has k = m.Tmap.has k) ∧ (∀ k, c.Pmap.has k = m.Pmap.has k) := by
  obtain ⟨tP, tV, tS, tN, tT⟩ :=
    copyTargets_spec m.Tmap (m.init m.Tmap.length m.Pmap.length m.lenNonElects)
  obtain ⟨pT, pV, pS, pN, pP⟩ := copyProxies_spec m.Pmap
    (smapX.copyTargets (m.init m.Tmap.length m.Pmap.length m.lenNonElects) m.Tmap)
  have hfin : ∃ d, m.deepcopy smapX.zero = .ret d () ∧
      d.Tmap = (smapX.copyProxies (smapX.copyTargets
        (m.init m.Tmap.length m.Pmap.length m.lenNonElects) m.Tmap) m.Pmap).Tmap ∧
      d.Pmap = (smapX.copyProxies (smapX.copyTargets
        (m.init m.Tmap.length m.Pmap.length m.lenNonElects) m.Tmap) m.Pmap).Pmap ∧
      d.Version = m.Version ∧ d.ProxySI = m.ProxySI := by
    unfold smapX.deepcopy
    simp only []
    cases hn : m.NonElects with
    | none => exact ⟨_, rfl, rfl, rfl, pV.trans tV, pS.trans tS⟩
    | some kvs =>
      simp only []
      cases kvs with
      | nil => exact ⟨_, rfl, rfl, rfl, pV.trans tV, pS.trans tS⟩
      | cons e rest =>
        have hne : (smapX.copyProxies (smapX.copyTargets
            (m.init m.Tmap.length m.Pmap.length m.lenNonElects) m.Tmap) m.Pmap).NonElects
            = some [] := by
          rw [pN, tN]
          simp [smapX.init, smapX.lenNonElects, hn]
        obtain ⟨d1, hr, h1, h2, h3, h4⟩ := copyNonElects_ret (e :: rest) _ [] hne
        exact ⟨d1, hr, h1, h2, h3.trans (pV.trans tV), h4.trans (pS.trans tS)⟩
  obtain ⟨d, hd, hT, hP, hV, hS⟩ := hfin
  refine ⟨d, ?_, hV, hS, ?_, ?_⟩
  · unfold smapX.clone
    rw [hd]
  · intro k
    rw [hT, pT, tT k]
    simp [smapX.init, GoMap.has, GoMap.get]
  · intro k
    rw [hP, pP k, tP]
    simp [smapX.init, GoMap.has, GoMap.get]

/-- The method `merge` keeps the role sets of `dst` disjoint. -/
theorem merge_disjoint (src dst : smapX) (hd : dst.disjoint) :
    (src.merge dst).state.disjoint := by
  obtain ⟨_, _, _, _, _, hT, hP⟩ := merge_state src dst
  intro id h
  have hdid := hd id
  unfold GoMap.has at h hdid
  rcases hT with hT | hT <;> rcases hP with hP | hP
  · rw [hT, hP] at h
    exact hdid h
  · rw [hT, hP id] at h
    cases h1 : dst.Tmap.get id <;> cases h2 : dst.Pmap.get id <;>
      cases h3 : src.Tmap.get id <;> simp [h1, h2, h3] at h hdid
  · rw [hT id, hP] at h
    cases h1 : dst.Tmap.get id <;> cases h2 : dst.Pmap.get id <;>
      cases h3 : src.Tmap.get id <;> simp [h1, h2, h3] at h hdid
  · rw [hT id, hP id] at h
    cases h1 : dst.Tmap.get id <;> cases h2 : dst.Pmap.get id <;>
      cases h3 : src.Tmap.get id <;> simp [h1, h2, h3] at h hdid

/-- A returning `addTarget` keeps the role sets disjoint. -/
theorem addTarget_disjoint (m m1 : smapX) (tsi : Snode) (hd : m.disjoint)
    (h : m.addTarget tsi = .ret m1 ()) : m1.disjoint := by
  unfold smapX.addTarget at h
  split at h
  next => cases h
  next hc =>
    split at h
    next => cases h
    injection h with h1 _
    subst h1
    rw [containsID_eq] at hc
    intro id hid
    simp only [GoMap.has_set] at hid
    by_cases hk : id = tsi.DaemonID
    · subst hk
      have h2 : GoMap.has m.Pmap tsi.DaemonID = true := hid.2
      unfold GoMap.has at h2
      simp [h2] at hc
    · simp only [hk, decide_False, Bool.false_or] at hid
      exact hd id hid

/-- A returning `addProxy` keeps the role sets disjoint. -/
theorem addProxy_disjoint (m m1 : smapX) (psi : Snode) (hd : m.disjoint)
    (h : m.addProxy psi = .ret m1 ()) : m1.disjoint := by
  unfold smapX.addProxy at h
  split at h
  next => cases h
  next hc =>
    split at h
    next => cases h
    injection h with h1 _
    subst h1
    rw [containsID_eq] at hc
    intro id hid
    simp only [GoMap.has_set] at hid
    by_cases hk : id = psi.DaemonID
    · subst hk
      have h2 : GoMap.has m.Tmap psi.DaemonID = true := hid.1
      unfold GoMap.has at h2
      simp [h2] at hc
    · simp only [hk, decide_False, Bool.false_or] at hid
      exact hd id hid

/-- A returning `delTarget` keeps the role sets disjoint. -/
theorem delTarget_disjoint (env : Env) (m m1 : smapX) (sid : String) (hd : m.disjoint)
    (h : m.delTarget env sid = .ret m1 ()) : m1.disjoint := by
  unfold smapX.delTarget at h
  split at h
  next => cases h
  next =>
    injection h with h1 _
    subst h1
    intro id hid
    simp only [GoMap.has_del, Bool.and_eq_true] at hid
    exact hd id ⟨hid.1.2, hid.2⟩

/-- A returning `delProxy` keeps the role sets disjoint. -/
theorem delProxy_disjoint (env : Env) (m m1 : smapX) (pid : String) (hd : m.disjoint)
    (h : m.delProxy env pid = .ret m1 ()) : m1.disjoint := by
  unfold smapX.delProxy at h
  split at h
  next => cases h
  next =>
    injection h with h1 _
    subst h1
    intro id hid
    simp only [GoMap.has_del, Bool.and_eq_true] at hid
    exact hd id ⟨hid.1, hid.2.2⟩

/-- The copy returned by `clone` has disjoint role sets when the original
has. -/
theorem clone_disjoint (m m0 m1 : smapX) (hd : m.disjoint) (h : m.clone = .ret m0 m1) :
    m1.disjoint := by
  obtain ⟨c, hc, _, _, hT, hP⟩ := clone_spec m
  rw [hc] at h
  injection h with _ h2
  subst h2
  intro id hid
  rw [hT id, hP id] at hid
  exact hd id hid

/-- C19: no id is a key of both the targets and the proxies of a map built
from `newSmap` by returning calls of `addTarget`, `addProxy`, `delTarget`,
`delProxy`, by `clone` and by merging maps into it; and `src.merge(dst)` keeps
the role sets of `dst` disjoint whenever they were, for every `src`, whatever
`src` holds under the two roles, in the state in which the call leaves `dst`,
by return or by the panic of a write to a nil map. -/
theorem disjoint_invariant (env : Env) :
    (∀ m, smapX.Reachable env m → m.disjoint) ∧
    (∀ src dst : smapX, dst.disjoint → (src.merge dst).state.disjoint) := by
  refine ⟨?_, merge_disjoint⟩
  intro m hm
  induction hm with
  | newSmap =>
    intro id hid
    simp [smapX.newSmap, smapX.init, smapX.zero, GoMap.has, GoMap.get] at hid
  | addTarget m m1 tsi _ h ih => exact addTarget_disjoint m m1 tsi ih h
  | addProxy m m1 psi _ h ih => exact addProxy_disjoint m m1 psi ih h
  | delTarget m m1 sid _ h ih => exact delTarget_disjoint env m m1 sid ih h
  | delProxy m m1 pid _ h ih => exact delProxy_disjoint env m m1 pid ih h
  | clone m m0 m1 _ h ih => exact clone_disjoint m m0 m1 ih h
  | merge src dst _ ih => exact merge_disjoint src dst ih

/-- Instance of `disjoint_invariant` at the map built from `newSmap` by
`addProxy` of `P1`, and at the merge into it of a source that holds `P1` as a
target and `X` under both roles. -/
theorem disjoint_invariant_witness :
    ({ Tmap := [], Pmap := [("P1", sampleNode "P1" "http://p1")], NonElects := none,
       ProxySI := none, Version := 1 } : smapX).disjoint ∧
    (smapX.merge
      { Tmap := [("P1", sampleNode "P1" "http://t"), ("X", sampleNode "X" "http://x")],
        Pmap := [("X", sampleNode "X" "http://x")], NonElects := none, ProxySI := none,
        Version := 1 }
      { Tmap := [], Pmap := [("P1", sampleNode "P1" "http://p1")], NonElects := none,
        ProxySI := none, Version := 1 }).state.disjoint :=
  ⟨(disjoint_invariant sampleEnv).1 _
      (smapX.Reachable.addProxy smapX.newSmap _ (sampleNode "P1" "http://p1")
        smapX.Reachable.newSmap (by decide)),
   (disjoint_invariant sampleEnv).2 _ _
      ((disjoint_invariant sampleEnv).1 _
        (smapX.Reachable.addProxy smapX.newSmap _ (sampleNode "P1" "http://p1")
          smapX.Reachable.newSmap (by decide)))⟩

/-- C20, as stated, fails at the largest version: `addProxy` of a node with a
fresh id on a map of version `2^63 - 1` returns, and the version afterwards,
`-2^63`, is lower than the version before. -/
theorem addProxy_version_drops :
    isInt64 (sampleMap maxInt64).Version ∧
      ∃ m1, (sampleMap maxInt64).addProxy (sampleNode "P2" "http://p2") = .ret m1 () ∧
        m1.Version = minInt64 ∧
        m1.Version < (sampleMap maxInt64).Version ∧
        ¬ (sampleMap maxInt64).Version < m1.Version := by
  refine ⟨by decide, _, rfl, by decide, by decide, by decide⟩

/-- C20 (amended): the version is an `int64`; on a map whose version is below
the largest `int64`, every returning `addTarget`, `addProxy`, `delTarget` and
`delProxy` leaves a version that is the old one plus one, hence strictly
greater; at every version, `clone` returns a copy of the same version and
`merge` leaves the version of `dst` as it was, whether it returns or ends in
the panic of a write to a nil map. -/
theorem version_monotone (env : Env) (m : smapX) :
    (isInt64 m.Version → m.Version < maxInt64 →
      (∀ n m1, m.addTarget n = .ret m1 () →
        m1.Version = m.Version + 1 ∧ m.Version < m1.Version ∧ isInt64 m1.Version) ∧
      (∀ n m1, m.addProxy n = .ret m1 () →
        m1.Version = m.Version + 1 ∧ m.Version < m1.Version ∧ isInt64 m1.Version) ∧
      (∀ id m1, m.delTarget env id = .ret m1 () →
        m1.Version = m.Version + 1 ∧ m.Version < m1.Version ∧ isInt64 m1.Version) ∧
      (∀ id m1, m.delProxy env id = .ret m1 () →
        m1.Version = m.Version + 1 ∧ m.Version < m1.Version ∧ isInt64 m1.Version)) ∧
    (∃ c, m.clone = .ret m c ∧ c.Version = m.Version) ∧
    (∀ src : smapX, (src.merge m).state.Version = m.Version) := by
  refine ⟨?_, ?_, ?_⟩
  · intro hv hmax
    have hw := wrap64_succ m.Version hv hmax
    have hfacts : wrap64 (m.Version + 1) = m.Version + 1 ∧
        m.Version < wrap64 (m.Version + 1) ∧ isInt64 (wrap64 (m.Version + 1)) := by
      rw [hw]
      unfold isInt64 minInt64 maxInt64 at *
      omega
    refine ⟨?_, ?_, ?_, ?_⟩
    · intro n m1 h
      unfold smapX.addTarget at h
      split at h
      next => cases h
      next =>
        split at h
        next => cases h
        next =>
          injection h with h1 _
          subst h1
          exact hfacts
    · intro n m1 h
      unfold smapX.addProxy at h
      split at h
      next => cases h
      next =>
        split at h
        next => cases h
        next =>
          injection h with h1 _
          subst h1
          exact hfacts
    · intro id m1 h
      unfold smapX.delTarget at h
      split at h
      next => cases h
      next =>
        injection h with h1 _
        subst h1
        exact hfacts
    · intro id m1 h
      unfold smapX.delProxy at h
      split at h
      next => cases h
      next =>
        injection h with h1 _
        subst h1
        exact hfacts
  · obtain ⟨c, hc, hV, _⟩ := clone_spec m
    exact ⟨c, hc, hV⟩
  · intro src
    exact (merge_state src m).1

/-- Instance of `version_monotone` at the sample map of version 3: `addTarget`
of a fresh node `T2` returns and leaves version 4. -/
theorem version_monotone_witness :
    (sampleMap 3).addTarget (sampleNode "T2" "http://t2")
      = .ret { sampleMap 4 with
               Tmap := [("T2", sampleNode "T2" "http://t2"),
                        ("T1", sampleNode "T1" "http://t1")] } () ∧
    ({ sampleMap 4 with
       Tmap := [("T2", sampleNode "T2" "http://t2"),
                ("T1", sampleNode "T1" "http://t1")] } : smapX).Version
      = (sampleMap 3).Version + 1 ∧
    (sampleMap 3).Version <
      ({ sampleMap 4 with
         Tmap := [("T2", sampleNode "T2" "http://t2"),
                  ("T1", sampleNode "T1" "http://t1")] } : smapX).Version ∧
    isInt64 ({ sampleMap 4 with
               Tmap := [("T2", sampleNode "T2" "http://t2"),
                        ("T1", sampleNode "T1" "http://t1")] } : smapX).Version :=
  ⟨by decide,
   ((version_monotone sampleEnv (sampleMap 3)).1 (by decide) (by decide)).1
     (sampleNode "T2" "http://t2") _ (by decide)⟩

/-! ## The primary and the proxies -/

/-- C21, as stated, fails: `isValid` accepts a map whose primary `P1` has
other endpoints than the descriptor stored under `P1` in the proxies; no
entry of the proxies equals the primary. -/
theorem valid_with_stale_proxy_entry :
    staleProxyMap.isValid = true ∧
      staleProxyMap.ProxySI = some (sampleNode "P1" "http://new") ∧
      staleProxyMap.Pmap.get "P1" = some (sampleNode "P1" "http://old") ∧
      staleProxyMap.Pmap.get "P1" ≠ staleProxyMap.ProxySI ∧
      (∀ e ∈ staleProxyMap.Pmap, some e.2 ≠ staleProxyMap.ProxySI) := by
  refine ⟨by decide, rfl, by decide, by decide, ?_⟩
  intro e he
  simp only [staleProxyMap, List.mem_singleton] at he
  subst he
  decide

/-- C21 (amended): on a map for which `isValid` is true the primary is not
nil and the proxies hold a descriptor under the id of the primary; `isValid`
compares the id only, so nothing more is known of that descriptor. -/
theorem valid_primary_id_in_proxies (m : smapX) (hvalid : m.isValid = true) :
    ∃ psi v, m.ProxySI = some psi ∧ m.Pmap.get psi.DaemonID = some v := by
  obtain ⟨psi, hp, hin⟩ := (isValid_iff m).mp hvalid
  cases hg : m.Pmap.get psi.DaemonID with
  | none => rw [hg] at hin; cases hin
  | some v => exact ⟨psi, v, hp, hg⟩

/-- Instance of `valid_primary_id_in_proxies` at the map whose primary has
other endpoints than the stored descriptor. -/
theorem valid_primary_id_in_proxies_witness :
    ∃ psi v, staleProxyMap.ProxySI = some psi ∧
      staleProxyMap.Pmap.get psi.DaemonID = some v :=
  valid_primary_id_in_proxies staleProxyMap (by decide)

/-! ## Properties of `newSnode` -/

/-- C22: for every id, protocol and addresses, `newSnode` returns a
descriptor with that id whose public endpoint is the IP, the decimal port and
`proto + "://" + address` of the public address; its intra-cluster control
endpoint is the public endpoint when the internal address has an empty IP and
is otherwise built in the same way from the internal address; and, whatever
the internal address is, its data endpoint is the public endpoint when the
replication address has an empty IP and is otherwise built from the
replication address. -/
theorem newSnode_endpoints (lib : NetLib) (id proto : String) (pa ia ra : TCPAddr) :
    ∃ snode, newSnode lib id proto (some pa) (some ia) (some ra) = .ret () snode ∧
      snode.DaemonID = id ∧
      snode.PublicNet =
        { NodeIPAddr := lib.ipString pa.IP, DaemonPort := toString pa.Port,
          DirectURL := proto ++ "://" ++ lib.addrString pa } ∧
      (ia.IP.length = 0 → snode.InternalNet = snode.PublicNet) ∧
      (0 < ia.IP.length → snode.InternalNet =
        { NodeIPAddr := lib.ipString ia.IP, DaemonPort := toString ia.Port,
          DirectURL := proto ++ "://" ++ lib.addrString ia }) ∧
      (ra.IP.length = 0 → snode.ReplNet = snode.PublicNet) ∧
      (0 < ra.IP.length → snode.ReplNet =
        { NodeIPAddr := lib.ipString ra.IP, DaemonPort := toString ra.Port,
          DirectURL := proto ++ "://" ++ lib.addrString ra }) := by
  refine ⟨_, rfl, rfl, rfl, ?_, ?_, ?_, ?_⟩
  · intro h
    simp [h]
  · intro h
    simp [h]
  · intro h
    simp [h]
  · intro h
    simp [h]

/-! ## `synchronize` on an owner without snapshot -/

/-- On an owner that has not published any snapshot, `synchronize` with a
valid candidate ends in the nil-dereference panic of `Get`, with the state as
it was. -/
theorem synchronize_unpublished (env : Env) (io : SaveOutcomes) (w : World) (newsmap : smapX)
    (saveSmap lesserVersionIsErr : Bool) (hnone : w.smap = none)
    (hvalid : newsmap.isValid = true) :
    smapowner.synchronize env io w newsmap saveSmap lesserVersionIsErr
      = .panic w nilDeref := by
  unfold smapowner.synchronize smapowner.Get
  simp [hnone, hvalid]

/-- On an owner that holds a snapshot `synchronize` returns; the error is not
empty exactly for an invalid candidate, for an older candidate under the
strict flag, and for a valid newer candidate whose configuration write fails;
the snapshot is replaced exactly for a valid newer candidate whose
configuration write succeeds. -/
theorem synchronize_held_characterization (env : Env) (io : SaveOutcomes) (w : World)
    (cur newsmap : smapX) (saveSmap lesserVersionIsErr : Bool) (hcur : w.smap = some cur) :
    ∃ w1 errstr, smapowner.synchronize env io w newsmap saveSmap lesserVersionIsErr
        = .ret w1 errstr ∧
      (errstr ≠ "" ↔
        (newsmap.isValid = false ∨
          (lesserVersionIsErr = true ∧ newsmap.Version < cur.Version) ∨
          (newsmap.isValid = true ∧ cur.Version < newsmap.Version ∧ io.conf ≠ none))) ∧
      (w1.smap ≠ w.smap ↔
        (newsmap.isValid = true ∧ cur.Version < newsmap.Version ∧ io.conf = none)) ∧
      (w1.smap = w.smap ∨ w1.smap = some newsmap) := by
  cases hv : newsmap.isValid with
  | false =>
    refine ⟨w, "Invalid smapX: " ++ newsmap.pp env, ?_, ?_, ?_, Or.inl rfl⟩
    · unfold smapowner.synchronize
      simp [hv]
    · simp [append_ne_empty _ _ (by decide : ("Invalid smapX: ").length ≠ 0)]
    · simp
  | true =>
    have h := synchronize_held env io w cur newsmap saveSmap lesserVersionIsErr hcur hv
    by_cases hle : newsmap.Version ≤ cur.Version
    · rw [if_pos hle] at h
      have hng : ¬ cur.Version < newsmap.Version := not_lt.mpr hle
      by_cases hs : (lesserVersionIsErr && decide (newsmap.Version < cur.Version)) = true
      · rw [if_pos hs] at h
        simp only [Bool.and_eq_true, decide_eq_true_eq] at hs
        refine ⟨w, _, h, ?_, ?_, Or.inl rfl⟩
        · have hne : "Attempt to downgrade local smapX v" ++ toString cur.Version ++ " to v"
              ++ toString newsmap.Version ≠ "" := by
            rw [String.append_assoc, String.append_assoc]
            exact append_ne_empty _ _ (by decide)
          simp [hne, hs.1, hs.2]
        · simp [hng]
      · rw [if_neg hs] at h
        simp only [Bool.and_eq_true, decide_eq_true_eq] at hs
        refine ⟨w, "", h, ?_, ?_, Or.inl rfl⟩
        · simp only [ne_eq, not_true_eq_false, false_iff, not_or, not_and]
          exact ⟨by simp, fun a b => hs ⟨a, b⟩, fun _ c => absurd c hng⟩
        · simp [hng]
    · rw [if_neg hle] at h
      have hgt : cur.Version < newsmap.Version := not_le.mp hle
      have hnl : ¬ newsmap.Version < cur.Version := fun c => hle (le_of_lt c)
      obtain ⟨psi, hp, _⟩ := (isValid_iff newsmap).mp hv
      cases hc : io.conf with
      | none =>
        obtain ⟨w1, hper, hsm, _⟩ := persist_conf_ok env io w newsmap saveSmap psi hp hc
        rw [hper] at h
        simp only [if_true] at h
        refine ⟨smapowner.put w1 newsmap, "", h, ?_, ?_, Or.inr rfl⟩
        · simp [hnl]
        · have hne : (smapowner.put w1 newsmap).smap ≠ w.smap := by
            intro e
            rw [hcur] at e
            simp only [smapowner.put, Option.some.injEq] at e
            rw [e] at hgt
            exact lt_irrefl _ hgt
          simp [hne, hgt]
      | some err =>
        have hper := persist_conf_fail env io w newsmap saveSmap psi err hp hc
        have hne : "Error writing config file " ++ env.conffile ++ ", err: " ++ err ≠ "" := by
          rw [String.append_assoc, String.append_assoc]
          exact append_ne_empty _ _ (by decide)
        rw [hper] at h
        simp only [if_neg hne] at h
        refine ⟨_, _, h, ?_, ?_, Or.inl rfl⟩
        · simp [hne, hgt]
        · simp

/-- C24 fails on the code for an owner without snapshot: with a valid
candidate and a failing configuration write, `synchronize` does not return the
non-empty error of case (c) but ends in the nil-dereference panic of
`smapowner.Get`, which it calls before its `smap != nil` test. -/
theorem synchronize_unpublished_conf_fails :
    (sampleMap 3).isValid = true ∧ freshWorld.smap = none ∧
      smapowner.synchronize sampleEnv ⟨some "disk full", none⟩ freshWorld (sampleMap 3)
          true false = .panic freshWorld nilDeref ∧
      (∀ w1 errstr,
        smapowner.synchronize sampleEnv ⟨some "disk full", none⟩ freshWorld (sampleMap 3)
          true false ≠ .ret w1 errstr) := by
  have h := synchronize_unpublished sampleEnv ⟨some "disk full", none⟩ freshWorld (sampleMap 3)
    true false rfl (by decide)
  refine ⟨by decide, rfl, h, ?_⟩
  intro w1 errstr e
  rw [h] at e
  cases e

/-- C25 fails on the code: on an owner that has not published any snapshot,
`synchronize` with a valid candidate whose writes succeed does not publish the
candidate; it ends in the nil-dereference panic of `smapowner.Get`, the owner
still without snapshot and nothing written. -/
theorem synchronize_unpublished_not_published :
    (sampleMap 0).isValid = true ∧ freshWorld.smap = none ∧
      smapowner.synchronize sampleEnv ⟨none, none⟩ freshWorld (sampleMap 0) true false
        = .panic freshWorld nilDeref ∧
      smapowner.synchronize sampleEnv ⟨none, none⟩ freshWorld (sampleMap 0) true true
        = .panic freshWorld nilDeref ∧
      smapowner.get (smapowner.after
        (smapowner.synchronize sampleEnv ⟨none, none⟩ freshWorld (sampleMap 0) true false))
        = none ∧
      (smapowner.after
        (smapowner.synchronize sampleEnv ⟨none, none⟩ freshWorld (sampleMap 0) true false)).saves
        = [] := by
  have h1 := synchronize_unpublished sampleEnv ⟨none, none⟩ freshWorld (sampleMap 0)
    true false rfl (by decide)
  have h2 := synchronize_unpublished sampleEnv ⟨none, none⟩ freshWorld (sampleMap 0)
    true true rfl (by decide)
  refine ⟨by decide, rfl, h1, h2, ?_, ?_⟩
  · rw [h1]; rfl
  · rw [h1]; rfl

/-! ## Edits and validity -/

/-- C26: on a valid map, every returning `addTarget`, `addProxy` and
`delTarget`, and every returning `delProxy` of an id that is not the id of
the primary, leave a map that is valid with the same primary; `delProxy` of
the id of the primary returns, and leaves a map for which `isValid` is false,
`isPrimary` is false for every node, and which `synchronize` rejects with the
validation error. -/
theorem edits_and_validity (env : Env) (m : smapX) (hvalid : m.isValid = true) :
    (∀ n m1, m.addTarget n = .ret m1 () → m1.isValid = true ∧ m1.ProxySI = m.ProxySI) ∧
    (∀ n m1, m.addProxy n = .ret m1 () → m1.isValid = true ∧ m1.ProxySI = m.ProxySI) ∧
    (∀ id m1, m.delTarget env id = .ret m1 () →
      m1.isValid = true ∧ m1.ProxySI = m.ProxySI) ∧
    (∀ id m1 psi, m.ProxySI = some psi → id ≠ psi.DaemonID →
      m.delProxy env id = .ret m1 () → m1.isValid = true ∧ m1.ProxySI = m.ProxySI) ∧
    (∀ psi, m.ProxySI = some psi →
      ∃ m1, m.delProxy env psi.DaemonID = .ret m1 () ∧ m1.isValid = false ∧
        (∀ self, m1.isPrimary self = false) ∧
        ∀ (io : SaveOutcomes) (w : World) (saveSmap lesserVersionIsErr : Bool),
          ∃ errstr, smapowner.synchronize env io w m1 saveSmap lesserVersionIsErr
            = .ret w errstr ∧ errstr ≠ "") := by
  obtain ⟨p, hp, hin⟩ := (isValid_iff m).mp hvalid
  refine ⟨?_, ?_, ?_, ?_, ?_⟩
  · intro n m1 h
    unfold smapX.addTarget at h
    split at h
    next => cases h
    next =>
      split at h
      next => cases h
      injection h with h1 _
      subst h1
      exact ⟨(isValid_iff _).mpr ⟨p, hp, hin⟩, rfl⟩
  · intro n m1 h
    unfold smapX.addProxy at h
    split at h
    next => cases h
    next =>
      split at h
      next => cases h
      injection h with h1 _
      subst h1
      refine ⟨(isValid_iff _).mpr ⟨p, hp, ?_⟩, rfl⟩
      show ((m.Pmap.set n.DaemonID n).get p.DaemonID).isSome = true
      rw [GoMap.get_set]
      split
      · rfl
      · exact hin
  · intro id m1 h
    unfold smapX.delTarget at h
    split at h
    next => cases h
    next =>
      injection h with h1 _
      subst h1
      exact ⟨(isValid_iff _).mpr ⟨p, hp, hin⟩, rfl⟩
  · intro id m1 psi hpsi hne h
    rw [hp] at hpsi
    cases hpsi
    unfold smapX.delProxy at h
    split at h
    next => cases h
    next =>
      injection h with h1 _
      subst h1
      refine ⟨(isValid_iff _).mpr ⟨p, hp, ?_⟩, rfl⟩
      show ((m.Pmap.del id).get p.DaemonID).isSome = true
      rw [GoMap.get_del, if_neg (fun e => hne e.symm)]
      exact hin
  · intro psi hpsi
    rw [hp] at hpsi
    cases hpsi
    have hinv : smapX.isValid
        { m with Pmap := m.Pmap.del p.DaemonID, Version := wrap64 (m.Version + 1) }
        = false := by
      cases hv : smapX.isValid
          { m with Pmap := m.Pmap.del p.DaemonID, Version := wrap64 (m.Version + 1) } with
      | false => rfl
      | true =>
        obtain ⟨q, hq, hqin⟩ := (isValid_iff _).mp hv
        have hq2 : m.ProxySI = some q := hq
        rw [hp] at hq2
        cases hq2
        have hqin2 : ((m.Pmap.del p.DaemonID).get p.DaemonID).isSome = true := hqin
        rw [GoMap.get_del] at hqin2
        simp at hqin2
    refine ⟨{ m with Pmap := m.Pmap.del p.DaemonID, Version := wrap64 (m.Version + 1) },
      ?_, hinv, ?_, ?_⟩
    · unfold smapX.delProxy smapX.GetProxy
      cases hg : m.Pmap.get p.DaemonID with
      | none => rw [hg] at hin; cases hin
      | some v => simp
    · intro self
      unfold smapX.isPrimary
      simp [hinv]
    · intro io w saveSmap lesserVersionIsErr
      refine ⟨"Invalid smapX: " ++ smapX.pp env
          { m with Pmap := m.Pmap.del p.DaemonID, Version := wrap64 (m.Version + 1) },
        ?_, append_ne_empty "Invalid smapX: " _ (by decide)⟩
      unfold smapowner.synchronize
      simp [hinv]

/-- Instance of `edits_and_validity` at the sample map: removing the primary
`P1` from the proxies returns and leaves a map that is not valid. -/
theorem edits_and_validity_witness :
    ∃ m1, (sampleMap 3).delProxy sampleEnv (sampleNode "P1" "http://p1").DaemonID
        = .ret m1 () ∧ m1.isValid = false ∧
      (∀ self, m1.isPrimary self = false) ∧
      ∀ (io : SaveOutcomes) (w : World) (saveSmap lesserVersionIsErr : Bool),
        ∃ errstr, smapowner.synchronize sampleEnv io w m1 saveSmap lesserVersionIsErr
          = .ret w errstr ∧ errstr ≠ "" :=
  (edits_and_validity sampleEnv (sampleMap 3) (by decide)).2.2.2.2
    (sampleNode "P1" "http://p1") rfl

/-! ## Idempotence of `merge` -/

/-- A key that is none of the keys of a map is not found in it. -/
theorem GoMap.get_of_not_mem {V : Type} (m : GoMap V) (k : String)
    (h : k ∉ m.map Prod.fst) : GoMap.get m k = none := by
  induction m with
  | nil => rfl
  | cons e rest ih =>
    obtain ⟨a, v⟩ := e
    simp only [List.map_cons, List.mem_cons, not_or] at h
    unfold GoMap.get
    rw [if_neg (fun e => h.1 e.symm)]
    exact ih h.2

/-- The target loop of `deepcopy` over a list of distinct keys leaves every
visited key mapped as in the list. -/
theorem copyTargets_get (l : GoMap Snode) (hl : GoMap.distinct l) :
    ∀ (d : smapX) (k : String), (smapX.copyTargets d l).Tmap.get k =
      if (GoMap.get l k).isSome then GoMap.get l k else d.Tmap.get k := by
  induction l with
  | nil =>
    intro d k
    simp [smapX.copyTargets, GoMap.get]
  | cons e rest ih =>
    intro d k
    obtain ⟨id, v⟩ := e
    unfold GoMap.distinct at hl
    simp only [List.map_cons, List.nodup_cons] at hl
    unfold smapX.copyTargets
    rw [ih hl.2]
    simp only [GoMap.get_set]
    by_cases hk : k = id
    · subst hk
      simp [GoMap.get, GoMap.get_of_not_mem rest k hl.1]
    · have hk2 : ¬ id = k := fun h => hk h.symm
      simp [GoMap.get, hk, hk2]

/-- The proxy loop of `deepcopy` over a list of distinct keys leaves every
visited key mapped as in the list. -/
theorem copyProxies_get (l : GoMap Snode) (hl : GoMap.distinct l) :
    ∀ (d : smapX) (k : String), (smapX.copyProxies d l).Pmap.get k =
      if (GoMap.get l k).isSome then GoMap.get l k else d.Pmap.get k := by
  induction l with
  | nil =>
    intro d k
    simp [smapX.copyProxies, GoMap.get]
  | cons e rest ih =>
    intro d k
    obtain ⟨id, v⟩ := e
    unfold GoMap.distinct at hl
    simp only [List.map_cons, List.nodup_cons] at hl
    unfold smapX.copyProxies
    rw [ih hl.2]
    simp only [GoMap.get_set]
    by_cases hk : k = id
    · subst hk
      simp [GoMap.get, GoMap.get_of_not_mem rest k hl.1]
    · have hk2 : ¬ id = k := fun h => hk h.symm
      simp [GoMap.get, hk, hk2]

/-- The non-electable loop of `deepcopy` over a list of distinct keys returns
when the map of `dst` is not nil, touches nothing else, and leaves every
visited key mapped as in the list. -/
theorem copyNonElects_get (l : SimpleKVs) (hl : GoMap.distinct l) :
    ∀ (d : smapX) (kvs : SimpleKVs), d.NonElects = some kvs →
    ∃ d1 kvs1, smapX.copyNonElects d l = .ret d1 () ∧ d1.NonElects = some kvs1 ∧
      d1.Tmap = d.Tmap ∧ d1.Pmap = d.Pmap ∧ d1.Version = d.Version ∧
      d1.ProxySI = d.ProxySI ∧
      ∀ k, GoMap.get kvs1 k =
        if (GoMap.get l k).isSome then GoMap.get l k else GoMap.get kvs k := by
  induction l with
  | nil =>
    intro d kvs hd
    exact ⟨d, kvs, rfl, hd, rfl, rfl, rfl, rfl, fun k => by simp [GoMap.get]⟩
  | cons e rest ih =>
    intro d kvs hd
    obtain ⟨id, v⟩ := e
    unfold GoMap.distinct at hl
    simp only [List.map_cons, List.nodup_cons] at hl
    obtain ⟨d1, kvs1, hr, hn, h1, h2, h3, h4, hg⟩ :=
      ih hl.2 { d with NonElects := some (kvs.set id v) } (kvs.set id v) rfl
    refine ⟨d1, kvs1, ?_, hn, h1, h2, h3, h4, ?_⟩
    · unfold smapX.copyNonElects
      simp only [hd]
      exact hr
    · intro k
      rw [hg k, GoMap.get_set]
      by_cases hk : k = id
      · subst hk
        simp [GoMap.get, GoMap.get_of_not_mem rest k hl.1]
      · have hk2 : ¬ id = k := fun h => hk h.symm
        simp [GoMap.get, hk, hk2]

/-- The copy returned by `clone` of a struct whose maps have distinct keys
holds the same map value as the original. -/
theorem clone_same (m c m0 : smapX) (hm : m.distinctKeys) (hc : m.clone = .ret m0 c) :
    c.same m := by
  obtain ⟨hdT, hdP, hdN⟩ := hm
  obtain ⟨tP, tV, tS, tN, _⟩ :=
    copyTargets_spec m.Tmap (m.init m.Tmap.length m.Pmap.length m.lenNonElects)
  obtain ⟨pT, pV, pS, pN, _⟩ := copyProxies_spec m.Pmap
    (smapX.copyTargets (m.init m.Tmap.length m.Pmap.length m.lenNonElects) m.Tmap)
  have gT := copyTargets_get m.Tmap hdT
    (m.init m.Tmap.length m.Pmap.length m.lenNonElects)
  have gP := copyProxies_get m.Pmap hdP
    (smapX.copyTargets (m.init m.Tmap.length m.Pmap.length m.lenNonElects) m.Tmap)
  have hTget : ∀ k, (smapX.copyProxies (smapX.copyTargets
      (m.init m.Tmap.length m.Pmap.length m.lenNonElects) m.Tmap) m.Pmap).Tmap.get k
      = m.Tmap.get k := by
    intro k
    rw [pT, gT k]
    cases h : m.Tmap.get k <;> simp [smapX.init, GoMap.get]
  have hPget : ∀ k, (smapX.copyProxies (smapX.copyTargets
      (m.init m.Tmap.length m.Pmap.length m.lenNonElects) m.Tmap) m.Pmap).Pmap.get k
      = m.Pmap.get k := by
    intro k
    rw [gP k, tP]
    cases h : m.Pmap.get k <;> simp [smapX.init, GoMap.get]
  unfold smapX.clone smapX.deepcopy at hc
  simp only [] at hc
  cases hn : m.NonElects with
  | none =>
    rw [hn] at hc
    simp only [] at hc
    injection hc with _ h2
    subst h2
    refine ⟨pV.trans tV, pS.trans tS, hTget, hPget, ?_⟩
    rw [pN, tN]
    simp [smapX.init, smapX.lenNonElects, hn, sameKVs]
  | some kvs =>
    rw [hn] at hc
    simp only [] at hc
    cases kvs with
    | nil =>
      simp only [smapX.copyNonElects] at hc
      injection hc with _ h2
      subst h2
      refine ⟨pV.trans tV, pS.trans tS, hTget, hPget, ?_⟩
      rw [pN, tN]
      simp [smapX.init, smapX.lenNonElects, hn, sameKVs]
    | cons e rest =>
      have hne : (smapX.copyProxies (smapX.copyTargets
          (m.init m.Tmap.length m.Pmap.length m.lenNonElects) m.Tmap) m.Pmap).NonElects
          = some [] := by
        rw [pN, tN]
        simp [smapX.init, smapX.lenNonElects, hn]
      obtain ⟨d1, kvs1, hr, hn1, h1, h2, h3, h4, hg⟩ :=
        copyNonElects_get (e :: rest) (hdN _ hn) _ [] hne
      rw [hr] at hc
      simp only [] at hc
      injection hc with _ hd1
      subst hd1
      refine ⟨h3.trans (pV.trans tV), h4.trans (pS.trans tS), ?_, ?_, ?_⟩
      · intro k
        rw [h1]
        exact hTget k
      · intro k
        rw [h2]
        exact hPget k
      · have hs : sameKVs d1.NonElects m.NonElects := by
          rw [hn1, hn]
          intro k
          rw [hg k]
          cases h : GoMap.get (e :: rest) k <;> simp [GoMap.get]
        exact hs

/-- The method `merge` returns and changes nothing when every id of the
receiver is already a key of `dst`. -/
theorem merge_noop (src dst : smapX)
    (hT : ∀ e ∈ src.Tmap, dst.Tmap.has e.1 = true ∨ dst.Pmap.has e.1 = true)
    (hP : ∀ e ∈ src.Pmap, dst.Pmap.has e.1 = true ∨ dst.Tmap.has e.1 = true) :
    src.merge dst = .ret dst () := by
  unfold smapX.merge
  rw [mergeTargets_noop src.Tmap dst hT]
  exact mergeProxies_noop src.Pmap dst hP

/-- C27: for all maps `src` and `dst`, a second `src.merge(dst)`, applied to
`dst` as the first left it, ends as the first did and leaves `dst` exactly as
the first left it; and for every map `M`, `clone` returns a copy that
`M.merge` returns on and leaves exactly as it was, a copy that holds the same
map value as `M` (version, primary, and entries of the three maps) when the
maps of `M` have distinct keys, as Go maps have. -/
theorem merge_idempotent :
    (∀ src dst : smapX, src.merge (src.merge dst).state = src.merge dst) ∧
    (∀ m : smapX, ∃ c, m.clone = .ret m c ∧ m.merge c = .ret c () ∧
      (m.distinctKeys → c.same m)) := by
  constructor
  · intro src dst
    cases hT : dst.TmapNil
    · obtain ⟨d1, h1, hP1, _, _, _, _, hPn1, hT1⟩ := mergeTargets_made src.Tmap dst hT
      have hm : src.merge dst = smapX.mergeProxies d1 src.Pmap := by
        unfold smapX.merge
        rw [h1]
      cases hP : dst.PmapNil
      · obtain ⟨d, hd, _, _, _, _, _, hTs, hPs⟩ := merge_made src dst hT hP
        rw [hd]
        show src.merge d = .ret d ()
        apply merge_noop
        · intro e he
          have hs := GoMap.has_of_mem _ e he
          unfold GoMap.has at hs ⊢
          rw [hTs e.1, hPs e.1]
          cases h1 : dst.Tmap.get e.1 <;> cases h2 : dst.Pmap.get e.1 <;>
            cases h3 : src.Tmap.get e.1 <;> simp_all
        · intro e he
          have hs := GoMap.has_of_mem _ e he
          unfold GoMap.has at hs ⊢
          rw [hTs e.1, hPs e.1]
          cases h1 : dst.Tmap.get e.1 <;> cases h2 : dst.Pmap.get e.1 <;>
            cases h3 : src.Tmap.get e.1 <;> cases h4 : src.Pmap.get e.1 <;> simp_all
      · have hs : (smapX.mergeProxies d1 src.Pmap).state = d1 := by
          rcases mergeProxies_nil src.Pmap d1 (hPn1.trans hP) with ⟨h2, _⟩ | h2 <;>
            rw [h2] <;> rfl
        have hn1 : smapX.mergeTargets d1 src.Tmap = .ret d1 () := by
          apply mergeTargets_noop
          intro e he
          have hs := GoMap.has_of_mem _ e he
          unfold GoMap.has at hs ⊢
          rw [hT1 e.1, hP1]
          cases h1 : dst.Tmap.get e.1 <;> cases h2 : dst.Pmap.get e.1 <;> simp_all
        rw [hm, hs]
        unfold smapX.merge
        rw [hn1]
    · rcases mergeTargets_nil src.Tmap dst hT with ⟨h1, hall⟩ | h1
      · have hm : src.merge dst = smapX.mergeProxies dst src.Pmap := by
          unfold smapX.merge
          rw [h1]
        cases hP : dst.PmapNil
        · obtain ⟨d2, h2, iT, _, _, _, _, _, iP⟩ := mergeProxies_made src.Pmap dst hP
          rw [hm, h2]
          show src.merge d2 = .ret d2 ()
          apply merge_noop
          · intro e he
            have hs := GoMap.has_of_mem _ e he
            unfold GoMap.has at hs ⊢
            rw [iT, iP e.1]
            rcases hall e.1 hs with h4 | h4
            · exact Or.inl h4
            · right
              simp [h4]
          · intro e he
            have hs := GoMap.has_of_mem _ e he
            unfold GoMap.has at hs ⊢
            rw [iT, iP e.1]
            cases h1 : dst.Tmap.get e.1 <;> cases h2 : dst.Pmap.get e.1 <;> simp_all
        · have hs : (src.merge dst).state = dst := by
            rw [hm]
            rcases mergeProxies_nil src.Pmap dst hP with ⟨h2, _⟩ | h2 <;> rw [h2] <;> rfl
          rw [hs]
      · have hs : (src.merge dst).state = dst := by
          unfold smapX.merge
          rw [h1]
          rfl
        rw [hs]
  · intro m
    obtain ⟨c, hc, _, _, hT, hP⟩ := clone_spec m
    refine ⟨c, hc, ?_, fun hd => clone_same m c m hd hc⟩
    apply merge_noop
    · intro e he
      left
      rw [hT e.1]
      exact GoMap.has_of_mem _ e he
    · intro e he
      left
      rw [hP e.1]
      exact GoMap.has_of_mem _ e he

end Dfc

namespace Memsys

/-! ## Properties of the SGL -/

/-- Buffers of one size `s`, taken one after the other, hold `s` bytes
each. -/
theorem flatten_length_eq (bufs : List (List UInt8)) (s : Nat)
    (h : ∀ buf ∈ bufs, buf.length = s) : bufs.flatten.length = bufs.length * s := by
  induction bufs with
  | nil => simp
  | cons b rest ih =>
    simp only [List.flatten_cons, List.length_append, List.length_cons]
    rw [ih (fun x hx => h x (List.mem_cons_of_mem _ hx)), h b (List.mem_cons_self _ _)]
    ring

/-- Writing `src` into the buffer `idx` from position `off`, seen on the
buffers taken one after the other. -/
theorem flatten_set (bufs : List (List UInt8)) (s : Nat)
    (h : ∀ buf ∈ bufs, buf.length = s) :
    ∀ (idx : Nat) (buf : List UInt8) (off : Nat) (src : List UInt8),
      bufs[idx]? = some buf → off + src.length ≤ s →
      (bufs.set idx (buf.take off ++ src ++ buf.drop (off + src.length))).flatten =
        bufs.flatten.take (idx * s + off) ++ src ++
          bufs.flatten.drop (idx * s + off + src.length) := by
  induction bufs with
  | nil => intro idx buf off src hb; simp at hb
  | cons b rest ih =>
    intro idx buf off src hb hle
    have hbl : b.length = s := h b (List.mem_cons_self _ _)
    cases idx with
    | zero =>
      simp only [List.getElem?_cons_zero, Option.some.injEq] at hb
      subst hb
      simp only [List.set_cons_zero, List.flatten_cons, Nat.zero_mul, Nat.zero_add]
      rw [List.take_append_of_le_length (by omega),
        List.drop_append_of_le_length (by omega)]
      simp [List.append_assoc]
    | succ i =>
      simp only [List.getElem?_cons_succ] at hb
      simp only [List.set_cons_succ, List.flatten_cons]
      rw [ih (fun x hx => h x (List.mem_cons_of_mem _ hx)) i buf off src hb hle]
      have e1 : (i + 1) * s + off = b.length + (i * s + off) := by rw [hbl]; ring
      rw [e1, Nat.add_assoc b.length, List.take_append, List.drop_append]
      simp [List.append_assoc]

/-- Two writes one after the other are one write of the two slices. -/
theorem overwrite_twice (F src X : List UInt8) (woff size wlen : Nat) (hw : woff ≤ F.length)
    (hs : src.length = size) (hle : size ≤ wlen) :
    (F.take woff ++ src ++ F.drop (woff + size)).take (woff + size) ++ X ++
        (F.take woff ++ src ++ F.drop (woff + size)).drop (woff + size + (wlen - size)) =
      F.take woff ++ (src ++ X) ++ F.drop (woff + wlen) := by
  have hl : (F.take woff ++ src).length = woff + size := by
    simp [List.length_take, hs, Nat.min_eq_left hw]
  have h1 : (F.take woff ++ src ++ F.drop (woff + size)).take (woff + size)
      = F.take woff ++ src := List.take_left' hl
  have h2 : (F.take woff ++ src ++ F.drop (woff + size)).drop (woff + size + (wlen - size))
      = F.drop (woff + wlen) := by
    rw [← hl, List.drop_append, List.drop_drop, hl]
    congr 1
    omega
  rw [h1, h2]
  simp [List.append_assoc]

/-- The loop of `grow` returns when the buffer size is positive and the fuel
covers the missing capacity; it appends buffers of the slab size and touches
nothing else. -/
theorem growLoop_spec (toSize : Nat) :
    ∀ (fuel : Nat) (z : SGL), z.slabOk → (∀ buf ∈ z.sgl, buf.length = z.slab.bufSize) →
      toSize ≤ z.Cap + fuel →
      ∃ z1 extra, SGL.growLoop toSize fuel z = .ok z1 ∧ z1.sgl = z.sgl ++ extra ∧
        (∀ buf ∈ z1.sgl, buf.length = z.slab.bufSize) ∧ z1.slab = z.slab ∧
        z1.woff = z.woff ∧ z1.roff = z.roff ∧ toSize ≤ z1.Cap := by
  intro fuel
  induction fuel with
  | zero =>
    intro z _ hb hle
    refine ⟨z, [], ?_, by simp, hb, rfl, rfl, rfl, by omega⟩
    unfold SGL.growLoop
    rw [if_neg (by omega)]
  | succ fuel ih =>
    intro z hs hb hle
    unfold SGL.growLoop
    by_cases hc : z.Cap < toSize
    · rw [if_pos hc]
      have hb1 : ∀ buf ∈ z.sgl ++ [z.slab.alloc z.sgl.length],
          buf.length = z.slab.bufSize := by
        intro buf hm
        rcases List.mem_append.mp hm with h1 | h1
        · exact hb buf h1
        · simp only [List.mem_singleton] at h1
          rw [h1]
          exact hs.2 _
      have hcap : SGL.Cap { z with sgl := z.sgl ++ [z.slab.alloc z.sgl.length] }
          = z.Cap + z.slab.bufSize := by
        simp only [SGL.Cap, List.length_append, List.length_singleton]
        ring
      have hpos := hs.1
      obtain ⟨z1, extra, hr, hsgl, hb2, hsl, hw, hro, hc2⟩ :=
        ih { z with sgl := z.sgl ++ [z.slab.alloc z.sgl.length] } hs hb1
          (by rw [hcap]; omega)
      exact ⟨z1, [z.slab.alloc z.sgl.length] ++ extra, hr,
        by rw [hsgl]; simp, hb2, hsl, hw, hro, hc2⟩
    · rw [if_neg hc]
      exact ⟨z, [], rfl, by simp, hb, rfl, rfl, rfl, by omega⟩

/-- A copy of a source that fits into the destination from `lo` on. -/
theorem copyInto_fits (dst : List UInt8) (lo : Nat) (src : List UInt8)
    (h : src.length ≤ dst.length - lo) :
    copyInto dst lo dst.length src =
      (dst.take lo ++ src ++ dst.drop (lo + src.length), src.length) := by
  unfold copyInto
  simp only [Nat.min_eq_right h, List.take_of_length_le (le_refl _)]

/-- The loop of `Write` returns; it writes the rest of `p` from the write
offset on, advances the write offset by the number of bytes written, and
keeps the list of buffers and their sizes. -/
theorem writeLoop_spec (p : List UInt8) :
    ∀ (fuel : Nat) (z : SGL) (idx off wlen poff : Nat),
      0 < z.slab.bufSize → (∀ buf ∈ z.sgl, buf.length = z.slab.bufSize) →
      poff + wlen = p.length → z.woff + wlen ≤ z.Cap →
      (0 < wlen → idx * z.slab.bufSize + off = z.woff ∧ off < z.slab.bufSize) →
      wlen ≤ fuel →
      ∃ z1, SGL.writeLoop p fuel z idx off wlen poff = .ok z1 ∧ z1.slab = z.slab ∧
        z1.roff = z.roff ∧ z1.woff = z.woff + wlen ∧ z1.sgl.length = z.sgl.length ∧
        (∀ buf ∈ z1.sgl, buf.length = z.slab.bufSize) ∧
        z1.sgl.flatten = z.sgl.flatten.take z.woff ++ p.drop poff ++
          z.sgl.flatten.drop (z.woff + wlen) := by
  intro fuel
  induction fuel with
  | zero =>
    intro z idx off wlen poff _ hb hp _ _ hf
    have hw0 : wlen = 0 := by omega
    subst hw0
    refine ⟨z, ?_, rfl, rfl, rfl, rfl, hb, ?_⟩
    · unfold SGL.writeLoop
      simp
    · have : p.drop poff = [] := List.drop_of_length_le (by omega)
      simp [this]
  | succ fuel ih =>
    intro z idx off wlen poff hs hb hp hcap hinv hf
    by_cases hw0 : wlen = 0
    · subst hw0
      refine ⟨z, ?_, rfl, rfl, rfl, rfl, hb, ?_⟩
      · unfold SGL.writeLoop
        simp
      · have : p.drop poff = [] := List.drop_of_length_le (by omega)
        simp [this]
    · have hwpos : 0 < wlen := Nat.pos_of_ne_zero hw0
      obtain ⟨hidx, hoff⟩ := hinv hwpos
      have hFlen := flatten_length_eq z.sgl z.slab.bufSize hb
      have hcap2 : z.woff + wlen ≤ z.sgl.length * z.slab.bufSize := hcap
      have hlt : idx * z.slab.bufSize < z.sgl.length * z.slab.bufSize := by omega
      have hidxlt : idx < z.sgl.length := Nat.lt_of_mul_lt_mul_right hlt
      have hget : z.sgl[idx]? = some z.sgl[idx] := List.getElem?_eq_getElem hidxlt
      have hbuf : (z.sgl[idx]).length = z.slab.bufSize :=
        hb _ (List.getElem_mem hidxlt)
      have hsz1 : min (z.slab.bufSize - off) wlen ≤ wlen := Nat.min_le_right _ _
      have hsz2 : min (z.slab.bufSize - off) wlen ≤ z.slab.bufSize - off :=
        Nat.min_le_left _ _
      have hsz3 : 0 < min (z.slab.bufSize - off) wlen := by
        rw [Nat.lt_min]; omega
      have hsrc : ((p.drop poff).take (min (z.slab.bufSize - off) wlen)).length
          = min (z.slab.bufSize - off) wlen := by
        rw [List.length_take, List.length_drop]
        omega
      have hbuf1 : (copyInto z.sgl[idx] off (z.sgl[idx]).length
            ((p.drop poff).take (min (z.slab.bufSize - off) wlen))).1
          = (z.sgl[idx]).take off ++ (p.drop poff).take (min (z.slab.bufSize - off) wlen) ++
              (z.sgl[idx]).drop
                (off + ((p.drop poff).take (min (z.slab.bufSize - off) wlen)).length) := by
        exact congrArg Prod.fst (copyInto_fits _ _ _ (by rw [hsrc, hbuf]; exact hsz2))
      have hflat := flatten_set z.sgl z.slab.bufSize hb idx z.sgl[idx] off
        ((p.drop poff).take (min (z.slab.bufSize - off) wlen)) hget (by rw [hsrc]; omega)
      have hb1 : ∀ buf ∈ z.sgl.set idx
          ((copyInto z.sgl[idx] off (z.sgl[idx]).length
            ((p.drop poff).take (min (z.slab.bufSize - off) wlen))).1),
          buf.length = z.slab.bufSize := by
        intro buf hm
        rcases List.mem_or_eq_of_mem_set hm with h1 | h1
        · exact hb buf h1
        · rw [h1, hbuf1]
          simp only [List.length_append, List.length_take, List.length_drop, hsrc, hbuf]
          omega
      obtain ⟨z1, hr, hsl, hro, hwo, hlen, hb2, hfl⟩ :=
        ih { z with
             sgl := z.sgl.set idx
               ((copyInto z.sgl[idx] off (z.sgl[idx]).length
                 ((p.drop poff).take (min (z.slab.bufSize - off) wlen))).1)
             woff := z.woff + min (z.slab.bufSize - off) wlen }
          (idx + 1) 0 (wlen - min (z.slab.bufSize - off) wlen)
          (poff + min (z.slab.bufSize - off) wlen) hs hb1 (by omega)
          (by
            simp only [SGL.Cap, List.length_set]
            have := hcap2
            omega)
          (by
            intro hpos
            refine ⟨?_, hs⟩
            have hfull : min (z.slab.bufSize - off) wlen = z.slab.bufSize - off := by
              rcases Nat.le_total (z.slab.bufSize - off) wlen with h | h
              · exact Nat.min_eq_left h
              · rw [Nat.min_eq_right h] at hpos; omega
            show (idx + 1) * z.slab.bufSize + 0
              = z.woff + min (z.slab.bufSize - off) wlen
            rw [hfull, ← hidx, Nat.add_mul]
            omega)
          (by omega)
      refine ⟨z1, ?_, hsl, hro, ?_, ?_, hb2, ?_⟩
      · unfold SGL.writeLoop
        rw [if_pos hwpos, if_neg (by omega)]
        simp only [hget]
        rw [if_neg (by omega), if_neg (by omega)]
        exact hr
      · rw [hwo]
        show z.woff + min (z.slab.bufSize - off) wlen
          + (wlen - min (z.slab.bufSize - off) wlen) = z.woff + wlen
        omega
      · rw [hlen]
        exact List.length_set _ _ _
      · rw [hfl]
        show (z.sgl.set idx _).flatten.take (z.woff + min (z.slab.bufSize - off) wlen) ++
            p.drop (poff + min (z.slab.bufSize - off) wlen) ++
            (z.sgl.set idx _).flatten.drop (z.woff + min (z.slab.bufSize - off) wlen
              + (wlen - min (z.slab.bufSize - off) wlen)) = _
        rw [hbuf1, hflat, hidx, hsrc]
        rw [overwrite_twice z.sgl.flatten _ _ z.woff (min (z.slab.bufSize - off) wlen) wlen
          (by rw [hFlen]; omega) hsrc hsz1]
        rw [← List.drop_drop, List.take_append_drop]

/-- On a well-formed SGL, `Write` returns `(len(p), nil)`, leaves a
well-formed SGL over the same slab with the same read offset, advances the
write offset by `len(p)`, and appends `p` to the bytes written. -/
theorem Write_spec (z : SGL) (p : List UInt8) (hz : z.wf) :
    ∃ z1, z.Write p = .ok (z1, p.length, none) ∧ z1.wf ∧ z1.slab = z.slab ∧
      z1.roff = z.roff ∧ z1.woff = z.woff + p.length ∧ z1.written = z.written ++ p := by
  obtain ⟨hslab, hb, hw⟩ := hz
  have hFlen := flatten_length_eq z.sgl z.slab.bufSize hb
  have hgrow : ∃ zg extra,
      (if z.woff + p.length > z.Cap then z.grow (z.woff + p.length) else .ok z) = .ok zg ∧
      zg.sgl = z.sgl ++ extra ∧ (∀ buf ∈ zg.sgl, buf.length = z.slab.bufSize) ∧
      zg.slab = z.slab ∧ zg.woff = z.woff ∧ zg.roff = z.roff ∧
      z.woff + p.length ≤ zg.Cap := by
    by_cases hc : z.woff + p.length > z.Cap
    · rw [if_pos hc]
      exact growLoop_spec (z.woff + p.length) (z.woff + p.length) z hslab hb (by omega)
    · rw [if_neg hc]
      exact ⟨z, [], rfl, by simp, hb, rfl, rfl, rfl, by omega⟩
  obtain ⟨zg, extra, hg, hsgl, hbg, hslg, hwg, hrg, hcapg⟩ := hgrow
  have hpos : 0 < zg.slab.bufSize := by rw [hslg]; exact hslab.1
  have hbg2 : ∀ buf ∈ zg.sgl, buf.length = zg.slab.bufSize := by rw [hslg]; exact hbg
  obtain ⟨z2, hr, hsl2, hro2, hwo2, hlen2, hb2, hfl2⟩ :=
    writeLoop_spec p p.length zg (zg.woff / zg.slab.bufSize) (zg.woff % zg.slab.bufSize)
      p.length 0 hpos hbg2 (by omega) (by rw [hwg]; exact hcapg)
      (fun _ => ⟨Nat.div_add_mod' _ _, Nat.mod_lt _ hpos⟩) (le_refl _)
  refine ⟨z2, ?_, ⟨?_, ?_, ?_⟩, hsl2.trans hslg, hro2.trans hrg, by rw [hwo2, hwg], ?_⟩
  · unfold SGL.Write
    simp only []
    rw [hg]
    simp only []
    rw [if_neg (by omega), hr]
  · unfold SGL.slabOk
    rw [hsl2, hslg]
    exact hslab
  · rw [hsl2]
    exact hb2
  · unfold SGL.Cap
    rw [hwo2, hlen2, hsl2, hwg]
    exact hcapg
  · unfold SGL.written
    rw [hfl2, hwo2, hwg, hsgl, List.flatten_append, List.drop_zero]
    have h1 : (z.sgl.flatten ++ extra.flatten).take z.woff = z.sgl.flatten.take z.woff :=
      List.take_append_of_le_length (by rw [hFlen]; exact hw)
    rw [h1]
    have hw2 : z.woff ≤ z.sgl.length * z.slab.bufSize := hw
    have hl : (z.sgl.flatten.take z.woff ++ p).length = z.woff + p.length := by
      rw [List.length_append, List.length_take, hFlen, Nat.min_eq_left hw2]
    exact List.take_left' hl

/-- A sequence of `Write` calls on a well-formed SGL returns; the bytes
written are extended by the slices in order. -/
theorem writeAll_spec (ps : List (List UInt8)) :
    ∀ z : SGL, z.wf →
      ∃ z1, SGL.writeAll z ps = .ok z1 ∧ z1.wf ∧ z1.slab = z.slab ∧ z1.roff = z.roff ∧
        z1.woff = z.woff + (ps.map List.length).sum ∧
        z1.written = z.written ++ ps.flatten := by
  induction ps with
  | nil =>
    intro z hz
    exact ⟨z, rfl, hz, rfl, rfl, by simp, by simp⟩
  | cons p rest ih =>
    intro z hz
    obtain ⟨z1, hw, hz1, hs1, hr1, hwo1, hwr1⟩ := Write_spec z p hz
    obtain ⟨z2, hw2, hz2, hs2, hr2, hwo2, hwr2⟩ := ih z1 hz1
    refine ⟨z2, ?_, hz2, hs2.trans hs1, hr2.trans hr1, ?_, ?_⟩
    · unfold SGL.writeAll
      rw [hw]
      exact hw2
    · rw [hwo2, hwo1]
      simp [Nat.add_assoc]
    · rw [hwr2, hwr1]
      simp [List.append_assoc]

/-- The loop of `ReadAll` returns; it fills `b` from `off` on with the bytes
of the buffers, as far as `b` and the buffers reach. -/
theorem readAllLoop_spec (bufs : List (List UInt8)) :
    ∀ (b : List UInt8) (off : Nat), off ≤ b.length →
      SGL.readAllLoop bufs b off =
        .ok (b.take off ++ bufs.flatten.take (b.length - off) ++
          b.drop (off + min (b.length - off) bufs.flatten.length)) := by
  induction bufs with
  | nil =>
    intro b off _
    simp [SGL.readAllLoop]
  | cons buf rest ih =>
    intro b off hoff
    unfold SGL.readAllLoop
    rw [if_neg (by omega)]
    simp only [copyInto]
    have hlen : (b.take off ++ buf.take (min (b.length - off) buf.length) ++
        b.drop (off + min (b.length - off) buf.length)).length = b.length := by
      simp only [List.length_append, List.length_take, List.length_drop]
      omega
    rw [ih _ _ (by rw [hlen]; omega), hlen]
    have hA : (b.take off ++ buf.take (min (b.length - off) buf.length)).length
        = off + min (b.length - off) buf.length := by
      simp only [List.length_append, List.length_take]
      omega
    have h1 : (b.take off ++ buf.take (min (b.length - off) buf.length) ++
        b.drop (off + min (b.length - off) buf.length)).take
          (off + min (b.length - off) buf.length)
        = b.take off ++ buf.take (min (b.length - off) buf.length) := List.take_left' hA
    have h2 : ∀ k, (b.take off ++ buf.take (min (b.length - off) buf.length) ++
        b.drop (off + min (b.length - off) buf.length)).drop
          (off + min (b.length - off) buf.length + k)
        = b.drop (off + min (b.length - off) buf.length + k) := by
      intro k
      rw [← hA, List.drop_append, List.drop_drop]
    rw [h1, h2]
    simp only [List.flatten_cons, List.length_append]
    rcases Nat.le_total (b.length - off) buf.length with hle | hle
    · rw [Nat.min_eq_left hle]
      have e1 : b.length - (off + (b.length - off)) = 0 := by omega
      rw [e1, List.take_zero, Nat.zero_min, List.take_append_of_le_length hle]
      have e2 : min (b.length - off) (buf.length + rest.flatten.length) = b.length - off := by
        omega
      rw [e2]
      simp
    · rw [Nat.min_eq_right hle]
      have e1 : (buf ++ rest.flatten).take (b.length - off)
          = buf ++ rest.flatten.take (b.length - (off + buf.length)) := by
        rw [List.take_append_eq_append_take, List.take_of_length_le hle]
        congr 2
        omega
      rw [e1]
      have e2 : off + buf.length + min (b.length - (off + buf.length)) rest.flatten.length
          = off + min (b.length - off) (buf.length + rest.flatten.length) := by
        omega
      rw [e2]
      simp [List.append_assoc]

/-- On a well-formed SGL, `ReadAll` returns the bytes written and a nil
error, whatever the read offset is. -/
theorem ReadAll_spec (z : SGL) (hz : z.wf) : z.ReadAll = .ok (z.written, none) := by
  obtain ⟨_, hb, hw⟩ := hz
  have hFlen := flatten_length_eq z.sgl z.slab.bufSize hb
  unfold SGL.ReadAll
  rw [readAllLoop_spec z.sgl _ 0 (Nat.zero_le _)]
  simp only [SGL.Size, List.length_replicate, Nat.sub_zero, List.take_zero, List.nil_append,
    Nat.zero_add, SGL.written]
  have hmin : min z.woff z.sgl.flatten.length = z.woff := by
    rw [hFlen]
    exact Nat.min_eq_left hw
  rw [hmin, List.drop_of_length_le (by simp)]
  simp

/-- Dropping past the first of two appended lists. -/
theorem drop_append_add (A B : List UInt8) (n k : Nat) (h : A.length = n) :
    (A ++ B).drop (n + k) = B.drop k := by
  subst h
  exact List.drop_append _

/-- A buffer of the list, read from position `off`, holds the bytes of the
buffers taken one after the other from position `idx * s + off`. -/
theorem buffer_eq_flatten (bufs : List (List UInt8)) (s : Nat)
    (h : ∀ buf ∈ bufs, buf.length = s) :
    ∀ (idx : Nat) (buf : List UInt8) (off n : Nat), bufs[idx]? = some buf → off + n ≤ s →
      (buf.drop off).take n = (bufs.flatten.drop (idx * s + off)).take n := by
  induction bufs with
  | nil => intro idx buf off n hb; simp at hb
  | cons b rest ih =>
    intro idx buf off n hb hle
    have hbl : b.length = s := h b (List.mem_cons_self _ _)
    cases idx with
    | zero =>
      simp only [List.getElem?_cons_zero, Option.some.injEq] at hb
      subst hb
      simp only [List.flatten_cons, Nat.zero_mul, Nat.zero_add]
      rw [List.drop_append_of_le_length (by omega),
        List.take_append_of_le_length (by rw [List.length_drop]; omega)]
    | succ i =>
      simp only [List.getElem?_cons_succ] at hb
      rw [ih (fun x hx => h x (List.mem_cons_of_mem _ hx)) i buf off n hb hle]
      simp only [List.flatten_cons]
      have e1 : (i + 1) * s + off = b.length + (i * s + off) := by rw [hbl]; ring
      rw [e1, List.drop_append]

/-- The loop of `readAtOffset` returns; it copies the next
`min (len(b) - n) (woff - roff)` bytes from position `roff` of the buffers to
position `n` of `b` and advances `n` and `roff` by that number. -/
theorem readLoop_spec (z : SGL) (hs : 0 < z.slab.bufSize)
    (hb : ∀ buf ∈ z.sgl, buf.length = z.slab.bufSize) (hw : z.woff ≤ z.Cap) :
    ∀ (fuel : Nat) (b : List UInt8) (n roff idx : Nat), n ≤ b.length → roff ≤ z.woff →
      (roff = (idx + 1) * z.slab.bufSize ∨ n = b.length ∨ roff = z.woff) →
      z.sgl.length ≤ idx + 1 + fuel →
      SGL.readLoop z fuel b n roff idx =
        .ok (b.take n ++ (z.sgl.flatten.drop roff).take (min (b.length - n) (z.woff - roff)) ++
              b.drop (n + min (b.length - n) (z.woff - roff)),
             n + min (b.length - n) (z.woff - roff),
             roff + min (b.length - n) (z.woff - roff)) := by
  have hFlen := flatten_length_eq z.sgl z.slab.bufSize hb
  have hw2 : z.woff ≤ z.sgl.length * z.slab.bufSize := hw
  have hdone : ∀ (b : List UInt8) (n roff idx : Nat), n ≤ b.length → roff ≤ z.woff →
      (roff = (idx + 1) * z.slab.bufSize ∨ n = b.length ∨ roff = z.woff) →
      ¬ (n < b.length ∧ idx + 1 < z.sgl.length) →
      min (b.length - n) (z.woff - roff) = 0 := by
    intro b n roff idx hn hr hd hc
    rcases hd with h1 | h1 | h1
    · by_cases hnb : n < b.length
      · have hi : z.sgl.length ≤ idx + 1 := by
          by_contra hcon
          exact hc ⟨hnb, by omega⟩
        have := Nat.mul_le_mul_right z.slab.bufSize hi
        omega
      · omega
    · omega
    · omega
  have hstop : ∀ (b : List UInt8) (n roff : Nat),
      min (b.length - n) (z.woff - roff) = 0 →
      ((b, n, roff) : List UInt8 × Nat × Nat) =
        (b.take n ++ (z.sgl.flatten.drop roff).take (min (b.length - n) (z.woff - roff)) ++
              b.drop (n + min (b.length - n) (z.woff - roff)),
             n + min (b.length - n) (z.woff - roff),
             roff + min (b.length - n) (z.woff - roff)) := by
    intro b n roff h0
    rw [h0]
    simp
  intro fuel
  induction fuel with
  | zero =>
    intro b n roff idx hn hr hd hf
    unfold SGL.readLoop
    have hc : ¬ (n < b.length ∧ idx + 1 < z.sgl.length) := by omega
    rw [if_neg hc, ← hstop b n roff (hdone b n roff idx hn hr hd hc)]
  | succ fuel ih =>
    intro b n roff idx hn hr hd hf
    unfold SGL.readLoop
    by_cases hc : n < b.length ∧ idx + 1 < z.sgl.length
    · rw [if_pos hc]
      obtain ⟨hnb, hil⟩ := hc
      have hget : z.sgl[idx + 1]? = some z.sgl[idx + 1] := List.getElem?_eq_getElem hil
      have hbuf : (z.sgl[idx + 1]).length = z.slab.bufSize := hb _ (List.getElem_mem hil)
      simp only [hget, copyInto]
      have hn1 : min (n + min (b.length - n) (z.woff - roff) - n) (z.sgl[idx + 1]).length
          = min (min (b.length - n) (z.woff - roff)) z.slab.bufSize := by
        rw [hbuf]
        congr 1
        omega
      rw [hn1]
      have hlen : (b.take n ++
          (z.sgl[idx + 1]).take (min (min (b.length - n) (z.woff - roff)) z.slab.bufSize) ++
          b.drop (n + min (min (b.length - n) (z.woff - roff)) z.slab.bufSize)).length
          = b.length := by
        simp only [List.length_append, List.length_take, List.length_drop, hbuf]
        omega
      have hbytes : (z.sgl[idx + 1]).take
            (min (min (b.length - n) (z.woff - roff)) z.slab.bufSize)
          = (z.sgl.flatten.drop roff).take
            (min (min (b.length - n) (z.woff - roff)) z.slab.bufSize) := by
        rcases hd with h1 | h1 | h1
        · have := buffer_eq_flatten z.sgl z.slab.bufSize hb (idx + 1) z.sgl[idx + 1] 0
            (min (min (b.length - n) (z.woff - roff)) z.slab.bufSize) hget (by omega)
          simp only [List.drop_zero, Nat.add_zero] at this
          subst h1
          exact this
        · omega
        · have h0 : min (min (b.length - n) (z.woff - roff)) z.slab.bufSize = 0 := by omega
          rw [h0]
          simp
      rw [ih _ _ _ _ (by rw [hlen]; omega) (by omega)
        (by
          rcases hd with h1 | h1 | h1
          · rcases Nat.lt_or_ge (min (b.length - n) (z.woff - roff)) z.slab.bufSize
              with hlt | hge
            · rw [hlen, Nat.min_eq_left (le_of_lt hlt)]
              omega
            · left
              rw [Nat.min_eq_right hge, h1]
              ring
          · omega
          · right; right
            omega)
        (by omega)]
      rw [hlen, hbytes]
      have hA : (b.take n ++ (z.sgl.flatten.drop roff).take
            (min (min (b.length - n) (z.woff - roff)) z.slab.bufSize)).length
          = n + min (min (b.length - n) (z.woff - roff)) z.slab.bufSize := by
        simp only [List.length_append, List.length_take, List.length_drop, hFlen]
        omega
      have h1 : (b.take n ++ (z.sgl.flatten.drop roff).take
            (min (min (b.length - n) (z.woff - roff)) z.slab.bufSize) ++
          b.drop (n + min (min (b.length - n) (z.woff - roff)) z.slab.bufSize)).take
            (n + min (min (b.length - n) (z.woff - roff)) z.slab.bufSize)
          = b.take n ++ (z.sgl.flatten.drop roff).take
            (min (min (b.length - n) (z.woff - roff)) z.slab.bufSize) := List.take_left' hA
      have h2 : ∀ k, (b.take n ++ (z.sgl.flatten.drop roff).take
            (min (min (b.length - n) (z.woff - roff)) z.slab.bufSize) ++
          b.drop (n + min (min (b.length - n) (z.woff - roff)) z.slab.bufSize)).drop
            (n + min (min (b.length - n) (z.woff - roff)) z.slab.bufSize + k)
          = b.drop (n + min (min (b.length - n) (z.woff - roff)) z.slab.bufSize + k) := by
        intro k
        rw [← hA, List.drop_append, List.drop_drop]
      rw [h1, h2]
      have hsum : min (min (b.length - n) (z.woff - roff)) z.slab.bufSize +
          min (b.length - (n + min (min (b.length - n) (z.woff - roff)) z.slab.bufSize))
            (z.woff - (roff + min (min (b.length - n) (z.woff - roff)) z.slab.bufSize))
          = min (b.length - n) (z.woff - roff) := by
        omega
      have htake : (z.sgl.flatten.drop roff).take (min (b.length - n) (z.woff - roff))
          = (z.sgl.flatten.drop roff).take
              (min (min (b.length - n) (z.woff - roff)) z.slab.bufSize) ++
            (z.sgl.flatten.drop
              (roff + min (min (b.length - n) (z.woff - roff)) z.slab.bufSize)).take
              (min (b.length - (n + min (min (b.length - n) (z.woff - roff)) z.slab.bufSize))
                (z.woff - (roff + min (min (b.length - n) (z.woff - roff)) z.slab.bufSize)))
          := by
        rw [← List.drop_drop, ← List.take_add, hsum]
      rw [htake]
      simp only [Nat.add_assoc, hsum, List.append_assoc]
    · rw [if_neg hc, ← hstop b n roff (hdone b n roff idx hn hr hd hc)]

/-- On a well-formed SGL, `readAtOffset` returns: it copies
`n = min (len(b)) (woff - roff)` bytes, the written bytes from position `roff`
on, to the front of `b`, returns `roff + n`, and returns `io.EOF` exactly when
`roff >= woff` or `n < len(b)`. -/
theorem readAtOffset_spec (z : SGL) (hz : z.wf) (b : List UInt8) (r : Nat) :
    z.readAtOffset b r =
      .ok ((z.written.drop r).take (min b.length (z.woff - r)) ++
             b.drop (min b.length (z.woff - r)),
           min b.length (z.woff - r), r + min b.length (z.woff - r),
           if r ≥ z.woff ∨ min b.length (z.woff - r) < b.length then some .EOF else none) := by
  obtain ⟨hslab, hb, hw⟩ := hz
  have hFlen := flatten_length_eq z.sgl z.slab.bufSize hb
  have hw2 : z.woff ≤ z.sgl.length * z.slab.bufSize := hw
  have hpos := hslab.1
  have hwr : (z.written.drop r).take (min b.length (z.woff - r))
      = (z.sgl.flatten.drop r).take (min b.length (z.woff - r)) := by
    unfold SGL.written
    rw [List.drop_take, List.take_take]
    congr 1
    omega
  rw [hwr]
  unfold SGL.readAtOffset
  simp only []
  by_cases hge : r ≥ z.woff
  · rw [if_pos hge]
    have h0 : min b.length (z.woff - r) = 0 := by omega
    simp [h0, hge]
  · rw [if_neg hge, if_neg (by omega)]
    have hrlt : r < z.woff := by omega
    have hidxlt : r / z.slab.bufSize < z.sgl.length := by
      rw [Nat.div_lt_iff_lt_mul hpos]
      omega
    have hget : z.sgl[r / z.slab.bufSize]? = some z.sgl[r / z.slab.bufSize] :=
      List.getElem?_eq_getElem hidxlt
    have hbuf : (z.sgl[r / z.slab.bufSize]).length = z.slab.bufSize :=
      hb _ (List.getElem_mem hidxlt)
    have hoff : r % z.slab.bufSize < z.slab.bufSize := Nat.mod_lt _ hpos
    have hdm : r / z.slab.bufSize * z.slab.bufSize + r % z.slab.bufSize = r :=
      Nat.div_add_mod' _ _
    have hfull : r + (z.slab.bufSize - r % z.slab.bufSize)
        = (r / z.slab.bufSize + 1) * z.slab.bufSize := by
      rw [Nat.add_mul, Nat.one_mul]
      omega
    simp only [hget]
    rw [if_neg (by omega)]
    simp only [copyInto, List.take_zero, List.nil_append, Nat.sub_zero, Nat.zero_add,
      List.length_drop, hbuf]
    have hbytes : ((z.sgl[r / z.slab.bufSize]).drop (r % z.slab.bufSize)).take
          (min (min b.length (z.woff - r)) (z.slab.bufSize - r % z.slab.bufSize))
        = (z.sgl.flatten.drop r).take
          (min (min b.length (z.woff - r)) (z.slab.bufSize - r % z.slab.bufSize)) := by
      have := buffer_eq_flatten z.sgl z.slab.bufSize hb (r / z.slab.bufSize)
        z.sgl[r / z.slab.bufSize] (r % z.slab.bufSize)
        (min (min b.length (z.woff - r)) (z.slab.bufSize - r % z.slab.bufSize)) hget
        (by omega)
      rw [hdm] at this
      exact this
    rw [hbytes]
    have hlen : ((z.sgl.flatten.drop r).take
          (min (min b.length (z.woff - r)) (z.slab.bufSize - r % z.slab.bufSize)) ++
        b.drop (min (min b.length (z.woff - r)) (z.slab.bufSize - r % z.slab.bufSize))).length
        = b.length := by
      simp only [List.length_append, List.length_take, List.length_drop, hFlen]
      omega
    have hA : ((z.sgl.flatten.drop r).take
          (min (min b.length (z.woff - r)) (z.slab.bufSize - r % z.slab.bufSize))).length
        = min (min b.length (z.woff - r)) (z.slab.bufSize - r % z.slab.bufSize) := by
      simp only [List.length_take, List.length_drop, hFlen]
      omega
    rw [readLoop_spec z hpos hb hw z.sgl.length _ _ _ _ (by rw [hlen]; omega) (by omega)
      (by
        rcases Nat.lt_or_ge (min b.length (z.woff - r)) (z.slab.bufSize - r % z.slab.bufSize)
          with hlt | hge2
        · rw [hlen, Nat.min_eq_left (le_of_lt hlt)]
          right
          rcases Nat.le_total b.length (z.woff - r) with h | h
          · left
            exact Nat.min_eq_left h
          · right
            rw [Nat.min_eq_right h]
            omega
        · left
          rw [Nat.min_eq_right hge2]
          exact hfull)
      (Nat.le_add_left _ _)]
    simp only [hlen]
    have hsum : min (min b.length (z.woff - r)) (z.slab.bufSize - r % z.slab.bufSize) +
        min (b.length - min (min b.length (z.woff - r)) (z.slab.bufSize - r % z.slab.bufSize))
          (z.woff -
            (r + min (min b.length (z.woff - r)) (z.slab.bufSize - r % z.slab.bufSize)))
        = min b.length (z.woff - r) := by
      omega
    have h1 : ((z.sgl.flatten.drop r).take
          (min (min b.length (z.woff - r)) (z.slab.bufSize - r % z.slab.bufSize)) ++
        b.drop (min (min b.length (z.woff - r)) (z.slab.bufSize - r % z.slab.bufSize))).take
          (min (min b.length (z.woff - r)) (z.slab.bufSize - r % z.slab.bufSize))
        = (z.sgl.flatten.drop r).take
          (min (min b.length (z.woff - r)) (z.slab.bufSize - r % z.slab.bufSize)) :=
      List.take_left' hA
    have h2 : ∀ k, ((z.sgl.flatten.drop r).take
          (min (min b.length (z.woff - r)) (z.slab.bufSize - r % z.slab.bufSize)) ++
        b.drop (min (min b.length (z.woff - r)) (z.slab.bufSize - r % z.slab.bufSize))).drop
          (min (min b.length (z.woff - r)) (z.slab.bufSize - r % z.slab.bufSize) + k)
        = b.drop (min (min b.length (z.woff - r)) (z.slab.bufSize - r % z.slab.bufSize) + k)
        := by
      intro k
      rw [drop_append_add _ _ _ _ hA, List.drop_drop]
    rw [h1, h2, Nat.add_assoc r, hsum]
    have htake : (z.sgl.flatten.drop r).take (min b.length (z.woff - r))
        = (z.sgl.flatten.drop r).take
            (min (min b.length (z.woff - r)) (z.slab.bufSize - r % z.slab.bufSize)) ++
          (z.sgl.flatten.drop
            (r + min (min b.length (z.woff - r)) (z.slab.bufSize - r % z.slab.bufSize))).take
            (min (b.length -
                min (min b.length (z.woff - r)) (z.slab.bufSize - r % z.slab.bufSize))
              (z.woff -
                (r + min (min b.length (z.woff - r)) (z.slab.bufSize - r % z.slab.bufSize))))
        := by
      rw [← List.drop_drop, ← List.take_add, hsum]
    rw [htake]
    simp [hge]

/-- The empty sample SGL is well-formed. -/
theorem sampleSGL_wf : sampleSGL.wf := by
  refine ⟨⟨by decide, fun _ => rfl⟩, ?_, Nat.zero_le _⟩
  intro buf hbuf
  cases hbuf

/-- C23: on an SGL over a slab with positive buffer size that starts empty,
after any sequence of `Write` calls the next `Write(p)` returns
`(len(p), nil)`; `Size()` is then the sum of the lengths of all slices
written, `Cap() >= Size()` holds, and `ReadAll`, at every read offset, returns
a nil error and the concatenation of the slices written, which has `Size()`
bytes. -/
theorem write_readAll (z0 : SGL) (hz0 : z0.wf) (hempty : z0.woff = 0)
    (done : List (List UInt8)) (p : List UInt8) :
    ∃ z z1, SGL.writeAll z0 done = .ok z ∧ z.Write p = .ok (z1, p.length, none) ∧
      z1.Size = (done.map List.length).sum + p.length ∧ z1.Size ≤ z1.Cap ∧
      (∀ r, SGL.ReadAll { z1 with roff := r } = .ok (done.flatten ++ p, none)) ∧
      (done.flatten ++ p).length = z1.Size := by
  obtain ⟨z, hwa, hz, _, _, hwo, hwr⟩ := writeAll_spec done z0 hz0
  obtain ⟨z1, hw1, hz1, _, _, hwo1, hwr1⟩ := Write_spec z p hz
  have hw0 : z0.written = [] := by
    unfold SGL.written
    rw [hempty, List.take_zero]
  have hsize : z1.Size = (done.map List.length).sum + p.length := by
    unfold SGL.Size
    rw [hwo1, hwo, hempty, Nat.zero_add]
  refine ⟨z, z1, hwa, hw1, hsize, hz1.2.2, ?_, ?_⟩
  · intro r
    have hzr : SGL.wf { z1 with roff := r } := hz1
    rw [ReadAll_spec _ hzr]
    show Outcome.ok (z1.written, none) = _
    rw [hwr1, hwr, hw0, List.nil_append]
  · rw [hsize]
    simp [List.length_flatten]

/-- Instance of `write_readAll` at the empty sample SGL of buffer size 4:
after a write of 3 bytes, a write of 6 bytes returns `(6, nil)` and `ReadAll`
returns the 9 bytes in order. -/
theorem write_readAll_witness :
    ∃ z z1, SGL.writeAll sampleSGL [[1, 2, 3]] = .ok z ∧
      z.Write [4, 5, 6, 7, 8, 9] = .ok (z1, ([4, 5, 6, 7, 8, 9] : List UInt8).length, none) ∧
      z1.Size = (([[1, 2, 3]] : List (List UInt8)).map List.length).sum
        + ([4, 5, 6, 7, 8, 9] : List UInt8).length ∧
      z1.Size ≤ z1.Cap ∧
      (∀ r, SGL.ReadAll { z1 with roff := r }
        = .ok (([[1, 2, 3]] : List (List UInt8)).flatten ++ [4, 5, 6, 7, 8, 9], none)) ∧
      (([[1, 2, 3]] : List (List UInt8)).flatten ++ [4, 5, 6, 7, 8, 9]).length = z1.Size :=
  write_readAll sampleSGL sampleSGL_wf rfl [[1, 2, 3]] [4, 5, 6, 7, 8, 9]

/-- C28: on an SGL over a slab with positive buffer size whose contents were
produced by `Write` calls from empty, with `w` bytes written, for every read
offset `r` and buffer `b`: `Read(b)` returns, having copied
`n = min (len(b)) (w - r)` bytes (none when `r >= w`), the written bytes at
positions `[r, r + n)`, to the front of `b`; the read offset is then `r + n`
and `Size()` is unchanged; the error is `io.EOF` exactly when `r >= w` or
`n < len(b)` and nil otherwise; `readAtOffset`, which `Reader.Read` calls,
returns the same; and the next `Read` continues at position `r + n`. -/
theorem write_read (z0 : SGL) (hz0 : z0.wf) (hempty : z0.woff = 0)
    (ps : List (List UInt8)) (r : Nat) (b : List UInt8) :
    ∃ z, SGL.writeAll z0 ps = .ok z ∧ z.Size = ps.flatten.length ∧
      SGL.Read { z with roff := r } b =
        .ok ({ z with roff := r + min b.length (z.Size - r) },
             (ps.flatten.drop r).take (min b.length (z.Size - r)) ++
               b.drop (min b.length (z.Size - r)),
             min b.length (z.Size - r),
             if r ≥ z.Size ∨ min b.length (z.Size - r) < b.length then some .EOF else none) ∧
      SGL.Size { z with roff := r + min b.length (z.Size - r) } = z.Size ∧
      SGL.readAtOffset z b r =
        .ok ((ps.flatten.drop r).take (min b.length (z.Size - r)) ++
               b.drop (min b.length (z.Size - r)),
             min b.length (z.Size - r), r + min b.length (z.Size - r),
             if r ≥ z.Size ∨ min b.length (z.Size - r) < b.length then some .EOF else none) ∧
      ((ps.flatten.drop r).take (min b.length (z.Size - r))).length
        = min b.length (z.Size - r) ∧
      (∀ b2 : List UInt8,
        SGL.Read { z with roff := r + min b.length (z.Size - r) } b2 =
          .ok ({ z with roff := r + min b.length (z.Size - r)
                    + min b2.length (z.Size - (r + min b.length (z.Size - r))) },
               (ps.flatten.drop (r + min b.length (z.Size - r))).take
                   (min b2.length (z.Size - (r + min b.length (z.Size - r)))) ++
                 b2.drop (min b2.length (z.Size - (r + min b.length (z.Size - r)))),
               min b2.length (z.Size - (r + min b.length (z.Size - r))),
               if r + min b.length (z.Size - r) ≥ z.Size ∨
                   min b2.length (z.Size - (r + min b.length (z.Size - r))) < b2.length
               then some .EOF else none)) := by
  obtain ⟨z, hwa, hz, _, _, hwo, hwr⟩ := writeAll_spec ps z0 hz0
  have hw0 : z0.written = [] := by
    unfold SGL.written
    rw [hempty, List.take_zero]
  have hwritten : z.written = ps.flatten := by
    rw [hwr, hw0, List.nil_append]
  have hsize : z.Size = ps.flatten.length := by
    unfold SGL.Size
    rw [hwo, hempty, Nat.zero_add]
    simp [List.length_flatten]
  have hread : ∀ (q : Nat) (c : List UInt8),
      SGL.Read { z with roff := q } c =
        .ok ({ z with roff := q + min c.length (z.Size - q) },
             (ps.flatten.drop q).take (min c.length (z.Size - q)) ++
               c.drop (min c.length (z.Size - q)),
             min c.length (z.Size - q),
             if q ≥ z.Size ∨ min c.length (z.Size - q) < c.length then some .EOF
             else none) := by
    intro q c
    have hzq : SGL.wf { z with roff := q } := hz
    unfold SGL.Read
    rw [readAtOffset_spec _ hzq c q]
    show Outcome.ok (_, (z.written.drop q).take _ ++ _, _, _) = _
    rw [hwritten]
    rfl
  refine ⟨z, hwa, hsize, hread r b, rfl, ?_, ?_, fun b2 => hread _ b2⟩
  · rw [readAtOffset_spec z hz b r, hwritten]
    rfl
  · rw [List.length_take, List.length_drop, hsize]
    omega

/-- Instance of `write_read` at the empty sample SGL of buffer size 4 after
writes of 3 and 6 bytes: a `Read` into a buffer of 5 bytes at read offset 2
and the `Read` that follows it. -/
theorem write_read_witness :
    ∃ z, SGL.writeAll sampleSGL [[1, 2, 3], [4, 5, 6, 7, 8, 9]] = .ok z ∧
      z.Size = ([[1, 2, 3], [4, 5, 6, 7, 8, 9]] : List (List UInt8)).flatten.length ∧
      SGL.Read { z with roff := 2 } [0, 0, 0, 0, 0] =
        .ok ({ z with roff := 2 + min ([0, 0, 0, 0, 0] : List UInt8).length (z.Size - 2) },
             (([[1, 2, 3], [4, 5, 6, 7, 8, 9]] : List (List UInt8)).flatten.drop 2).take
                 (min ([0, 0, 0, 0, 0] : List UInt8).length (z.Size - 2)) ++
               ([0, 0, 0, 0, 0] : List UInt8).drop
                 (min ([0, 0, 0, 0, 0] : List UInt8).length (z.Size - 2)),
             min ([0, 0, 0, 0, 0] : List UInt8).length (z.Size - 2),
             if 2 ≥ z.Size ∨
                 min ([0, 0, 0, 0, 0] : List UInt8).length (z.Size - 2)
                   < ([0, 0, 0, 0, 0] : List UInt8).length
             then some .EOF else none) :=
  (write_read sampleSGL sampleSGL_wf rfl [[1, 2, 3], [4, 5, 6, 7, 8, 9]] 2
    [0, 0, 0, 0, 0]).imp (fun _ h => ⟨h.1, h.2.1, h.2.2.1⟩)

end Memsys
